import Mathlib

/-! SafeSerializer: a shallow embedding of the fixed-layout binary codec.

The development follows `src/serializer/SafeSerializer.h` (byte-order primitives,
raw buffer copies, the field traversal engine and the packed-size calculator) and
`src/serializer/serializer.cpp` (the two schema structs built on top of it).

Conventions of the embedding:

* `size_t` is a 64-bit unsigned integer: every `size_t` addition is taken modulo
  `SIZE_MOD = 2 ^ 64`.
* A scalar value is an `Int` together with its C type (`CType`).  Floating-point
  values are represented by their IEEE-754 bit pattern, so that no arithmetic is
  ever performed on them (the code only copies and byte-swaps them).
* Memory is a function from addresses to bytes; a pointer is an address, an unbounded
  natural number.  The buffer handed to the engine is the address range
  `[buffer, buffer + buffer_len)`, and an access outside that range is visible in the
  model.  The address `buffer + offset` is the one the code uses as long as the cursor
  lies within the buffer; for a cursor close to `2 ^ 64` the pointer of the code wraps
  around, which the model does not follow: there only the flag and the cursor are those
  of the code.
* The byte order in which the host stores a scalar is the parameter `host`
  (`Endian::Native` of `EndianUtils.h`).
-/

namespace SafeSerializer

/-! ## Scalar types -/

/-- Byte orders, `enum class Endian` of `EndianUtils.h`. -/
inductive Endian where
  | Little
  | Big
deriving DecidableEq

/-- The fixed-width scalar types a primitive field can have. `enum8` stands for the
enumerations with underlying type `uint8_t` (`FlightPhase_e`, `SystemHealth_e`,
`NavSource_e`, `GearStatus_e`). -/
inductive CType where
  | u8 | u16 | u32 | u64
  | i8 | i16 | i32 | i64
  | f32 | f64
  | bool
  | enum8
deriving DecidableEq

/-- Value of `sizeof(T)`. -/
def CType.sizeof : CType → Nat
  | .u8 => 1 | .u16 => 2 | .u32 => 4 | .u64 => 8
  | .i8 => 1 | .i16 => 2 | .i32 => 4 | .i64 => 8
  | .f32 => 4 | .f64 => 8
  | .bool => 1
  | .enum8 => 1

/-- Value of `std::is_floating_point_v<T>`. -/
def CType.is_floating_point : CType → Bool
  | .f32 => true
  | .f64 => true
  | _ => false

/-- Value of `std::is_signed_v<T>` for the integer types. -/
def CType.is_signed : CType → Bool
  | .i8 => true | .i16 => true | .i32 => true | .i64 => true
  | _ => false

/-- Smallest value of the type (a floating-point value is its bit pattern). -/
def CType.minVal : CType → Int
  | .i8 => -128
  | .i16 => -32768
  | .i32 => -2147483648
  | .i64 => -9223372036854775808
  | _ => 0

/-- Largest value of the type (a floating-point value is its bit pattern). -/
def CType.maxVal : CType → Int
  | .u8 => 255 | .u16 => 65535 | .u32 => 4294967295 | .u64 => 18446744073709551615
  | .i8 => 127 | .i16 => 32767 | .i32 => 2147483647 | .i64 => 9223372036854775807
  | .f32 => 4294967295 | .f64 => 18446744073709551615
  | .bool => 1
  | .enum8 => 255

/-- The values a variable of type `t` can hold. -/
def CType.inRange (t : CType) (v : Int) : Prop :=
  t.minVal ≤ v ∧ v ≤ t.maxVal

instance (t : CType) (v : Int) : Decidable (t.inRange v) := by
  unfold CType.inRange
  infer_instance

/-- Conversion of a value to the unsigned integer type of `size` bytes:
`static_cast<IntType>(val)` for an integer, `safe_bit_cast<uintN_t>(val)` for a
floating-point value (which is already its bit pattern). -/
def to_unsigned (size : Nat) (v : Int) : Nat :=
  (v % (2 : Int) ^ (8 * size)).toNat

/-- Conversion of an unsigned integer of `sizeof t` bytes back to `t`:
`static_cast<T>(temp)` (two's complement for the signed types),
`safe_bit_cast<T>(temp)` for floating point. -/
def from_unsigned (t : CType) (p : Nat) : Int :=
  if t.is_signed && decide (2 ^ (8 * t.sizeof - 1) ≤ p) then (p : Int) - (2 : Int) ^ (8 * t.sizeof)
  else (p : Int)

/-! ## Byte-order primitives (`SafeSerializer.h`, lines 24-79) -/

/-- The function template `swap_bytes_int<T>` at an unsigned type `T` of `size` bytes.
The 2-byte case is computed in `int` after integral promotion; the final
`static_cast<T>` truncates to the width of `T`. -/
def swap_bytes_int (size : Nat) (val : Nat) : Nat :=
  if size = 1 then val
  else if size = 2 then
    ((val <<< 8) ||| (val >>> 8)) % 2 ^ 16
  else if size = 4 then
    (((val &&& 0xFF000000) >>> 24) ||| ((val &&& 0x00FF0000) >>> 8) |||
      ((val &&& 0x0000FF00) <<< 8) ||| ((val &&& 0x000000FF) <<< 24)) % 2 ^ 32
  else if size = 8 then
    (((val &&& 0xFF00000000000000) >>> 56) ||| ((val &&& 0x00FF000000000000) >>> 40) |||
      ((val &&& 0x0000FF0000000000) >>> 24) ||| ((val &&& 0x000000FF00000000) >>> 8) |||
      ((val &&& 0x00000000FF000000) <<< 8) ||| ((val &&& 0x0000000000FF0000) <<< 24) |||
      ((val &&& 0x000000000000FF00) <<< 40) ||| ((val &&& 0x00000000000000FF) <<< 56)) % 2 ^ 64
  else val

/-- The function template `safe_ntoh<T>`. -/
def safe_ntoh (t : CType) (val : Int) : Int :=
  if t.is_floating_point then
    if t.sizeof = 4 then
      from_unsigned t (swap_bytes_int 4 (to_unsigned 4 val))
    else if t.sizeof = 8 then
      from_unsigned t (swap_bytes_int 8 (to_unsigned 8 val))
    else val
  else
    if t.sizeof = 1 then val
    else if t.sizeof = 2 ∨ t.sizeof = 4 ∨ t.sizeof = 8 then
      from_unsigned t (swap_bytes_int t.sizeof (to_unsigned t.sizeof val))
    else val

/-- The function template `safe_hton<T>`: it returns `safe_ntoh(val)`. -/
def safe_hton (t : CType) (val : Int) : Int :=
  safe_ntoh t val

/-! ## Object representation and raw buffer copies (lines 81-90) -/

/-- Memory: the byte stored at each address. A cell is a `uint8_t`; reads take the
stored number modulo 256. -/
abbrev Mem := Nat → Nat

/-- Byte number `i` of `p`, counted from the least significant byte. -/
def byte_of (p i : Nat) : Nat :=
  p / 256 ^ i % 256

/-- The number whose `n` low bytes are `b 0, ..., b (n - 1)`, least significant first. -/
def pack : Nat → (Nat → Nat) → Nat
  | 0, _ => 0
  | n + 1, b => pack n b + b n * 256 ^ n

/-- Byte `i` of the object representation of a `size`-byte scalar with bit pattern `p`
on a host of the given byte order: what `reinterpret_cast<const uint8_t*>(&src)[i]`
reads. -/
def object_byte (host : Endian) (size p i : Nat) : Nat :=
  match host with
  | .Little => byte_of p i
  | .Big => byte_of p (size - 1 - i)

/-- The object representation of a value of type `t`, as the list of its bytes in
address order. -/
def object_bytes (host : Endian) (t : CType) (v : Int) : List Nat :=
  (List.range t.sizeof).map (object_byte host t.sizeof (to_unsigned t.sizeof v))

/-- The bit pattern of the `size`-byte scalar whose object representation is
`b 0, ..., b (size - 1)` on a host of the given byte order. -/
def of_object_bytes (host : Endian) (size : Nat) (b : Nat → Nat) : Nat :=
  match host with
  | .Little => pack size (fun i => b i % 256)
  | .Big => pack size (fun i => b (size - 1 - i) % 256)

/-- The function template `safe_write_to_buffer<T>`: `std::copy` of the `sizeof(T)`
bytes of the object representation of `src` to `dest`, in increasing address order. -/
def safe_write_to_buffer (host : Endian) (mem : Mem) (dest : Nat) (t : CType) (src : Int) : Mem :=
  (List.range t.sizeof).foldl
    (fun m i => Function.update m (dest + i) (object_byte host t.sizeof (to_unsigned t.sizeof src) i))
    mem

/-- The function template `safe_read_from_buffer<T>`: `std::copy` of `sizeof(T)` bytes
starting at `src` into the object representation of `dest`; the result is the new
value of `dest`. -/
def safe_read_from_buffer (host : Endian) (mem : Mem) (src : Nat) (t : CType) : Int :=
  from_unsigned t (of_object_bytes host t.sizeof (fun i => mem (src + i)))


/-! ## Fields and the traversal engine (`SafeSerializer.h`, lines 92-246) -/

/-- Modulus of `size_t` arithmetic (a 64-bit `size_t`). -/
def SIZE_MOD : Nat := 2 ^ 64

/-- A field handed to the engine. A primitive field is a scalar of a fixed-width type
(the `else` branch of the `if constexpr`); a composite field is a struct whose own
`serialize`, `deserialize` and `trueSize` run the engine over the listed member fields
(as `SubSystemData` and `DO178C_FlightData_t` do). -/
inductive Field where
  | prim (t : CType) (v : Int)
  | comp (fs : List Field)

/-- The state the lambda `process_field` of `serialize_to_buffer` captures by reference:
the memory behind `buffer`, the cursor `offset` and the flag `global_success`. -/
structure SerState where
  mem : Mem
  offset : Nat
  global_success : Bool

mutual
/-- One call of the lambda `process_field` of `serialize_to_buffer`. A composite field
is called as `field.serialize(buffer + offset, buffer_len - offset, sub_consumed)` with
`sub_consumed = 0`; its `serialize` runs the engine over its members from that count and
reports the final count. -/
def serialize_process_field (host : Endian) (buffer buffer_len : Nat) (st : SerState) :
    Field → SerState
  | .prim t v =>
    if st.global_success = false then st
    else
      let needed := t.sizeof
      if (st.offset + needed) % SIZE_MOD > buffer_len then
        { st with global_success := false }
      else
        let net_val := safe_hton t v
        { mem := safe_write_to_buffer host st.mem (buffer + st.offset) t net_val
          offset := (st.offset + needed) % SIZE_MOD
          global_success := true }
  | .comp fs =>
    if st.global_success = false then st
    else if st.offset ≥ buffer_len then
      { st with global_success := false }
    else
      let sub := serialize_fold host (buffer + st.offset) (buffer_len - st.offset)
        { mem := st.mem, offset := 0, global_success := true } fs
      if sub.global_success = false then
        { mem := sub.mem, offset := st.offset, global_success := false }
      else
        { mem := sub.mem, offset := (st.offset + sub.offset) % SIZE_MOD, global_success := true }
/-- The fold expression `(process_field(args), ...)` of `serialize_to_buffer`. -/
def serialize_fold (host : Endian) (buffer buffer_len : Nat) (st : SerState) :
    List Field → SerState
  | [] => st
  | f :: fs =>
    serialize_fold host buffer buffer_len (serialize_process_field host buffer buffer_len st f) fs
end

/-- The function template `serialize_to_buffer`: the result is the returned flag, the
final value of `offset` and the memory after the call. -/
def serialize_to_buffer (host : Endian) (mem : Mem) (buffer buffer_len offset : Nat)
    (args : List Field) : SerState :=
  serialize_fold host buffer buffer_len { mem := mem, offset := offset, global_success := true } args

/-- The state the lambda `process_field` of `deserialize_from_buffer` captures by
reference, apart from the fields themselves. -/
structure DeserState where
  offset : Nat
  global_success : Bool

mutual
/-- One call of the lambda `process_field` of `deserialize_from_buffer`: the new value of
the field and the new state. -/
def deserialize_process_field (host : Endian) (mem : Mem) (buffer buffer_len : Nat)
    (st : DeserState) : Field → Field × DeserState
  | .prim t v =>
    if st.global_success = false then (.prim t v, st)
    else
      let needed := t.sizeof
      if (st.offset + needed) % SIZE_MOD > buffer_len then
        (.prim t v, { st with global_success := false })
      else
        let field := safe_read_from_buffer host mem (buffer + st.offset) t
        (.prim t (safe_ntoh t field),
          { offset := (st.offset + needed) % SIZE_MOD, global_success := true })
  | .comp fs =>
    if st.global_success = false then (.comp fs, st)
    else if st.offset ≥ buffer_len then
      (.comp fs, { st with global_success := false })
    else
      let sub := deserialize_fold host mem (buffer + st.offset) (buffer_len - st.offset)
        { offset := 0, global_success := true } fs
      if sub.2.global_success = false then
        (.comp sub.1, { offset := st.offset, global_success := false })
      else
        (.comp sub.1,
          { offset := (st.offset + sub.2.offset) % SIZE_MOD, global_success := true })
/-- The fold expression `(process_field(args), ...)` of `deserialize_from_buffer`. -/
def deserialize_fold (host : Endian) (mem : Mem) (buffer buffer_len : Nat)
    (st : DeserState) : List Field → List Field × DeserState
  | [] => ([], st)
  | f :: fs =>
    let r := deserialize_process_field host mem buffer buffer_len st f
    let rs := deserialize_fold host mem buffer buffer_len r.2 fs
    (r.1 :: rs.1, rs.2)
end

/-- The function template `deserialize_from_buffer`: the new values of the fields, the
final value of `offset` and the returned flag. -/
def deserialize_from_buffer (host : Endian) (mem : Mem) (buffer buffer_len offset : Nat)
    (args : List Field) : List Field × DeserState :=
  deserialize_fold host mem buffer buffer_len { offset := offset, global_success := true } args

mutual
/-- What the lambda `process_field` of `calculate_packed_size` adds for one field:
`field.trueSize()` for a composite, `sizeof(T)` for a primitive. -/
def field_size : Field → Nat
  | .prim t _ => t.sizeof
  | .comp fs => packed_size_fold 0 fs
/-- The fold expression of `calculate_packed_size`, from the running `total_size`. -/
def packed_size_fold (total_size : Nat) : List Field → Nat
  | [] => total_size
  | f :: fs => packed_size_fold ((total_size + field_size f) % SIZE_MOD) fs
end

/-- The function template `calculate_packed_size`. -/
def calculate_packed_size (args : List Field) : Nat :=
  packed_size_fold 0 args

/-! ## Auxiliary notions used to state the properties -/

/-- The type of a field: a scalar type, or a struct given by the types of its members. -/
inductive Shape where
  | prim (t : CType)
  | comp (ss : List Shape)

mutual
/-- The type of a field. -/
def Field.shape : Field → Shape
  | .prim t _ => .prim t
  | .comp fs => .comp (shapes fs)
/-- The types of the fields of a list, in order. -/
def shapes : List Field → List Shape
  | [] => []
  | f :: fs => f.shape :: shapes fs
end

mutual
/-- The number of wire bytes of a field as an unbounded integer: the byte width of a
primitive, the sum over the members of a composite. -/
def Field.width : Field → Nat
  | .prim t _ => t.sizeof
  | .comp fs => widths fs
/-- The sum of the widths of the fields of a list, as an unbounded integer. -/
def widths : List Field → Nat
  | [] => 0
  | f :: fs => f.width + widths fs
end

mutual
/-- Every composite inside the field, at any depth, has at least one wire byte. -/
def Field.solid : Field → Bool
  | .prim _ _ => true
  | .comp fs => decide (0 < widths fs) && solid_list fs
/-- Every composite inside the fields of the list has at least one wire byte. -/
def solid_list : List Field → Bool
  | [] => true
  | f :: fs => f.solid && solid_list fs
end

mutual
/-- Every scalar inside the field holds a value of its type. -/
def Field.valid : Field → Prop
  | .prim t v => t.inRange v
  | .comp fs => valid_list fs
/-- Every scalar inside the fields of the list holds a value of its type. -/
def valid_list : List Field → Prop
  | [] => True
  | f :: fs => f.valid ∧ valid_list fs
end

mutual
/-- The scalar values inside a field, in wire order. -/
def Field.values : Field → List Int
  | .prim _ v => [v]
  | .comp fs => values_list fs
/-- The scalar values inside the fields of a list, in wire order. -/
def values_list : List Field → List Int
  | [] => []
  | f :: fs => f.values ++ values_list fs
end

mutual
/-- The bytes the engine produces for a field on the given host: the object
representation of the swapped value of a primitive, the bytes of the members of a
composite one after the other. -/
def wire_field (host : Endian) : Field → List Nat
  | .prim t v => object_bytes host t (safe_hton t v)
  | .comp fs => wire_fields host fs
/-- The bytes the engine produces for a list of fields on the given host. -/
def wire_fields (host : Endian) : List Field → List Nat
  | [] => []
  | f :: fs => wire_field host f ++ wire_fields host fs
end

/-- The bytes of a scalar value most significant byte first (big-endian, network order). -/
def big_endian_bytes (t : CType) (v : Int) : List Nat :=
  (List.range t.sizeof).map (fun i => byte_of (to_unsigned t.sizeof v) (t.sizeof - 1 - i))

/-- The bytes of a scalar value least significant byte first (little-endian). -/
def little_endian_bytes (t : CType) (v : Int) : List Nat :=
  (List.range t.sizeof).map (fun i => byte_of (to_unsigned t.sizeof v) i)

/-- A list of primitive fields, given by the type and the value of each. -/
def prim_fields (l : List (CType × Int)) : List Field :=
  l.map (fun p => Field.prim p.1 p.2)

/-- Memory `mem` with the bytes `bytes` stored from address `base` on. -/
def store (base : Nat) (bytes : List Nat) (mem : Mem) : Mem :=
  fun a => if base ≤ a ∧ a < base + bytes.length then bytes.getD (a - base) 0 else mem a

/-- The `n` bytes of memory from address `base` on. -/
def load (mem : Mem) (base n : Nat) : List Nat :=
  (List.range n).map (fun i => mem (base + i))

/-! ## The schema structs (`serializer.cpp`) -/

/-- What a struct method returns through its `bool` result and its `size_t& consumed`
parameter, together with the memory after the call. -/
structure SerResult where
  result : Bool
  consumed : Nat
  mem : Mem

/-- What a `deserialize` method returns through its `bool` result and its
`size_t& consumed` parameter, together with the record after the call. -/
structure DeserResult (α : Type) where
  result : Bool
  consumed : Nat
  value : α

/-- `struct SubSystemData` (lines 20-48); `temperature` is the bit pattern of the `float`. -/
structure SubSystemData where
  subId : Int
  temperature : Int

/-- The argument list `subId, temperature` of the three methods of `SubSystemData`. -/
def SubSystemData.fields (s : SubSystemData) : List Field :=
  [.prim .u16 s.subId, .prim .f32 s.temperature]

/-- A `SubSystemData` as a composite field of an enclosing argument list. -/
def SubSystemData.toField (s : SubSystemData) : Field :=
  .comp s.fields

/-- The members of a `SubSystemData` after the engine has processed `subId, temperature`. -/
def SubSystemData.of_fields (s : SubSystemData) : List Field → SubSystemData
  | [.prim _ a, .prim _ b] => { subId := a, temperature := b }
  | _ => s

/-- The method `SubSystemData::serialize` (lines 34-42); `consumed` is the value the
caller's variable holds before the call. -/
def SubSystemData.serialize (host : Endian) (mem : Mem) (s : SubSystemData)
    (buffer max_len : Nat) (_consumed : Nat) : SerResult :=
  let local_offset := 0
  let r := serialize_to_buffer host mem buffer max_len local_offset s.fields
  { result := r.global_success, consumed := r.offset, mem := r.mem }

/-- The method `SubSystemData::deserialize` (lines 24-32). -/
def SubSystemData.deserialize (host : Endian) (mem : Mem) (s : SubSystemData)
    (buffer max_len : Nat) (_consumed : Nat) : DeserResult SubSystemData :=
  let local_offset := 0
  let r := deserialize_from_buffer host mem buffer max_len local_offset s.fields
  { result := r.2.global_success, consumed := r.2.offset, value := s.of_fields r.1 }

/-- The method `SubSystemData::trueSize` (lines 44-47). -/
def SubSystemData.trueSize (s : SubSystemData) : Nat :=
  calculate_packed_size s.fields

/-- The values a `SubSystemData` can hold. -/
def SubSystemData.valid (s : SubSystemData) : Prop :=
  CType.u16.inRange s.subId ∧ CType.f32.inRange s.temperature

/-- The data members of `struct DO178C_FlightData_t` (lines 50-201), in declaration order. -/
inductive Member where
  | packet_sequence_id
  | system_timestamp_sec
  | aircraft_id
  | software_version_major
  | software_version_minor
  | current_flight_phase
  | master_system_health
  | is_autopilot_engaged
  | is_autothrottle_armed
  | is_weight_on_wheels
  | sub_system_data
  | latitude_deg
  | longitude_deg
  | altitude_baro_ft
  | altitude_radio_ft
  | altitude_gps_ft
  | pos_accuracy_h_m
  | pos_accuracy_v_m
  | active_nav_source
  | visible_satellites
  | waypoint_index
  | pitch_angle_deg
  | roll_angle_deg
  | heading_mag_deg
  | heading_true_deg
  | track_angle_deg
  | drift_angle_deg
  | pitch_rate_deg_s
  | roll_rate_deg_s
  | yaw_rate_deg_s
  | airspeed_indicated_kts
  | airspeed_true_kts
  | ground_speed_kts
  | mach_number
  | vertical_speed_fpm
  | accel_normal_g
  | accel_lateral_g
  | accel_longitudinal_g
  | angle_of_attack_deg
  | sideslip_angle_deg
  | flight_path_angle_deg
  | eng1_n1_percent
  | eng1_n2_percent
  | eng1_egt_c
  | eng1_fuel_flow_kg_h
  | eng1_oil_press_psi
  | eng1_oil_temp_c
  | eng1_vibration_ips
  | eng1_throttle_cmd_pct
  | eng1_fire_warning
  | eng1_reverser_deployed
  | eng2_n1_percent
  | eng2_n2_percent
  | eng2_egt_c
  | eng2_fuel_flow_kg_h
  | eng2_oil_press_psi
  | eng2_oil_temp_c
  | eng2_vibration_ips
  | eng2_throttle_cmd_pct
  | eng2_fire_warning
  | eng2_reverser_deployed
  | fuel_qty_left_kg
  | fuel_qty_right_kg
  | fuel_qty_center_kg
  | fuel_qty_total_kg
  | fuel_temp_c
  | fuel_pump_l_on
  | fuel_pump_r_on
  | dc_bus_main_volts
  | dc_bus_main_amps
  | bat_1_volts
  | bat_1_amps
  | ac_bus_freq_hz
  | gen_1_load_pct
  | gen_2_load_pct
  | ext_power_available
  | hyd_press_sys_a_psi
  | hyd_press_sys_b_psi
  | hyd_qty_sys_a_pct
  | hyd_qty_sys_b_pct
  | brake_pressure_psi
  | cabin_pressure_psi
  | cabin_altitude_ft
  | cabin_rate_fpm
  | aileron_pos_l_deg
  | aileron_pos_r_deg
  | elevator_pos_l_deg
  | elevator_pos_r_deg
  | rudder_pos_deg
  | flap_handle_pos
  | flap_actual_pos_l
  | flap_actual_pos_r
  | spoiler_pos_pct
  | trim_stab_units
  | trim_aileron_units
  | trim_rudder_units
  | gear_nose_status
  | gear_main_l_status
  | gear_main_r_status
  | brake_temp_l_c
  | brake_temp_r_c
  | tire_pressure_nose_psi
  | oat_c
  | tat_c
  | wind_speed_kts
  | wind_direction_deg
  | air_density_ratio
  | ice_detected
  | ap_target_alt_ft
  | ap_target_speed_kts
  | ap_target_heading_deg
  | ap_target_vs_fpm
  | fms_dist_to_dest_nm
  | fms_ete_dest_sec
  | fms_x_track_error_nm
  | fms_req_nav_perf_nm
  | crc32_checksum
  | frame_counter
  | cpu_load_percent
  | num_active_faults
  | bit_status_word
deriving DecidableEq

/-- The declared type of a data member: a scalar type, or `SubSystemData`. -/
inductive MemberType where
  | scalar (t : CType)
  | sub_system

/-- The type each member is declared with (lines 52-201). -/
def Member.decl : Member → MemberType
  | .packet_sequence_id => .scalar .u32
  | .system_timestamp_sec => .scalar .f64
  | .aircraft_id => .scalar .u16
  | .software_version_major => .scalar .u8
  | .software_version_minor => .scalar .u8
  | .current_flight_phase => .scalar .enum8
  | .master_system_health => .scalar .enum8
  | .is_autopilot_engaged => .scalar .u8
  | .is_autothrottle_armed => .scalar .u8
  | .is_weight_on_wheels => .scalar .u8
  | .sub_system_data => .sub_system
  | .latitude_deg => .scalar .f64
  | .longitude_deg => .scalar .f64
  | .altitude_baro_ft => .scalar .f64
  | .altitude_radio_ft => .scalar .f64
  | .altitude_gps_ft => .scalar .f64
  | .pos_accuracy_h_m => .scalar .f32
  | .pos_accuracy_v_m => .scalar .f32
  | .active_nav_source => .scalar .enum8
  | .visible_satellites => .scalar .u8
  | .waypoint_index => .scalar .u16
  | .pitch_angle_deg => .scalar .f64
  | .roll_angle_deg => .scalar .f64
  | .heading_mag_deg => .scalar .f64
  | .heading_true_deg => .scalar .f64
  | .track_angle_deg => .scalar .f64
  | .drift_angle_deg => .scalar .f32
  | .pitch_rate_deg_s => .scalar .f32
  | .roll_rate_deg_s => .scalar .f32
  | .yaw_rate_deg_s => .scalar .f32
  | .airspeed_indicated_kts => .scalar .f32
  | .airspeed_true_kts => .scalar .f32
  | .ground_speed_kts => .scalar .f32
  | .mach_number => .scalar .f32
  | .vertical_speed_fpm => .scalar .f32
  | .accel_normal_g => .scalar .f32
  | .accel_lateral_g => .scalar .f32
  | .accel_longitudinal_g => .scalar .f32
  | .angle_of_attack_deg => .scalar .f32
  | .sideslip_angle_deg => .scalar .f32
  | .flight_path_angle_deg => .scalar .f32
  | .eng1_n1_percent => .scalar .f32
  | .eng1_n2_percent => .scalar .f32
  | .eng1_egt_c => .scalar .f32
  | .eng1_fuel_flow_kg_h => .scalar .f32
  | .eng1_oil_press_psi => .scalar .f32
  | .eng1_oil_temp_c => .scalar .f32
  | .eng1_vibration_ips => .scalar .f32
  | .eng1_throttle_cmd_pct => .scalar .f32
  | .eng1_fire_warning => .scalar .u8
  | .eng1_reverser_deployed => .scalar .u8
  | .eng2_n1_percent => .scalar .f32
  | .eng2_n2_percent => .scalar .f32
  | .eng2_egt_c => .scalar .f32
  | .eng2_fuel_flow_kg_h => .scalar .f32
  | .eng2_oil_press_psi => .scalar .f32
  | .eng2_oil_temp_c => .scalar .f32
  | .eng2_vibration_ips => .scalar .f32
  | .eng2_throttle_cmd_pct => .scalar .f32
  | .eng2_fire_warning => .scalar .u8
  | .eng2_reverser_deployed => .scalar .u8
  | .fuel_qty_left_kg => .scalar .f32
  | .fuel_qty_right_kg => .scalar .f32
  | .fuel_qty_center_kg => .scalar .f32
  | .fuel_qty_total_kg => .scalar .f32
  | .fuel_temp_c => .scalar .f32
  | .fuel_pump_l_on => .scalar .u8
  | .fuel_pump_r_on => .scalar .u8
  | .dc_bus_main_volts => .scalar .f32
  | .dc_bus_main_amps => .scalar .f32
  | .bat_1_volts => .scalar .f32
  | .bat_1_amps => .scalar .f32
  | .ac_bus_freq_hz => .scalar .f32
  | .gen_1_load_pct => .scalar .f32
  | .gen_2_load_pct => .scalar .f32
  | .ext_power_available => .scalar .u8
  | .hyd_press_sys_a_psi => .scalar .f32
  | .hyd_press_sys_b_psi => .scalar .f32
  | .hyd_qty_sys_a_pct => .scalar .f32
  | .hyd_qty_sys_b_pct => .scalar .f32
  | .brake_pressure_psi => .scalar .f32
  | .cabin_pressure_psi => .scalar .f32
  | .cabin_altitude_ft => .scalar .f32
  | .cabin_rate_fpm => .scalar .f32
  | .aileron_pos_l_deg => .scalar .f32
  | .aileron_pos_r_deg => .scalar .f32
  | .elevator_pos_l_deg => .scalar .f32
  | .elevator_pos_r_deg => .scalar .f32
  | .rudder_pos_deg => .scalar .f32
  | .flap_handle_pos => .scalar .f32
  | .flap_actual_pos_l => .scalar .f32
  | .flap_actual_pos_r => .scalar .f32
  | .spoiler_pos_pct => .scalar .f32
  | .trim_stab_units => .scalar .f32
  | .trim_aileron_units => .scalar .f32
  | .trim_rudder_units => .scalar .f32
  | .gear_nose_status => .scalar .enum8
  | .gear_main_l_status => .scalar .enum8
  | .gear_main_r_status => .scalar .enum8
  | .brake_temp_l_c => .scalar .f32
  | .brake_temp_r_c => .scalar .f32
  | .tire_pressure_nose_psi => .scalar .f32
  | .oat_c => .scalar .f32
  | .tat_c => .scalar .f32
  | .wind_speed_kts => .scalar .f32
  | .wind_direction_deg => .scalar .f32
  | .air_density_ratio => .scalar .f32
  | .ice_detected => .scalar .u8
  | .ap_target_alt_ft => .scalar .i32
  | .ap_target_speed_kts => .scalar .i16
  | .ap_target_heading_deg => .scalar .i16
  | .ap_target_vs_fpm => .scalar .i16
  | .fms_dist_to_dest_nm => .scalar .f64
  | .fms_ete_dest_sec => .scalar .f64
  | .fms_x_track_error_nm => .scalar .f32
  | .fms_req_nav_perf_nm => .scalar .f32
  | .crc32_checksum => .scalar .u32
  | .frame_counter => .scalar .u16
  | .cpu_load_percent => .scalar .u8
  | .num_active_faults => .scalar .u8
  | .bit_status_word => .scalar .u32

/-- A value of `struct DO178C_FlightData_t`: the value of each scalar member (floating
point as bit pattern) and the nested `sub_system_data`. The entry of `scalar` at
`Member.sub_system_data` is not a member and is never read. -/
structure DO178C_FlightData_t where
  scalar : Member → Int
  sub_system_data : SubSystemData

/-- The member `m` of the record as a field of an argument list. -/
def DO178C_FlightData_t.field (V : DO178C_FlightData_t) (m : Member) : Field :=
  match m.decl with
  | .scalar t => .prim t (V.scalar m)
  | .sub_system => V.sub_system_data.toField

/-- The record after the engine has given the member `m` the value `f`. -/
def DO178C_FlightData_t.assign (V : DO178C_FlightData_t) (m : Member) (f : Field) :
    DO178C_FlightData_t :=
  match m.decl with
  | .scalar _ =>
    match f with
    | .prim _ v => { V with scalar := Function.update V.scalar m v }
    | .comp _ => V
  | .sub_system =>
    match f with
    | .prim _ _ => V
    | .comp fs => { V with sub_system_data := V.sub_system_data.of_fields fs }

/-- The record after the engine has given the members `ms` the values `fs`. -/
def DO178C_FlightData_t.assign_all (V : DO178C_FlightData_t) :
    List Member → List Field → DO178C_FlightData_t
  | m :: ms, f :: fs => (V.assign m f).assign_all ms fs
  | _, _ => V

/-- The members passed to the engine by `DO178C_FlightData_t::deserialize` (lines 207-266), in
argument order. -/
def DO178C_FlightData_t.deserialize_args : List Member := [
  Member.packet_sequence_id, Member.system_timestamp_sec,
  Member.aircraft_id, Member.software_version_major,
  Member.software_version_minor, Member.current_flight_phase,
  Member.master_system_health, Member.is_autopilot_engaged,
  Member.is_autothrottle_armed, Member.is_weight_on_wheels,
  Member.sub_system_data, Member.latitude_deg,
  Member.longitude_deg, Member.altitude_baro_ft,
  Member.altitude_radio_ft, Member.altitude_gps_ft,
  Member.pos_accuracy_h_m, Member.pos_accuracy_v_m,
  Member.active_nav_source, Member.visible_satellites,
  Member.waypoint_index, Member.pitch_angle_deg,
  Member.roll_angle_deg, Member.heading_mag_deg,
  Member.heading_true_deg, Member.track_angle_deg,
  Member.drift_angle_deg, Member.pitch_rate_deg_s,
  Member.roll_rate_deg_s, Member.yaw_rate_deg_s,
  Member.airspeed_indicated_kts, Member.airspeed_true_kts,
  Member.ground_speed_kts, Member.mach_number,
  Member.vertical_speed_fpm, Member.accel_normal_g,
  Member.accel_lateral_g, Member.accel_longitudinal_g,
  Member.angle_of_attack_deg, Member.sideslip_angle_deg,
  Member.flight_path_angle_deg, Member.eng1_n1_percent,
  Member.eng1_n2_percent, Member.eng1_egt_c,
  Member.eng1_fuel_flow_kg_h, Member.eng1_oil_press_psi,
  Member.eng1_oil_temp_c, Member.eng1_vibration_ips,
  Member.eng1_throttle_cmd_pct, Member.eng1_fire_warning,
  Member.eng1_reverser_deployed, Member.eng2_n1_percent,
  Member.eng2_n2_percent, Member.eng2_egt_c,
  Member.eng2_fuel_flow_kg_h, Member.eng2_oil_press_psi,
  Member.eng2_oil_temp_c, Member.eng2_vibration_ips,
  Member.eng2_throttle_cmd_pct, Member.eng2_fire_warning,
  Member.eng2_reverser_deployed, Member.fuel_qty_left_kg,
  Member.fuel_qty_right_kg, Member.fuel_qty_center_kg,
  Member.fuel_qty_total_kg, Member.fuel_temp_c,
  Member.fuel_pump_l_on, Member.fuel_pump_r_on,
  Member.dc_bus_main_volts, Member.dc_bus_main_amps,
  Member.bat_1_volts, Member.bat_1_amps,
  Member.ac_bus_freq_hz, Member.gen_1_load_pct,
  Member.gen_2_load_pct, Member.ext_power_available,
  Member.hyd_press_sys_a_psi, Member.hyd_press_sys_b_psi,
  Member.hyd_qty_sys_a_pct, Member.hyd_qty_sys_b_pct,
  Member.brake_pressure_psi, Member.cabin_pressure_psi,
  Member.cabin_altitude_ft, Member.cabin_rate_fpm,
  Member.aileron_pos_l_deg, Member.aileron_pos_r_deg,
  Member.elevator_pos_l_deg, Member.elevator_pos_r_deg,
  Member.rudder_pos_deg, Member.flap_handle_pos,
  Member.flap_actual_pos_l, Member.flap_actual_pos_r,
  Member.spoiler_pos_pct, Member.trim_stab_units,
  Member.trim_aileron_units, Member.trim_rudder_units,
  Member.gear_nose_status, Member.gear_main_l_status,
  Member.gear_main_r_status, Member.brake_temp_l_c,
  Member.brake_temp_r_c, Member.tire_pressure_nose_psi,
  Member.oat_c, Member.tat_c,
  Member.wind_speed_kts, Member.wind_direction_deg,
  Member.air_density_ratio, Member.ice_detected,
  Member.ap_target_alt_ft, Member.ap_target_speed_kts,
  Member.ap_target_heading_deg, Member.ap_target_vs_fpm,
  Member.fms_dist_to_dest_nm, Member.fms_ete_dest_sec,
  Member.fms_x_track_error_nm, Member.fms_req_nav_perf_nm,
  Member.crc32_checksum, Member.frame_counter,
  Member.cpu_load_percent, Member.num_active_faults,
  Member.bit_status_word]

/-- The members passed to the engine by `DO178C_FlightData_t::serialize` (lines 274-333), in
argument order. -/
def DO178C_FlightData_t.serialize_args : List Member := [
  Member.packet_sequence_id, Member.system_timestamp_sec,
  Member.aircraft_id, Member.software_version_major,
  Member.software_version_minor, Member.current_flight_phase,
  Member.master_system_health, Member.is_autopilot_engaged,
  Member.is_autothrottle_armed, Member.is_weight_on_wheels,
  Member.sub_system_data, Member.latitude_deg,
  Member.longitude_deg, Member.altitude_baro_ft,
  Member.altitude_radio_ft, Member.altitude_gps_ft,
  Member.pos_accuracy_h_m, Member.pos_accuracy_v_m,
  Member.active_nav_source, Member.visible_satellites,
  Member.waypoint_index, Member.pitch_angle_deg,
  Member.roll_angle_deg, Member.heading_mag_deg,
  Member.heading_true_deg, Member.track_angle_deg,
  Member.drift_angle_deg, Member.pitch_rate_deg_s,
  Member.roll_rate_deg_s, Member.yaw_rate_deg_s,
  Member.airspeed_indicated_kts, Member.airspeed_true_kts,
  Member.ground_speed_kts, Member.mach_number,
  Member.vertical_speed_fpm, Member.accel_normal_g,
  Member.accel_lateral_g, Member.accel_longitudinal_g,
  Member.angle_of_attack_deg, Member.sideslip_angle_deg,
  Member.flight_path_angle_deg, Member.eng1_n1_percent,
  Member.eng1_n2_percent, Member.eng1_egt_c,
  Member.eng1_fuel_flow_kg_h, Member.eng1_oil_press_psi,
  Member.eng1_oil_temp_c, Member.eng1_vibration_ips,
  Member.eng1_throttle_cmd_pct, Member.eng1_fire_warning,
  Member.eng1_reverser_deployed, Member.eng2_n1_percent,
  Member.eng2_n2_percent, Member.eng2_egt_c,
  Member.eng2_fuel_flow_kg_h, Member.eng2_oil_press_psi,
  Member.eng2_oil_temp_c, Member.eng2_vibration_ips,
  Member.eng2_throttle_cmd_pct, Member.eng2_fire_warning,
  Member.eng2_reverser_deployed, Member.fuel_qty_left_kg,
  Member.fuel_qty_right_kg, Member.fuel_qty_center_kg,
  Member.fuel_qty_total_kg, Member.fuel_temp_c,
  Member.fuel_pump_l_on, Member.fuel_pump_r_on,
  Member.dc_bus_main_volts, Member.dc_bus_main_amps,
  Member.bat_1_volts, Member.bat_1_amps,
  Member.ac_bus_freq_hz, Member.gen_1_load_pct,
  Member.gen_2_load_pct, Member.ext_power_available,
  Member.hyd_press_sys_a_psi, Member.hyd_press_sys_b_psi,
  Member.hyd_qty_sys_a_pct, Member.hyd_qty_sys_b_pct,
  Member.brake_pressure_psi, Member.cabin_pressure_psi,
  Member.cabin_altitude_ft, Member.cabin_rate_fpm,
  Member.aileron_pos_l_deg, Member.aileron_pos_r_deg,
  Member.elevator_pos_l_deg, Member.elevator_pos_r_deg,
  Member.rudder_pos_deg, Member.flap_handle_pos,
  Member.flap_actual_pos_l, Member.flap_actual_pos_r,
  Member.spoiler_pos_pct, Member.trim_stab_units,
  Member.trim_aileron_units, Member.trim_rudder_units,
  Member.gear_nose_status, Member.gear_main_l_status,
  Member.gear_main_r_status, Member.brake_temp_l_c,
  Member.brake_temp_r_c, Member.tire_pressure_nose_psi,
  Member.oat_c, Member.tat_c,
  Member.wind_speed_kts, Member.wind_direction_deg,
  Member.air_density_ratio, Member.ice_detected,
  Member.ap_target_alt_ft, Member.ap_target_speed_kts,
  Member.ap_target_heading_deg, Member.ap_target_vs_fpm,
  Member.fms_dist_to_dest_nm, Member.fms_ete_dest_sec,
  Member.fms_x_track_error_nm, Member.fms_req_nav_perf_nm,
  Member.crc32_checksum, Member.frame_counter,
  Member.cpu_load_percent, Member.num_active_faults,
  Member.bit_status_word]

/-- The members passed to the engine by `DO178C_FlightData_t::trueSize` (lines 338-395), in
argument order. -/
def DO178C_FlightData_t.trueSize_args : List Member := [
  Member.packet_sequence_id, Member.system_timestamp_sec,
  Member.aircraft_id, Member.software_version_major,
  Member.software_version_minor, Member.current_flight_phase,
  Member.master_system_health, Member.is_autopilot_engaged,
  Member.is_autothrottle_armed, Member.is_weight_on_wheels,
  Member.sub_system_data, Member.latitude_deg,
  Member.longitude_deg, Member.altitude_baro_ft,
  Member.altitude_radio_ft, Member.altitude_gps_ft,
  Member.pos_accuracy_h_m, Member.pos_accuracy_v_m,
  Member.active_nav_source, Member.visible_satellites,
  Member.waypoint_index, Member.pitch_angle_deg,
  Member.roll_angle_deg, Member.heading_mag_deg,
  Member.heading_true_deg, Member.track_angle_deg,
  Member.drift_angle_deg, Member.pitch_rate_deg_s,
  Member.roll_rate_deg_s, Member.yaw_rate_deg_s,
  Member.airspeed_indicated_kts, Member.airspeed_true_kts,
  Member.ground_speed_kts, Member.mach_number,
  Member.vertical_speed_fpm, Member.accel_normal_g,
  Member.accel_lateral_g, Member.accel_longitudinal_g,
  Member.angle_of_attack_deg, Member.sideslip_angle_deg,
  Member.flight_path_angle_deg, Member.eng1_n1_percent,
  Member.eng1_n2_percent, Member.eng1_egt_c,
  Member.eng1_fuel_flow_kg_h, Member.eng1_oil_press_psi,
  Member.eng1_oil_temp_c, Member.eng1_vibration_ips,
  Member.eng1_throttle_cmd_pct, Member.eng1_fire_warning,
  Member.eng1_reverser_deployed, Member.eng2_n1_percent,
  Member.eng2_n2_percent, Member.eng2_egt_c,
  Member.eng2_fuel_flow_kg_h, Member.eng2_oil_press_psi,
  Member.eng2_oil_temp_c, Member.eng2_vibration_ips,
  Member.eng2_throttle_cmd_pct, Member.eng2_fire_warning,
  Member.eng2_reverser_deployed, Member.fuel_qty_left_kg,
  Member.fuel_qty_right_kg, Member.fuel_qty_center_kg,
  Member.fuel_qty_total_kg, Member.fuel_temp_c,
  Member.fuel_pump_l_on, Member.fuel_pump_r_on,
  Member.dc_bus_main_volts, Member.dc_bus_main_amps,
  Member.bat_1_volts, Member.bat_1_amps,
  Member.ac_bus_freq_hz, Member.gen_1_load_pct,
  Member.gen_2_load_pct, Member.ext_power_available,
  Member.hyd_press_sys_a_psi, Member.hyd_press_sys_b_psi,
  Member.hyd_qty_sys_a_pct, Member.hyd_qty_sys_b_pct,
  Member.brake_pressure_psi, Member.cabin_pressure_psi,
  Member.cabin_altitude_ft, Member.cabin_rate_fpm,
  Member.aileron_pos_l_deg, Member.aileron_pos_r_deg,
  Member.elevator_pos_l_deg, Member.elevator_pos_r_deg,
  Member.rudder_pos_deg, Member.flap_handle_pos,
  Member.flap_actual_pos_l, Member.flap_actual_pos_r,
  Member.spoiler_pos_pct, Member.trim_stab_units,
  Member.trim_aileron_units, Member.trim_rudder_units,
  Member.gear_nose_status, Member.gear_main_l_status,
  Member.gear_main_r_status, Member.brake_temp_l_c,
  Member.brake_temp_r_c, Member.tire_pressure_nose_psi,
  Member.oat_c, Member.tat_c,
  Member.wind_speed_kts, Member.wind_direction_deg,
  Member.air_density_ratio, Member.ice_detected,
  Member.ap_target_alt_ft, Member.ap_target_speed_kts,
  Member.ap_target_heading_deg, Member.ap_target_vs_fpm,
  Member.fms_dist_to_dest_nm, Member.fms_ete_dest_sec,
  Member.fms_x_track_error_nm, Member.fms_req_nav_perf_nm,
  Member.crc32_checksum, Member.frame_counter,
  Member.cpu_load_percent, Member.num_active_faults,
  Member.bit_status_word]

/-- The method `DO178C_FlightData_t::serialize` (lines 272-335): the caller's `consumed`
is passed to the engine as the cursor. -/
def DO178C_FlightData_t.serialize (host : Endian) (mem : Mem) (V : DO178C_FlightData_t)
    (buffer max_len : Nat) (consumed : Nat) : SerResult :=
  let r := serialize_to_buffer host mem buffer max_len consumed
    (DO178C_FlightData_t.serialize_args.map V.field)
  { result := r.global_success, consumed := r.offset, mem := r.mem }

/-- The method `DO178C_FlightData_t::deserialize` (lines 204-270): the caller's
`consumed` is passed to the engine as the cursor. -/
def DO178C_FlightData_t.deserialize (host : Endian) (mem : Mem) (V : DO178C_FlightData_t)
    (buffer max_len : Nat) (consumed : Nat) : DeserResult DO178C_FlightData_t :=
  let r := deserialize_from_buffer host mem buffer max_len consumed
    (DO178C_FlightData_t.deserialize_args.map V.field)
  { result := r.2.global_success, consumed := r.2.offset,
    value := V.assign_all DO178C_FlightData_t.deserialize_args r.1 }

/-- The method `DO178C_FlightData_t::trueSize` (lines 337-396). -/
def DO178C_FlightData_t.trueSize (V : DO178C_FlightData_t) : Nat :=
  calculate_packed_size (DO178C_FlightData_t.trueSize_args.map V.field)

/-- The values a `DO178C_FlightData_t` can hold: every scalar member within the range of
its declared type. -/
def DO178C_FlightData_t.valid (V : DO178C_FlightData_t) : Prop :=
  (∀ (m : Member) (t : CType), m.decl = .scalar t → t.inRange (V.scalar m)) ∧
    V.sub_system_data.valid

/-- The record with every member zero, `DO178C_FlightData_t x = {}`. -/
def DO178C_FlightData_t.zero : DO178C_FlightData_t :=
  { scalar := fun _ => 0, sub_system_data := { subId := 0, temperature := 0 } }

/-- A record with `packet_sequence_id = 0xDEADBEEF`, `sub_system_data = {101, 35.7f}` (as
in `main`) and every other member zero. -/
def DO178C_FlightData_t.sample : DO178C_FlightData_t :=
  { scalar := fun m => if m = Member.packet_sequence_id then 0xDEADBEEF else 0
    sub_system_data := { subId := 101, temperature := 0x420ECCCD } }

/-- The argument list `(id, sub)` of the concrete scenario: a `uint32_t` followed by a
`SubSystemData`. -/
def scenario_fields (id subId temperature : Int) : List Field :=
  [.prim .u32 id, (SubSystemData.mk subId temperature).toField]

/-- The value `deserialize_from_buffer` gives a primitive field of type `t` whose bytes
start at address `a`: the raw copy followed by `safe_ntoh`. -/
def decoded_at (host : Endian) (mem : Mem) (a : Nat) (t : CType) : Int :=
  safe_ntoh t (safe_read_from_buffer host mem a t)

/-- The primitive fields `l` after each has been decoded from consecutive addresses
starting at `a`, in argument order. -/
def decode_prims (host : Endian) (mem : Mem) : Nat → List (CType × Int) → List Field
  | _, [] => []
  | a, p :: l => Field.prim p.1 (decoded_at host mem a p.1) :: decode_prims host mem (a + p.1.sizeof) l

/-- The argument list with the composite `SubSystemData{a, b}` between the primitive
fields `before` and `after`. -/
def nested_fields (before after : List (CType × Int)) (a b : Int) : List Field :=
  prim_fields before ++ (SubSystemData.mk a b).toField :: prim_fields after

/-- The argument list with `a` and `b` passed inline, as a `uint16_t` and a `float`,
between the primitive fields `before` and `after`. -/
def inline_fields (before after : List (CType × Int)) (a b : Int) : List Field :=
  prim_fields before ++ Field.prim .u16 a :: Field.prim .f32 b :: prim_fields after

/-- Memory `mem` with the byte `bytes i` at address `buffer + i` for every index `i` that
`written` marks, and unchanged elsewhere. -/
def overlay (buffer : Nat) (written : Nat → Bool) (bytes : Nat → Nat) (mem : Mem) : Mem :=
  fun a => if buffer ≤ a ∧ written (a - buffer) = true then bytes (a - buffer) else mem a

/-! ## Byte-order helpers of `EndianUtils.h` -/

/-- The function template `EndianUtils::byteswap<T>` (lines 37-53) on a host of the given
byte order: a one-byte value is returned as it is; otherwise `std::reverse` runs over the
`sizeof(T)` bytes of the object representation of `value`, and the object with the
reversed bytes is returned. -/
def EndianUtils.byteswap (host : Endian) (t : CType) (value : Int) : Int :=
  if t.sizeof = 1 then value
  else
    let bytes := (object_bytes host t value).reverse
    from_unsigned t (of_object_bytes host t.sizeof (fun i => bytes.getD i 0))

/-- The function template `EndianUtils::to_big_endian<T>` (lines 58-66); `host` is the
value of `Endian::Native`. -/
def EndianUtils.to_big_endian (host : Endian) (t : CType) (value : Int) : Int :=
  if host = Endian.Big then value
  else EndianUtils.byteswap host t value

/-- The function template `EndianUtils::to_little_endian<T>` (lines 71-79). -/
def EndianUtils.to_little_endian (host : Endian) (t : CType) (value : Int) : Int :=
  if host = Endian.Little then value
  else EndianUtils.byteswap host t value

/-- The function template `EndianUtils::from_big_endian<T>` (lines 84-88). -/
def EndianUtils.from_big_endian (host : Endian) (t : CType) (value : Int) : Int :=
  EndianUtils.to_big_endian host t value

/-- The function template `EndianUtils::from_little_endian<T>` (lines 93-96). -/
def EndianUtils.from_little_endian (host : Endian) (t : CType) (value : Int) : Int :=
  EndianUtils.to_little_endian host t value

/-! ## `swap_bytes_int` at a signed type -/

/-- The function template `swap_bytes_int<T>` (lines 25-46) at an integer type `t`, signed
or unsigned, on an implementation with a 32-bit `int` and two's complement shifts (`<<`
multiplies by a power of two, `>>` of a negative value keeps the sign).

* 2 bytes: `val` is promoted to `int`, so `val << 8` and `val >> 8` are computed on the
  signed value; `|` acts on the 32-bit patterns and `static_cast<T>` keeps the low 16 bits.
* 4 bytes: the mask `0xFF000000` has type `unsigned int`, so the first operand of the
  chain of `|` is unsigned and every other operand (a non-negative `int` masked to one
  byte, or the shifted low byte) is converted to `unsigned int`: the expression is the
  unsigned one on the 32-bit pattern of `val`.
* 8 bytes: every mask is `unsigned long long`, so `val` is converted to it first. -/
def swap_bytes_int_at (t : CType) (val : Int) : Int :=
  if t.sizeof = 1 then val
  else if t.sizeof = 2 then
    from_unsigned t ((to_unsigned 4 (val * 2 ^ 8) ||| to_unsigned 4 (val >>> (8 : Nat))) % 2 ^ 16)
  else if t.sizeof = 4 then
    from_unsigned t (swap_bytes_int 4 (to_unsigned 4 val))
  else if t.sizeof = 8 then
    from_unsigned t (swap_bytes_int 8 (to_unsigned 8 val))
  else val

/-! ## Capability detection (`SafeSerializer.h`, lines 96-100, 156-159, 223-227) -/

/-- What a class type offers to the three detection traits: whether each of the probed
member calls is well formed for it. -/
structure Capabilities where
  serialize : Bool
  deserialize : Bool
  trueSize : Bool
deriving DecidableEq

/-- The trait `has_serialize<T>`: true when
`std::declval<const T>().serialize(uint8_t*, size_t, size_t&)` is well formed. -/
def has_serialize (T : Capabilities) : Bool := T.serialize

/-- The trait `has_deserialize<T>`: true when
`std::declval<T>().deserialize(const uint8_t*, size_t, size_t&)` is well formed. -/
def has_deserialize (T : Capabilities) : Bool := T.deserialize

/-- The trait `has_trueSize<T>`: true when `std::declval<const T>().trueSize()` is well
formed. -/
def has_trueSize (T : Capabilities) : Bool := T.trueSize

/-- The two branches of the `if constexpr` in each `process_field`: the field is delegated
to (composite), or byte-swapped and copied with its `sizeof` (primitive). -/
inductive Treatment where
  | composite
  | primitive
deriving DecidableEq

/-- The branch `process_field` of `serialize_to_buffer` takes for a field of type `T`
(line 178: `if constexpr (has_serialize<T>::value)`). -/
def serialize_treatment (T : Capabilities) : Treatment :=
  if has_serialize T then .composite else .primitive

/-- The branch `process_field` of `deserialize_from_buffer` takes for a field of type `T`
(line 117: `if constexpr (has_deserialize<T>::value)`). -/
def deserialize_treatment (T : Capabilities) : Treatment :=
  if has_deserialize T then .composite else .primitive

/-- The branch `process_field` of `calculate_packed_size` takes for a field of type `T`
(line 236: `if constexpr (has_trueSize<T>::value)`). -/
def size_treatment (T : Capabilities) : Treatment :=
  if has_trueSize T then .composite else .primitive

/-- The spec's predicate `is_composite`: the type exposes all three operations. -/
def is_composite_spec (T : Capabilities) : Bool :=
  T.serialize && T.deserialize && T.trueSize

/-- An object of a class type `T` handed to an engine as a field: what `T` offers to the
detection traits, `sizeof(T)`, the bytes of the object representation, and the argument
list that the methods `serialize`, `deserialize` and `trueSize` of `T`, where it has them,
pass to the engine (as the schema structs of `serializer.cpp` do). -/
structure ClassObject where
  caps : Capabilities
  size : Nat
  bytes : List Nat
  members : List Field

/-- One call of the lambda `process_field` of `serialize_to_buffer` (lines 166-214) on an
object of class type. With `has_serialize<T>` the object is delegated to (lines 182-196,
the composite case of `serialize_process_field`). Without it the `else` branch runs (lines
199-212): `sizeof(T)` bytes are needed, `safe_hton` returns a class object as it is (for a
class type its 2-, 4- and 8-byte branch is ill-formed and the others end in `return val`),
and `safe_write_to_buffer` copies the `sizeof(T)` bytes of the object. -/
def serialize_process_object (host : Endian) (buffer buffer_len : Nat) (st : SerState)
    (x : ClassObject) : SerState :=
  if st.global_success = false then st
  else
    match serialize_treatment x.caps with
    | .composite => serialize_process_field host buffer buffer_len st (.comp x.members)
    | .primitive =>
      let needed := x.size
      if (st.offset + needed) % SIZE_MOD > buffer_len then
        { st with global_success := false }
      else
        { mem := (List.range x.size).foldl
            (fun m i => Function.update m (buffer + st.offset + i) (x.bytes.getD i 0 % 256))
            st.mem
          offset := (st.offset + needed) % SIZE_MOD
          global_success := true }

/-- One call of the lambda `process_field` of `deserialize_from_buffer` (lines 107-147) on
an object of class type. With `has_deserialize<T>` the object is delegated to (lines
121-132, the composite case of `deserialize_process_field`) and its members take the decoded
values. Without it the `else` branch runs (lines 135-145): `safe_read_from_buffer` copies
`sizeof(T)` bytes into the object and `safe_ntoh` returns it as it is. -/
def deserialize_process_object (host : Endian) (mem : Mem) (buffer buffer_len : Nat)
    (st : DeserState) (x : ClassObject) : ClassObject × DeserState :=
  if st.global_success = false then (x, st)
  else
    match deserialize_treatment x.caps with
    | .composite =>
      let r := deserialize_process_field host mem buffer buffer_len st (.comp x.members)
      match r.1 with
      | .comp fs => ({ x with members := fs }, r.2)
      | .prim _ _ => (x, r.2)
    | .primitive =>
      let needed := x.size
      if (st.offset + needed) % SIZE_MOD > buffer_len then
        (x, { st with global_success := false })
      else
        ({ x with bytes := (List.range x.size).map (fun i => mem (buffer + st.offset + i) % 256) },
          { offset := (st.offset + needed) % SIZE_MOD, global_success := true })

/-- What the lambda `process_field` of `calculate_packed_size` (lines 233-242) adds for an
object of class type: `field.trueSize()` with `has_trueSize<T>`, `sizeof(T)` without. -/
def object_size (x : ClassObject) : Nat :=
  match size_treatment x.caps with
  | .composite => packed_size_fold 0 x.members
  | .primitive => x.size

/-- A class with three `uint8_t` members `a = 1, b = 2, c = 3` (so `sizeof` 3) whose only
operation is a `serialize` that passes `a` to the engine. -/
def serialize_only_object : ClassObject :=
  { caps := { serialize := true, deserialize := false, trueSize := false }
    size := 3
    bytes := [1, 2, 3]
    members := [.prim .u8 1] }

mutual
/-- No scalar inside the field has type `bool` (the schema structs declare their flags as
`uint8_t`): every byte pattern is then a value of the type of the scalar it is read into. -/
def Field.bool_free : Field → Bool
  | .prim t _ => decide (t ≠ CType.bool)
  | .comp fs => bool_free_list fs
/-- No scalar inside the fields of the list has type `bool`. -/
def bool_free_list : List Field → Bool
  | [] => true
  | f :: fs => f.bool_free && bool_free_list fs
end

/-! # Theorems -/

set_option maxRecDepth 100000

/-! ## Arithmetic form of the byte swap -/

theorem and_shiftLeft_mask (x m k : Nat) : x &&& (m <<< k) = ((x >>> k) &&& m) <<< k := by
  apply Nat.eq_of_testBit_eq
  intro j
  simp only [Nat.testBit_and, Nat.testBit_shiftLeft, Nat.testBit_shiftRight]
  by_cases h : k ≤ j
  · simp [h, Nat.add_sub_cancel' h]
  · simp [h]

theorem byte_mask (x k : Nat) : x &&& (255 <<< k) = (x / 2 ^ k % 256) * 2 ^ k := by
  rw [and_shiftLeft_mask, Nat.shiftLeft_eq, Nat.shiftRight_eq_div_pow]
  have : (255 : Nat) = 2 ^ 8 - 1 := by norm_num
  rw [this, Nat.and_pow_two_sub_one_eq_mod]

theorem or_eq_add (a b k : Nat) (h : b < 2 ^ k) : a * 2 ^ k ||| b = a * 2 ^ k + b := by
  rw [Nat.mul_comm, Nat.mul_add_lt_is_or h]

theorem or_add_byte (s b k : Nat) (h : s < 2 ^ k) : s ||| b * 2 ^ k = s + b * 2 ^ k := by
  rw [Nat.lor_comm, or_eq_add b s k h, Nat.add_comm]

theorem swap_bytes_int_two (x : Nat) (h : x < 2 ^ 16) :
    swap_bytes_int 2 x = (x % 256) * 256 + x / 256 := by
  simp only [swap_bytes_int]
  norm_num
  rw [Nat.shiftLeft_eq, Nat.shiftRight_eq_div_pow, or_eq_add _ _ 8 (by omega)]
  omega

theorem swap_bytes_int_four (x : Nat) :
    swap_bytes_int 4 x =
      x / 2 ^ 24 % 256 + (x / 2 ^ 16 % 256) * 2 ^ 8 + (x / 2 ^ 8 % 256) * 2 ^ 16
        + (x % 256) * 2 ^ 24 := by
  have h3 : x &&& 0xFF000000 = (x / 2 ^ 24 % 256) * 2 ^ 24 := byte_mask x 24
  have h2 : x &&& 0x00FF0000 = (x / 2 ^ 16 % 256) * 2 ^ 16 := byte_mask x 16
  have h1 : x &&& 0x0000FF00 = (x / 2 ^ 8 % 256) * 2 ^ 8 := byte_mask x 8
  have h0 : x &&& 0x000000FF = (x / 2 ^ 0 % 256) * 2 ^ 0 := byte_mask x 0
  have e3 : (x &&& 0xFF000000) >>> 24 = x / 2 ^ 24 % 256 := by
    rw [h3, Nat.shiftRight_eq_div_pow]; omega
  have e2 : (x &&& 0x00FF0000) >>> 8 = (x / 2 ^ 16 % 256) * 2 ^ 8 := by
    rw [h2, Nat.shiftRight_eq_div_pow]; omega
  have e1 : (x &&& 0x0000FF00) <<< 8 = (x / 2 ^ 8 % 256) * 2 ^ 16 := by
    rw [h1, Nat.shiftLeft_eq]; omega
  have e0 : (x &&& 0x000000FF) <<< 24 = (x % 256) * 2 ^ 24 := by
    rw [h0, Nat.shiftLeft_eq]; omega
  have : swap_bytes_int 4 x = (((x &&& 0xFF000000) >>> 24) ||| ((x &&& 0x00FF0000) >>> 8) |||
      ((x &&& 0x0000FF00) <<< 8) ||| ((x &&& 0x000000FF) <<< 24)) % 2 ^ 32 := by
    simp [swap_bytes_int]
  rw [this, e3, e2, e1, e0, or_add_byte _ _ 8 (by omega), or_add_byte _ _ 16 (by omega),
    or_add_byte _ _ 24 (by omega)]
  omega

theorem swap_bytes_int_eight (x : Nat) :
    swap_bytes_int 8 x =
      x / 2 ^ 56 % 256 + (x / 2 ^ 48 % 256) * 2 ^ 8 + (x / 2 ^ 40 % 256) * 2 ^ 16
        + (x / 2 ^ 32 % 256) * 2 ^ 24 + (x / 2 ^ 24 % 256) * 2 ^ 32
        + (x / 2 ^ 16 % 256) * 2 ^ 40 + (x / 2 ^ 8 % 256) * 2 ^ 48 + (x % 256) * 2 ^ 56 := by
  have h7 : x &&& 0xFF00000000000000 = (x / 2 ^ 56 % 256) * 2 ^ 56 := byte_mask x 56
  have h6 : x &&& 0x00FF000000000000 = (x / 2 ^ 48 % 256) * 2 ^ 48 := byte_mask x 48
  have h5 : x &&& 0x0000FF0000000000 = (x / 2 ^ 40 % 256) * 2 ^ 40 := byte_mask x 40
  have h4 : x &&& 0x000000FF00000000 = (x / 2 ^ 32 % 256) * 2 ^ 32 := byte_mask x 32
  have h3 : x &&& 0x00000000FF000000 = (x / 2 ^ 24 % 256) * 2 ^ 24 := byte_mask x 24
  have h2 : x &&& 0x0000000000FF0000 = (x / 2 ^ 16 % 256) * 2 ^ 16 := byte_mask x 16
  have h1 : x &&& 0x000000000000FF00 = (x / 2 ^ 8 % 256) * 2 ^ 8 := byte_mask x 8
  have h0 : x &&& 0x00000000000000FF = (x / 2 ^ 0 % 256) * 2 ^ 0 := byte_mask x 0
  have e7 : (x &&& 0xFF00000000000000) >>> 56 = x / 2 ^ 56 % 256 := by
    rw [h7, Nat.shiftRight_eq_div_pow]; omega
  have e6 : (x &&& 0x00FF000000000000) >>> 40 = (x / 2 ^ 48 % 256) * 2 ^ 8 := by
    rw [h6, Nat.shiftRight_eq_div_pow]; omega
  have e5 : (x &&& 0x0000FF0000000000) >>> 24 = (x / 2 ^ 40 % 256) * 2 ^ 16 := by
    rw [h5, Nat.shiftRight_eq_div_pow]; omega
  have e4 : (x &&& 0x000000FF00000000) >>> 8 = (x / 2 ^ 32 % 256) * 2 ^ 24 := by
    rw [h4, Nat.shiftRight_eq_div_pow]; omega
  have e3 : (x &&& 0x00000000FF000000) <<< 8 = (x / 2 ^ 24 % 256) * 2 ^ 32 := by
    rw [h3, Nat.shiftLeft_eq]; omega
  have e2 : (x &&& 0x0000000000FF0000) <<< 24 = (x / 2 ^ 16 % 256) * 2 ^ 40 := by
    rw [h2, Nat.shiftLeft_eq]; omega
  have e1 : (x &&& 0x000000000000FF00) <<< 40 = (x / 2 ^ 8 % 256) * 2 ^ 48 := by
    rw [h1, Nat.shiftLeft_eq]; omega
  have e0 : (x &&& 0x00000000000000FF) <<< 56 = (x % 256) * 2 ^ 56 := by
    rw [h0, Nat.shiftLeft_eq]; omega
  have : swap_bytes_int 8 x =
      (((x &&& 0xFF00000000000000) >>> 56) ||| ((x &&& 0x00FF000000000000) >>> 40) |||
      ((x &&& 0x0000FF0000000000) >>> 24) ||| ((x &&& 0x000000FF00000000) >>> 8) |||
      ((x &&& 0x00000000FF000000) <<< 8) ||| ((x &&& 0x0000000000FF0000) <<< 24) |||
      ((x &&& 0x000000000000FF00) <<< 40) ||| ((x &&& 0x00000000000000FF) <<< 56)) % 2 ^ 64 := by
    simp [swap_bytes_int]
  rw [this, e7, e6, e5, e4, e3, e2, e1, e0, or_add_byte _ _ 8 (by omega),
    or_add_byte _ _ 16 (by omega), or_add_byte _ _ 24 (by omega), or_add_byte _ _ 32 (by omega),
    or_add_byte _ _ 40 (by omega), or_add_byte _ _ 48 (by omega), or_add_byte _ _ 56 (by omega)]
  omega

theorem swap_bytes_int_one (x : Nat) : swap_bytes_int 1 x = x := by
  simp [swap_bytes_int]

/-! ## Little-endian digits -/

theorem pack_lt (n : Nat) (b : Nat → Nat) (hb : ∀ i, i < n → b i < 256) :
    pack n b < 256 ^ n := by
  induction n with
  | zero => simp [pack]
  | succ n ih =>
    have h1 := ih (fun i hi => hb i (Nat.lt_succ_of_lt hi))
    have h2 := hb n (Nat.lt_succ_self n)
    simp only [pack, pow_succ]
    nlinarith

theorem byte_of_pack (n : Nat) (b : Nat → Nat) (hb : ∀ i, i < n → b i < 256) (i : Nat)
    (hi : i < n) : byte_of (pack n b) i = b i := by
  induction n with
  | zero => omega
  | succ n ih =>
    have hlt := pack_lt n b (fun j hj => hb j (Nat.lt_succ_of_lt hj))
    have hn := hb n (Nat.lt_succ_self n)
    simp only [pack, byte_of]
    rcases Nat.lt_succ_iff_lt_or_eq.mp hi with h | h
    · have ih2 := ih (fun j hj => hb j (Nat.lt_succ_of_lt hj)) h
      simp only [byte_of] at ih2
      obtain ⟨k, rfl⟩ : ∃ k, n = i + (k + 1) := ⟨n - i - 1, by omega⟩
      have e : b (i + (k + 1)) * 256 ^ (i + (k + 1)) = (b (i + (k + 1)) * 256 ^ k * 256) * 256 ^ i := by
        ring
      rw [e, Nat.add_mul_div_right _ _ (by positivity), Nat.add_mul_mod_self_right, ih2]
    · subst h
      rw [Nat.add_mul_div_right _ _ (by positivity), Nat.div_eq_of_lt hlt, Nat.zero_add,
        Nat.mod_eq_of_lt hn]

theorem pack_byte_of_mod (n x : Nat) : pack n (byte_of x) = x % 256 ^ n := by
  induction n with
  | zero => simp [pack, Nat.mod_one]
  | succ n ih =>
    simp only [pack, ih, byte_of]
    rw [Nat.mod_pow_succ]
    ring

theorem pack_byte_of (n x : Nat) (hx : x < 256 ^ n) : pack n (byte_of x) = x := by
  rw [pack_byte_of_mod, Nat.mod_eq_of_lt hx]

theorem pack_congr (n : Nat) (b c : Nat → Nat) (h : ∀ i, i < n → b i = c i) :
    pack n b = pack n c := by
  induction n with
  | zero => simp [pack]
  | succ n ih =>
    simp only [pack]
    rw [ih (fun i hi => h i (Nat.lt_succ_of_lt hi)), h n (Nat.lt_succ_self n)]

theorem byte_of_lt (x i : Nat) : byte_of x i < 256 := by
  unfold byte_of
  omega

theorem pow_two_eight (n : Nat) : (2 : Nat) ^ (8 * n) = 256 ^ n := by
  rw [pow_mul]
  norm_num

/-- The byte swap written with digits: digit `i` of the result is digit `size - 1 - i`
of the argument. -/
theorem swap_bytes_int_eq_pack (size x : Nat) (hs : size = 1 ∨ size = 2 ∨ size = 4 ∨ size = 8)
    (hx : x < 256 ^ size) :
    swap_bytes_int size x = pack size (fun i => byte_of x (size - 1 - i)) := by
  rcases hs with rfl | rfl | rfl | rfl
  · rw [swap_bytes_int_one]
    simp only [pack, byte_of]
    norm_num at hx ⊢
    omega
  · rw [swap_bytes_int_two x (by norm_num at hx ⊢; omega)]
    simp only [pack, byte_of]
    norm_num at hx ⊢
    omega
  · rw [swap_bytes_int_four]
    simp only [pack, byte_of]
    norm_num
  · rw [swap_bytes_int_eight]
    simp only [pack, byte_of]
    norm_num

/-- The byte swap stays within the width of its type. -/
theorem swap_bytes_int_lt (size x : Nat) (hs : size = 1 ∨ size = 2 ∨ size = 4 ∨ size = 8)
    (hx : x < 256 ^ size) : swap_bytes_int size x < 256 ^ size := by
  rw [swap_bytes_int_eq_pack size x hs hx]
  exact pack_lt _ _ (fun i _ => byte_of_lt _ _)

/-- Byte `i` of the swapped value is byte `size - 1 - i` of the original one. -/
theorem byte_of_swap_bytes_int (size x i : Nat) (hs : size = 1 ∨ size = 2 ∨ size = 4 ∨ size = 8)
    (hx : x < 256 ^ size) (hi : i < size) :
    byte_of (swap_bytes_int size x) i = byte_of x (size - 1 - i) := by
  rw [swap_bytes_int_eq_pack size x hs hx, byte_of_pack _ _ (fun i _ => byte_of_lt _ _) i hi]

/-- The byte swap is its own inverse on the values of its type. -/
theorem swap_bytes_int_involutive (size x : Nat) (hs : size = 1 ∨ size = 2 ∨ size = 4 ∨ size = 8)
    (hx : x < 256 ^ size) : swap_bytes_int size (swap_bytes_int size x) = x := by
  have hlt := swap_bytes_int_lt size x hs hx
  rw [swap_bytes_int_eq_pack size _ hs hlt]
  rw [pack_congr size _ (byte_of x)]
  · exact pack_byte_of size x hx
  · intro i hi
    show byte_of (swap_bytes_int size x) (size - 1 - i) = byte_of x i
    rw [byte_of_swap_bytes_int size x _ hs hx (by omega)]
    congr 1
    omega


theorem to_unsigned_lt (size : Nat) (v : Int) : to_unsigned size v < 256 ^ size := by
  unfold to_unsigned
  have hpos : (0 : Int) < (2 : Int) ^ (8 * size) := by positivity
  have h1 := Int.emod_nonneg v (ne_of_gt hpos)
  have h2 := Int.emod_lt_of_pos v hpos
  have h3 : ((v % (2 : Int) ^ (8 * size)).toNat : Int) < ((256 ^ size : Nat) : Int) := by
    rw [Int.toNat_of_nonneg h1, ← pow_two_eight]
    push_cast
    exact h2
  exact_mod_cast h3

theorem to_unsigned_from_unsigned (t : CType) (p : Nat) (hp : p < 256 ^ t.sizeof) :
    to_unsigned t.sizeof (from_unsigned t p) = p := by
  cases t <;> simp [CType.sizeof, to_unsigned, from_unsigned, CType.is_signed] at hp ⊢ <;>
    omega

theorem from_unsigned_to_unsigned (t : CType) (v : Int) (hv : t.inRange v) :
    from_unsigned t (to_unsigned t.sizeof v) = v := by
  cases t <;>
    simp [CType.sizeof, to_unsigned, from_unsigned, CType.is_signed, CType.inRange, CType.minVal,
      CType.maxVal] at hv ⊢ <;>
    omega

/-! ## Object representation, reads and writes -/

theorem sizeof_cases (t : CType) :
    t.sizeof = 1 ∨ t.sizeof = 2 ∨ t.sizeof = 4 ∨ t.sizeof = 8 := by
  cases t <;> simp [CType.sizeof]

theorem sizeof_pos (t : CType) : 0 < t.sizeof := by
  cases t <;> simp [CType.sizeof]

theorem sizeof_le (t : CType) : t.sizeof ≤ 8 := by
  cases t <;> simp [CType.sizeof]

/-- Reassembling the object representation of a bit pattern gives the pattern back, on
either host. -/
theorem of_object_bytes_eq (host : Endian) (size p : Nat) (b : Nat → Nat) (hp : p < 256 ^ size)
    (hb : ∀ i, i < size → b i = object_byte host size p i) :
    of_object_bytes host size b = p := by
  cases host with
  | Little =>
    simp only [of_object_bytes]
    rw [pack_congr size _ (byte_of p)]
    · exact pack_byte_of size p hp
    · intro i hi
      rw [hb i hi]
      simp only [object_byte]
      exact Nat.mod_eq_of_lt (byte_of_lt _ _)
  | Big =>
    simp only [of_object_bytes]
    rw [pack_congr size _ (byte_of p)]
    · exact pack_byte_of size p hp
    · intro i hi
      show b (size - 1 - i) % 256 = byte_of p i
      rw [hb (size - 1 - i) (by omega)]
      simp only [object_byte]
      rw [Nat.mod_eq_of_lt (byte_of_lt _ _)]
      congr 1
      omega

theorem store_nil (base : Nat) (mem : Mem) : store base [] mem = mem := by
  funext a
  simp [store]

theorem store_append (base : Nat) (xs ys : List Nat) (mem : Mem) :
    store base (xs ++ ys) mem = store (base + xs.length) ys (store base xs mem) := by
  funext a
  simp only [store, List.length_append]
  by_cases h1 : base + xs.length ≤ a ∧ a < base + xs.length + ys.length
  · have h2 : base ≤ a ∧ a < base + (xs.length + ys.length) := by omega
    rw [if_pos h1, if_pos h2]
    have h3 : a - base = xs.length + (a - (base + xs.length)) := by omega
    rw [h3, List.getD_eq_getElem?_getD, List.getD_eq_getElem?_getD,
      List.getElem?_append_right (by omega)]
    simp
  · rw [if_neg h1]
    by_cases h2 : base ≤ a ∧ a < base + xs.length
    · have h3 : base ≤ a ∧ a < base + (xs.length + ys.length) := by omega
      rw [if_pos h2, if_pos h3, List.getD_eq_getElem?_getD, List.getD_eq_getElem?_getD,
        List.getElem?_append_left (by omega)]
    · have h3 : ¬(base ≤ a ∧ a < base + (xs.length + ys.length)) := by omega
      rw [if_neg h2, if_neg h3]

theorem store_apply_inside (base : Nat) (bytes : List Nat) (mem : Mem) (i : Nat)
    (hi : i < bytes.length) : store base bytes mem (base + i) = bytes.getD i 0 := by
  simp only [store]
  rw [if_pos (by omega)]
  congr 1
  omega

theorem store_apply_outside (base : Nat) (bytes : List Nat) (mem : Mem) (a : Nat)
    (ha : a < base ∨ base + bytes.length ≤ a) : store base bytes mem a = mem a := by
  simp only [store]
  rw [if_neg (by omega)]

theorem load_store (base : Nat) (bytes : List Nat) (mem : Mem) :
    load (store base bytes mem) base bytes.length = bytes := by
  apply List.ext_getElem
  · simp [load]
  · intro i h1 h2
    simp only [load, List.getElem_map, List.getElem_range]
    rw [store_apply_inside base bytes mem i h2, List.getD_eq_getElem?_getD,
      List.getElem?_eq_getElem h2]
    rfl

theorem foldl_update_range (n dest : Nat) (g : Nat → Nat) (mem : Mem) :
    (List.range n).foldl (fun m i => Function.update m (dest + i) (g i)) mem
      = fun a => if dest ≤ a ∧ a < dest + n then g (a - dest) else mem a := by
  induction n with
  | zero =>
    funext a
    have h : ¬(dest ≤ a ∧ a < dest + 0) := by omega
    simp only [List.range_zero, List.foldl_nil]
    rw [if_neg h]
  | succ n ih =>
    rw [List.range_succ, List.foldl_append, ih]
    funext a
    simp only [List.foldl_cons, List.foldl_nil, Function.update_apply]
    by_cases h : a = dest + n
    · subst h
      simp
    · rw [if_neg h]
      by_cases h2 : dest ≤ a ∧ a < dest + n
      · rw [if_pos h2, if_pos (by omega)]
      · rw [if_neg h2, if_neg (by omega)]

theorem object_bytes_length (host : Endian) (t : CType) (v : Int) :
    (object_bytes host t v).length = t.sizeof := by
  simp [object_bytes]

theorem object_bytes_getD (host : Endian) (t : CType) (v : Int) (i : Nat) (hi : i < t.sizeof) :
    (object_bytes host t v).getD i 0 = object_byte host t.sizeof (to_unsigned t.sizeof v) i := by
  simp [object_bytes, List.getD_eq_getElem?_getD, List.getElem?_map, List.getElem?_range hi]

/-- The raw write stores the object representation of the value at `dest` and changes
nothing else. -/
theorem safe_write_to_buffer_eq_store (host : Endian) (mem : Mem) (dest : Nat) (t : CType)
    (v : Int) : safe_write_to_buffer host mem dest t v = store dest (object_bytes host t v) mem := by
  unfold safe_write_to_buffer
  rw [foldl_update_range]
  funext a
  simp only [store, object_bytes_length]
  by_cases h : dest ≤ a ∧ a < dest + t.sizeof
  · rw [if_pos h, if_pos h, object_bytes_getD host t v _ (by omega)]
  · rw [if_neg h, if_neg h]

/-! ## The byte-order transform on typed values -/

theorem safe_ntoh_eq (t : CType) (v : Int) :
    safe_ntoh t v = if t.sizeof = 1 then v
      else from_unsigned t (swap_bytes_int t.sizeof (to_unsigned t.sizeof v)) := by
  cases t <;> simp [safe_ntoh, CType.sizeof, CType.is_floating_point]

theorem to_unsigned_safe_ntoh (t : CType) (v : Int) :
    to_unsigned t.sizeof (safe_ntoh t v) = swap_bytes_int t.sizeof (to_unsigned t.sizeof v) := by
  rw [safe_ntoh_eq]
  by_cases h : t.sizeof = 1
  · rw [if_pos h, h, swap_bytes_int_one]
  · rw [if_neg h]
    exact to_unsigned_from_unsigned t _
      (swap_bytes_int_lt _ _ (sizeof_cases t) (to_unsigned_lt _ _))

theorem from_unsigned_to_unsigned_safe_ntoh (t : CType) (v : Int) (hv : t.inRange v) :
    from_unsigned t (to_unsigned t.sizeof (safe_ntoh t v)) = safe_ntoh t v := by
  rw [safe_ntoh_eq]
  by_cases h : t.sizeof = 1
  · rw [if_pos h]
    exact from_unsigned_to_unsigned t v hv
  · rw [if_neg h, to_unsigned_from_unsigned t _
      (swap_bytes_int_lt _ _ (sizeof_cases t) (to_unsigned_lt _ _))]

/-- Swapping twice gives the value back. -/
theorem safe_ntoh_safe_ntoh (t : CType) (v : Int) (hv : t.inRange v) :
    safe_ntoh t (safe_ntoh t v) = v := by
  by_cases h : t.sizeof = 1
  · rw [safe_ntoh_eq t v, if_pos h, safe_ntoh_eq t v, if_pos h]
  · rw [safe_ntoh_eq t (safe_ntoh t v), if_neg h, to_unsigned_safe_ntoh,
      swap_bytes_int_involutive _ _ (sizeof_cases t) (to_unsigned_lt _ _)]
    exact from_unsigned_to_unsigned t v hv

/-- Reading back what the engine wrote for a primitive, and swapping, gives the value. -/
theorem read_back (host : Endian) (mem : Mem) (a : Nat) (t : CType) (v : Int) (hv : t.inRange v)
    (hm : ∀ i, i < t.sizeof → mem (a + i) = (object_bytes host t (safe_hton t v)).getD i 0) :
    safe_ntoh t (safe_read_from_buffer host mem a t) = v := by
  unfold safe_read_from_buffer
  rw [of_object_bytes_eq host t.sizeof (to_unsigned t.sizeof (safe_hton t v)) _
    (to_unsigned_lt _ _)]
  · unfold safe_hton
    rw [from_unsigned_to_unsigned_safe_ntoh t v hv]
    exact safe_ntoh_safe_ntoh t v hv
  · intro i hi
    rw [hm i hi, object_bytes_getD host t _ i hi]

theorem object_byte_swap (host : Endian) (t : CType) (v : Int) (i : Nat) (hi : i < t.sizeof) :
    object_byte host t.sizeof (to_unsigned t.sizeof (safe_hton t v)) i
      = object_byte host t.sizeof (to_unsigned t.sizeof v) (t.sizeof - 1 - i) := by
  unfold safe_hton
  rw [to_unsigned_safe_ntoh]
  cases host with
  | Little =>
    simp only [object_byte]
    exact byte_of_swap_bytes_int _ _ _ (sizeof_cases t) (to_unsigned_lt _ _) hi
  | Big =>
    simp only [object_byte]
    exact byte_of_swap_bytes_int _ _ _ (sizeof_cases t) (to_unsigned_lt _ _) (by omega)

theorem map_range_reverse (n : Nat) (g : Nat → Nat) :
    ((List.range n).map g).reverse = (List.range n).map (fun i => g (n - 1 - i)) := by
  apply List.ext_getElem
  · simp
  · intro i h1 h2
    simp only [List.length_reverse, List.length_map, List.length_range] at h1
    simp [List.getElem_reverse]

theorem object_bytes_safe_hton (host : Endian) (t : CType) (v : Int) :
    object_bytes host t (safe_hton t v) = (object_bytes host t v).reverse := by
  unfold object_bytes
  rw [map_range_reverse]
  apply List.map_congr_left
  intro i hi
  exact object_byte_swap host t v i (List.mem_range.mp hi)

/-- On a little-endian host the engine's bytes for a primitive are the value most
significant byte first. -/
theorem object_bytes_safe_hton_little (t : CType) (v : Int) :
    object_bytes .Little t (safe_hton t v) = big_endian_bytes t v := by
  unfold object_bytes big_endian_bytes
  apply List.map_congr_left
  intro i hi
  rw [object_byte_swap .Little t v i (List.mem_range.mp hi)]
  rfl

/-- On a big-endian host the engine's bytes for a primitive are the value least
significant byte first. -/
theorem object_bytes_safe_hton_big (t : CType) (v : Int) :
    object_bytes .Big t (safe_hton t v) = little_endian_bytes t v := by
  unfold object_bytes little_endian_bytes
  apply List.map_congr_left
  intro i hi
  have hi2 := List.mem_range.mp hi
  rw [object_byte_swap .Big t v i hi2]
  simp only [object_byte]
  congr 1
  omega

/-! ## Steps of the encode engine -/

theorem serialize_process_field_failed (host : Endian) (buffer buffer_len : Nat) (st : SerState)
    (f : Field) (h : st.global_success = false) :
    serialize_process_field host buffer buffer_len st f = st := by
  cases f <;> simp [serialize_process_field, h]

theorem serialize_fold_failed (host : Endian) (buffer buffer_len : Nat) (fs : List Field) :
    ∀ st : SerState, st.global_success = false →
      serialize_fold host buffer buffer_len st fs = st := by
  induction fs with
  | nil => intro st _; simp [serialize_fold]
  | cons f fs ih =>
    intro st h
    simp [serialize_fold, serialize_process_field_failed host buffer buffer_len st f h, ih st h]

theorem serialize_prim_overflow (host : Endian) (buffer buffer_len : Nat) (st : SerState)
    (t : CType) (v : Int) (hst : st.global_success = true)
    (h : buffer_len < (st.offset + t.sizeof) % SIZE_MOD) :
    serialize_process_field host buffer buffer_len st (.prim t v)
      = { st with global_success := false } := by
  simp [serialize_process_field, hst, h]

theorem serialize_prim_fits (host : Endian) (buffer buffer_len : Nat) (st : SerState)
    (t : CType) (v : Int) (hst : st.global_success = true)
    (h : (st.offset + t.sizeof) % SIZE_MOD ≤ buffer_len) :
    serialize_process_field host buffer buffer_len st (.prim t v)
      = { mem := store (buffer + st.offset) (object_bytes host t (safe_hton t v)) st.mem
          offset := (st.offset + t.sizeof) % SIZE_MOD
          global_success := true } := by
  simp [serialize_process_field, hst, Nat.not_lt.mpr h, safe_write_to_buffer_eq_store]

theorem serialize_comp_precheck (host : Endian) (buffer buffer_len : Nat) (st : SerState)
    (fs : List Field) (hst : st.global_success = true) (h : buffer_len ≤ st.offset) :
    serialize_process_field host buffer buffer_len st (.comp fs)
      = { st with global_success := false } := by
  simp [serialize_process_field, hst, h]

theorem serialize_comp_run (host : Endian) (buffer buffer_len : Nat) (st : SerState)
    (fs : List Field) (hst : st.global_success = true) (h : st.offset < buffer_len) :
    serialize_process_field host buffer buffer_len st (.comp fs)
      = if (serialize_to_buffer host st.mem (buffer + st.offset) (buffer_len - st.offset) 0
            fs).global_success = false then
          { mem := (serialize_to_buffer host st.mem (buffer + st.offset)
              (buffer_len - st.offset) 0 fs).mem
            offset := st.offset
            global_success := false }
        else
          { mem := (serialize_to_buffer host st.mem (buffer + st.offset)
              (buffer_len - st.offset) 0 fs).mem
            offset := (st.offset + (serialize_to_buffer host st.mem (buffer + st.offset)
              (buffer_len - st.offset) 0 fs).offset) % SIZE_MOD
            global_success := true } := by
  simp [serialize_process_field, hst, Nat.not_le.mpr h, serialize_to_buffer]

theorem serialize_fold_cons (host : Endian) (buffer buffer_len : Nat) (st : SerState)
    (f : Field) (fs : List Field) :
    serialize_fold host buffer buffer_len st (f :: fs)
      = serialize_fold host buffer buffer_len
          (serialize_process_field host buffer buffer_len st f) fs := by
  simp [serialize_fold]

theorem serialize_fold_success_head (host : Endian) (buffer buffer_len : Nat) (st : SerState)
    (f : Field) (fs : List Field)
    (h : (serialize_fold host buffer buffer_len st (f :: fs)).global_success = true) :
    (serialize_process_field host buffer buffer_len st f).global_success = true := by
  by_contra hc
  rw [serialize_fold_cons, serialize_fold_failed _ _ _ _ _ (by simpa using hc)] at h
  exact hc h

/-! ## The cursor of a successful encode is the packed size -/

mutual
theorem serialize_process_field_offset (host : Endian) (buffer buffer_len : Nat) (st : SerState)
    (f : Field) (hst : st.global_success = true)
    (h : (serialize_process_field host buffer buffer_len st f).global_success = true) :
    (serialize_process_field host buffer buffer_len st f).offset
      = (st.offset + field_size f) % SIZE_MOD := by
  cases f with
  | prim t v =>
    by_cases hc : (st.offset + t.sizeof) % SIZE_MOD ≤ buffer_len
    · rw [serialize_prim_fits host buffer buffer_len st t v hst hc]
      simp [field_size]
    · rw [serialize_prim_overflow host buffer buffer_len st t v hst (by omega)] at h
      simp at h
  | comp fs =>
    by_cases hc : st.offset < buffer_len
    · rw [serialize_comp_run host buffer buffer_len st fs hst hc] at h ⊢
      by_cases hs : (serialize_to_buffer host st.mem (buffer + st.offset)
          (buffer_len - st.offset) 0 fs).global_success = false
      · rw [if_pos hs] at h
        simp at h
      · rw [if_neg hs]
        have hs2 : (serialize_fold host (buffer + st.offset) (buffer_len - st.offset)
            { mem := st.mem, offset := 0, global_success := true } fs).global_success = true := by
          simpa [serialize_to_buffer] using hs
        have ih := serialize_fold_offset host (buffer + st.offset) (buffer_len - st.offset)
          { mem := st.mem, offset := 0, global_success := true } fs rfl hs2
        simp only [serialize_to_buffer, ih, field_size]
    · rw [serialize_comp_precheck host buffer buffer_len st fs hst (by omega)] at h
      simp at h
theorem serialize_fold_offset (host : Endian) (buffer buffer_len : Nat) (st : SerState)
    (fs : List Field) (hst : st.global_success = true)
    (h : (serialize_fold host buffer buffer_len st fs).global_success = true) :
    (serialize_fold host buffer buffer_len st fs).offset = packed_size_fold st.offset fs := by
  cases fs with
  | nil => simp [serialize_fold, packed_size_fold]
  | cons f fs =>
    have hf := serialize_fold_success_head host buffer buffer_len st f fs h
    rw [serialize_fold_cons] at h ⊢
    rw [serialize_fold_offset host buffer buffer_len _ fs hf h,
      serialize_process_field_offset host buffer buffer_len st f hst hf]
    simp [packed_size_fold]
end

/-! ## Packed size without wrap-around -/

mutual
theorem field_size_eq_width (f : Field) (h : f.width < SIZE_MOD) : field_size f = f.width := by
  cases f with
  | prim t v => simp [field_size, Field.width]
  | comp fs =>
    simp only [field_size, Field.width] at h ⊢
    rw [packed_size_fold_eq fs 0 (by omega)]
    omega
theorem packed_size_fold_eq (fs : List Field) (total : Nat) (h : total + widths fs < SIZE_MOD) :
    packed_size_fold total fs = total + widths fs := by
  cases fs with
  | nil => simp [packed_size_fold, widths]
  | cons f fs =>
    simp only [packed_size_fold, widths] at h ⊢
    rw [field_size_eq_width f (by omega), Nat.mod_eq_of_lt (by omega),
      packed_size_fold_eq fs _ (by omega)]
    omega
end

theorem calculate_packed_size_eq (fs : List Field) (h : widths fs < SIZE_MOD) :
    calculate_packed_size fs = widths fs := by
  unfold calculate_packed_size
  rw [packed_size_fold_eq fs 0 (by omega)]
  omega

theorem wire_length (host : Endian) : ∀ fs : List Field, (wire_fields host fs).length = widths fs
  | [] => by simp [wire_fields, widths]
  | .prim t v :: fs => by
    simp [wire_fields, wire_field, widths, Field.width, object_bytes_length, wire_length host fs]
  | .comp gs :: fs => by
    simp [wire_fields, wire_field, widths, Field.width, wire_length host gs, wire_length host fs]

theorem wire_field_length (host : Endian) (f : Field) : (wire_field host f).length = f.width := by
  cases f with
  | prim t v => simp [wire_field, Field.width, object_bytes_length]
  | comp fs => simp [wire_field, Field.width, wire_length]

/-! ## Encode into a buffer that is large enough -/

mutual
theorem serialize_process_field_fits (host : Endian) (buffer buffer_len : Nat) (st : SerState)
    (f : Field) (hst : st.global_success = true) (hsolid : f.solid = true)
    (hfit : st.offset + f.width ≤ buffer_len) (hrep : st.offset + f.width < SIZE_MOD) :
    serialize_process_field host buffer buffer_len st f
      = { mem := store (buffer + st.offset) (wire_field host f) st.mem
          offset := st.offset + f.width
          global_success := true } := by
  cases f with
  | prim t v =>
    simp only [Field.width] at hfit hrep
    rw [serialize_prim_fits host buffer buffer_len st t v hst
      (by rw [Nat.mod_eq_of_lt hrep]; exact hfit), Nat.mod_eq_of_lt hrep]
    simp [wire_field, Field.width]
  | comp fs =>
    simp only [Field.width] at hfit hrep
    simp only [Field.solid, Bool.and_eq_true, decide_eq_true_eq] at hsolid
    have ih := serialize_fold_fits host (buffer + st.offset) (buffer_len - st.offset)
      { mem := st.mem, offset := 0, global_success := true } fs rfl hsolid.2
      (by simp only; omega) (by simp only; omega)
    rw [serialize_comp_run host buffer buffer_len st fs hst (by omega)]
    simp only [serialize_to_buffer, ih]
    simp only [Bool.true_eq_false, if_false, Nat.add_zero, Nat.zero_add, wire_field, Field.width,
      Nat.mod_eq_of_lt hrep]
theorem serialize_fold_fits (host : Endian) (buffer buffer_len : Nat) (st : SerState)
    (fs : List Field) (hst : st.global_success = true) (hsolid : solid_list fs = true)
    (hfit : st.offset + widths fs ≤ buffer_len) (hrep : st.offset + widths fs < SIZE_MOD) :
    serialize_fold host buffer buffer_len st fs
      = { mem := store (buffer + st.offset) (wire_fields host fs) st.mem
          offset := st.offset + widths fs
          global_success := true } := by
  cases fs with
  | nil =>
    simp only [serialize_fold, wire_fields, widths, store_nil, Nat.add_zero]
    cases st
    simp_all
  | cons f fs =>
    simp only [widths] at hfit hrep
    simp only [solid_list, Bool.and_eq_true] at hsolid
    rw [serialize_fold_cons,
      serialize_process_field_fits host buffer buffer_len st f hst hsolid.1 (by omega) (by omega),
      serialize_fold_fits host buffer buffer_len _ fs rfl hsolid.2 (by simp only; omega)
        (by simp only; omega)]
    simp only [wire_fields, widths, store_append, wire_field_length, Nat.add_assoc]
end

/-! ## Encode into a buffer that is too short -/

mutual
theorem serialize_process_field_short (host : Endian) (buffer buffer_len : Nat) (st : SerState)
    (f : Field) (hst : st.global_success = true)
    (hshort : buffer_len < st.offset + f.width) (hrep : st.offset + f.width < SIZE_MOD) :
    (serialize_process_field host buffer buffer_len st f).global_success = false := by
  cases f with
  | prim t v =>
    simp only [Field.width] at hshort hrep
    rw [serialize_prim_overflow host buffer buffer_len st t v hst
      (by rw [Nat.mod_eq_of_lt hrep]; exact hshort)]
  | comp fs =>
    simp only [Field.width] at hshort hrep
    by_cases hc : st.offset < buffer_len
    · have ih := serialize_fold_short host (buffer + st.offset) (buffer_len - st.offset)
        { mem := st.mem, offset := 0, global_success := true } fs rfl (Nat.zero_le _)
        (by simp only; omega) (by simp only; omega)
      rw [serialize_comp_run host buffer buffer_len st fs hst hc]
      simp only [serialize_to_buffer, ih, if_true]
    · rw [serialize_comp_precheck host buffer buffer_len st fs hst (by omega)]
theorem serialize_fold_short (host : Endian) (buffer buffer_len : Nat) (st : SerState)
    (fs : List Field) (hst : st.global_success = true) (hle : st.offset ≤ buffer_len)
    (hshort : buffer_len < st.offset + widths fs) (hrep : st.offset + widths fs < SIZE_MOD) :
    (serialize_fold host buffer buffer_len st fs).global_success = false := by
  cases fs with
  | nil =>
    simp only [widths] at hshort
    omega
  | cons f fs =>
    simp only [widths] at hshort hrep
    rw [serialize_fold_cons]
    by_cases hf : (serialize_process_field host buffer buffer_len st f).global_success = true
    · have ho := serialize_process_field_offset host buffer buffer_len st f hst hf
      rw [field_size_eq_width f (by omega), Nat.mod_eq_of_lt (by omega)] at ho
      have hle2 : st.offset + f.width ≤ buffer_len := by
        by_contra hc
        rw [serialize_process_field_short host buffer buffer_len st f hst (by omega) (by omega)]
          at hf
        simp at hf
      exact serialize_fold_short host buffer buffer_len _ fs hf (by rw [ho]; exact hle2)
        (by rw [ho]; omega) (by rw [ho]; omega)
    · rw [serialize_fold_failed _ _ _ _ _ (by simpa using hf)]
      simpa using hf
end

/-- With a cursor inside the buffer and a packed size that fits `size_t`, the encode
succeeds exactly when the fields fit. -/
theorem serialize_fold_success_iff (host : Endian) (buffer buffer_len : Nat) (st : SerState)
    (fs : List Field) (hst : st.global_success = true) (hsolid : solid_list fs = true)
    (hle : st.offset ≤ buffer_len) (hrep : st.offset + widths fs < SIZE_MOD) :
    (serialize_fold host buffer buffer_len st fs).global_success = true
      ↔ st.offset + widths fs ≤ buffer_len := by
  constructor
  · intro h
    by_contra hc
    rw [serialize_fold_short host buffer buffer_len st fs hst hle (by omega) hrep] at h
    simp at h
  · intro h
    rw [serialize_fold_fits host buffer buffer_len st fs hst hsolid h hrep]

/-! ## Steps of the decode engine -/

theorem deserialize_process_field_failed (host : Endian) (mem : Mem) (buffer buffer_len : Nat)
    (st : DeserState) (f : Field) (h : st.global_success = false) :
    deserialize_process_field host mem buffer buffer_len st f = (f, st) := by
  cases f <;> simp [deserialize_process_field, h]

theorem deserialize_fold_failed (host : Endian) (mem : Mem) (buffer buffer_len : Nat)
    (fs : List Field) :
    ∀ st : DeserState, st.global_success = false →
      deserialize_fold host mem buffer buffer_len st fs = (fs, st) := by
  induction fs with
  | nil => intro st _; simp [deserialize_fold]
  | cons f fs ih =>
    intro st h
    simp [deserialize_fold, deserialize_process_field_failed host mem buffer buffer_len st f h,
      ih st h]

theorem deserialize_prim_underrun (host : Endian) (mem : Mem) (buffer buffer_len : Nat)
    (st : DeserState) (t : CType) (v : Int) (hst : st.global_success = true)
    (h : buffer_len < (st.offset + t.sizeof) % SIZE_MOD) :
    deserialize_process_field host mem buffer buffer_len st (.prim t v)
      = (.prim t v, { st with global_success := false }) := by
  simp [deserialize_process_field, hst, h]

theorem deserialize_prim_fits (host : Endian) (mem : Mem) (buffer buffer_len : Nat)
    (st : DeserState) (t : CType) (v : Int) (hst : st.global_success = true)
    (h : (st.offset + t.sizeof) % SIZE_MOD ≤ buffer_len) :
    deserialize_process_field host mem buffer buffer_len st (.prim t v)
      = (.prim t (safe_ntoh t (safe_read_from_buffer host mem (buffer + st.offset) t)),
          { offset := (st.offset + t.sizeof) % SIZE_MOD, global_success := true }) := by
  simp [deserialize_process_field, hst, Nat.not_lt.mpr h]

theorem deserialize_comp_precheck (host : Endian) (mem : Mem) (buffer buffer_len : Nat)
    (st : DeserState) (fs : List Field) (hst : st.global_success = true)
    (h : buffer_len ≤ st.offset) :
    deserialize_process_field host mem buffer buffer_len st (.comp fs)
      = (.comp fs, { st with global_success := false }) := by
  simp [deserialize_process_field, hst, h]

theorem deserialize_comp_run (host : Endian) (mem : Mem) (buffer buffer_len : Nat)
    (st : DeserState) (fs : List Field) (hst : st.global_success = true)
    (h : st.offset < buffer_len) :
    deserialize_process_field host mem buffer buffer_len st (.comp fs)
      = (.comp (deserialize_from_buffer host mem (buffer + st.offset) (buffer_len - st.offset) 0
            fs).1,
          if (deserialize_from_buffer host mem (buffer + st.offset) (buffer_len - st.offset) 0
              fs).2.global_success = false then
            { offset := st.offset, global_success := false }
          else
            { offset := (st.offset + (deserialize_from_buffer host mem (buffer + st.offset)
                (buffer_len - st.offset) 0 fs).2.offset) % SIZE_MOD
              global_success := true }) := by
  simp only [deserialize_process_field, hst, Nat.not_le.mpr h, deserialize_from_buffer]
  simp only [Bool.true_eq_false, if_false, ge_iff_le]
  split <;> rfl

theorem deserialize_fold_cons (host : Endian) (mem : Mem) (buffer buffer_len : Nat)
    (st : DeserState) (f : Field) (fs : List Field) :
    deserialize_fold host mem buffer buffer_len st (f :: fs)
      = ((deserialize_process_field host mem buffer buffer_len st f).1 ::
          (deserialize_fold host mem buffer buffer_len
            (deserialize_process_field host mem buffer buffer_len st f).2 fs).1,
        (deserialize_fold host mem buffer buffer_len
            (deserialize_process_field host mem buffer buffer_len st f).2 fs).2) := by
  simp [deserialize_fold]

/-! ## The decode engine follows the control flow of the encode engine -/

mutual
theorem deserialize_process_field_state (host : Endian) (mem m : Mem) (buffer buffer_len : Nat)
    (o : Nat) (ok : Bool) (f : Field) :
    (deserialize_process_field host mem buffer buffer_len
        { offset := o, global_success := ok } f).2
      = { offset := (serialize_process_field host buffer buffer_len
            { mem := m, offset := o, global_success := ok } f).offset
          global_success := (serialize_process_field host buffer buffer_len
            { mem := m, offset := o, global_success := ok } f).global_success } := by
  cases ok with
  | false =>
    rw [deserialize_process_field_failed _ _ _ _ _ _ rfl,
      serialize_process_field_failed _ _ _ _ _ rfl]
  | true =>
    cases f with
    | prim t v =>
      by_cases hc : (o + t.sizeof) % SIZE_MOD ≤ buffer_len
      · rw [deserialize_prim_fits host mem buffer buffer_len _ t v rfl hc,
          serialize_prim_fits host buffer buffer_len _ t v rfl hc]
      · rw [deserialize_prim_underrun host mem buffer buffer_len _ t v rfl (by simp only; omega),
          serialize_prim_overflow host buffer buffer_len _ t v rfl (by simp only; omega)]
    | comp fs =>
      by_cases hc : o < buffer_len
      · rw [deserialize_comp_run host mem buffer buffer_len _ fs rfl hc,
          serialize_comp_run host buffer buffer_len _ fs rfl hc]
        have ih := deserialize_fold_state host mem m (buffer + o) (buffer_len - o) 0 true fs
        simp only [deserialize_from_buffer, serialize_to_buffer, ih]
        split <;> rfl
      · rw [deserialize_comp_precheck host mem buffer buffer_len _ fs rfl (by simp only; omega),
          serialize_comp_precheck host buffer buffer_len _ fs rfl (by simp only; omega)]
theorem deserialize_fold_state (host : Endian) (mem m : Mem) (buffer buffer_len : Nat)
    (o : Nat) (ok : Bool) (fs : List Field) :
    (deserialize_fold host mem buffer buffer_len { offset := o, global_success := ok } fs).2
      = { offset := (serialize_fold host buffer buffer_len
            { mem := m, offset := o, global_success := ok } fs).offset
          global_success := (serialize_fold host buffer buffer_len
            { mem := m, offset := o, global_success := ok } fs).global_success } := by
  cases fs with
  | nil => simp [deserialize_fold, serialize_fold]
  | cons f fs =>
    rw [deserialize_fold_cons, serialize_fold_cons]
    simp only
    rw [deserialize_process_field_state host mem m buffer buffer_len o ok f]
    exact deserialize_fold_state host mem _ buffer buffer_len _ _ fs
end

/-! ## Width and solidity depend on the types only -/

mutual
theorem width_congr (f g : Field) (h : f.shape = g.shape) : f.width = g.width := by
  cases f with
  | prim t v =>
    cases g with
    | prim t2 v2 =>
      simp only [Field.shape, Shape.prim.injEq] at h
      simp [Field.width, h]
    | comp gs => simp [Field.shape] at h
  | comp fs =>
    cases g with
    | prim t2 v2 => simp [Field.shape] at h
    | comp gs =>
      simp only [Field.shape, Shape.comp.injEq] at h
      simp only [Field.width]
      exact widths_congr fs gs h
theorem widths_congr (fs gs : List Field) (h : shapes fs = shapes gs) : widths fs = widths gs := by
  cases fs with
  | nil =>
    cases gs with
    | nil => rfl
    | cons g gs => simp [shapes] at h
  | cons f fs =>
    cases gs with
    | nil => simp [shapes] at h
    | cons g gs =>
      simp only [shapes, List.cons.injEq] at h
      simp only [widths]
      rw [width_congr f g h.1, widths_congr fs gs h.2]
end

mutual
theorem solid_congr (f g : Field) (h : f.shape = g.shape) : f.solid = g.solid := by
  cases f with
  | prim t v =>
    cases g with
    | prim t2 v2 => simp [Field.solid]
    | comp gs => simp [Field.shape] at h
  | comp fs =>
    cases g with
    | prim t2 v2 => simp [Field.shape] at h
    | comp gs =>
      simp only [Field.shape, Shape.comp.injEq] at h
      simp only [Field.solid]
      rw [widths_congr fs gs h, solid_list_congr fs gs h]
theorem solid_list_congr (fs gs : List Field) (h : shapes fs = shapes gs) :
    solid_list fs = solid_list gs := by
  cases fs with
  | nil =>
    cases gs with
    | nil => rfl
    | cons g gs => simp [shapes] at h
  | cons f fs =>
    cases gs with
    | nil => simp [shapes] at h
    | cons g gs =>
      simp only [shapes, List.cons.injEq] at h
      simp only [solid_list]
      rw [solid_congr f g h.1, solid_list_congr fs gs h.2]
end

/-! ## Decode from a buffer that is large enough -/

theorem deserialize_process_field_fits_state (host : Endian) (mem : Mem)
    (buffer buffer_len o : Nat) (t : Field) (hsolid : t.solid = true)
    (hfit : o + t.width ≤ buffer_len) (hrep : o + t.width < SIZE_MOD) :
    (deserialize_process_field host mem buffer buffer_len
        { offset := o, global_success := true } t).2
      = { offset := o + t.width, global_success := true } := by
  rw [deserialize_process_field_state host mem mem buffer buffer_len o true t,
    serialize_process_field_fits host buffer buffer_len _ t rfl hsolid hfit hrep]

theorem deserialize_fold_fits_state (host : Endian) (mem : Mem)
    (buffer buffer_len o : Nat) (ts : List Field) (hsolid : solid_list ts = true)
    (hfit : o + widths ts ≤ buffer_len) (hrep : o + widths ts < SIZE_MOD) :
    (deserialize_fold host mem buffer buffer_len { offset := o, global_success := true } ts).2
      = { offset := o + widths ts, global_success := true } := by
  rw [deserialize_fold_state host mem mem buffer buffer_len o true ts,
    serialize_fold_fits host buffer buffer_len _ ts rfl hsolid hfit hrep]

theorem deserialize_fold_short (host : Endian) (mem : Mem)
    (buffer buffer_len o : Nat) (ts : List Field) (hle : o ≤ buffer_len)
    (hshort : buffer_len < o + widths ts) (hrep : o + widths ts < SIZE_MOD) :
    (deserialize_fold host mem buffer buffer_len
        { offset := o, global_success := true } ts).2.global_success = false := by
  rw [deserialize_fold_state host mem mem buffer buffer_len o true ts]
  exact serialize_fold_short host buffer buffer_len _ ts rfl hle hshort hrep

mutual
theorem deserialize_process_field_value (host : Endian) (mem : Mem) (buffer buffer_len o : Nat)
    (f t : Field) (hshape : t.shape = f.shape) (hvalid : f.valid) (hsolid : f.solid = true)
    (hfit : o + f.width ≤ buffer_len) (hrep : o + f.width < SIZE_MOD)
    (hmem : ∀ i, i < f.width → mem (buffer + o + i) = (wire_field host f).getD i 0) :
    (deserialize_process_field host mem buffer buffer_len
        { offset := o, global_success := true } t).1 = f := by
  cases f with
  | prim ty v =>
    cases t with
    | comp ts => simp [Field.shape] at hshape
    | prim ty2 v2 =>
      simp only [Field.shape, Shape.prim.injEq] at hshape
      subst hshape
      simp only [Field.width] at hfit hrep hmem
      simp only [Field.valid] at hvalid
      rw [deserialize_prim_fits host mem buffer buffer_len _ ty2 v2 rfl
        (by simp only; rw [Nat.mod_eq_of_lt hrep]; exact hfit)]
      simp only [Field.prim.injEq, true_and]
      exact read_back host mem (buffer + o) ty2 v hvalid (by simpa [wire_field] using hmem)
  | comp fs =>
    cases t with
    | prim ty2 v2 => simp [Field.shape] at hshape
    | comp ts =>
      simp only [Field.shape, Shape.comp.injEq] at hshape
      simp only [Field.width] at hfit hrep hmem
      simp only [Field.valid] at hvalid
      simp only [Field.solid, Bool.and_eq_true, decide_eq_true_eq] at hsolid
      rw [deserialize_comp_run host mem buffer buffer_len _ ts rfl (by simp only; omega)]
      simp only [Field.comp.injEq, deserialize_from_buffer]
      exact deserialize_fold_value host mem (buffer + o) (buffer_len - o) 0 fs ts hshape hvalid
        hsolid.2 (by omega) (by omega) (by simpa [wire_field] using hmem)
theorem deserialize_fold_value (host : Endian) (mem : Mem) (buffer buffer_len o : Nat)
    (fs ts : List Field) (hshape : shapes ts = shapes fs) (hvalid : valid_list fs)
    (hsolid : solid_list fs = true)
    (hfit : o + widths fs ≤ buffer_len) (hrep : o + widths fs < SIZE_MOD)
    (hmem : ∀ i, i < widths fs → mem (buffer + o + i) = (wire_fields host fs).getD i 0) :
    (deserialize_fold host mem buffer buffer_len
        { offset := o, global_success := true } ts).1 = fs := by
  cases fs with
  | nil =>
    cases ts with
    | nil => simp [deserialize_fold]
    | cons t ts => simp [shapes] at hshape
  | cons f fs =>
    cases ts with
    | nil => simp [shapes] at hshape
    | cons t ts =>
      simp only [shapes, List.cons.injEq] at hshape
      simp only [widths] at hfit hrep hmem
      simp only [valid_list] at hvalid
      simp only [solid_list, Bool.and_eq_true] at hsolid
      have hw := width_congr t f hshape.1
      have hs := solid_congr t f hshape.1
      rw [deserialize_fold_cons]
      simp only [List.cons.injEq]
      constructor
      · apply deserialize_process_field_value host mem buffer buffer_len o f t hshape.1 hvalid.1
          hsolid.1 (by omega) (by omega)
        intro i hi
        rw [hmem i (by omega)]
        simp only [wire_fields, List.getD_eq_getElem?_getD]
        rw [List.getElem?_append_left (by rw [wire_field_length]; exact hi)]
      · rw [deserialize_process_field_fits_state host mem buffer buffer_len o t
          (by rw [hs]; exact hsolid.1) (by omega) (by omega), hw]
        apply deserialize_fold_value host mem buffer buffer_len (o + f.width) fs ts hshape.2
          hvalid.2 hsolid.2 (by omega) (by omega)
        intro i hi
        have := hmem (f.width + i) (by omega)
        have e : buffer + (o + f.width) + i = buffer + o + (f.width + i) := by omega
        rw [e, this]
        simp only [wire_fields, List.getD_eq_getElem?_getD]
        rw [List.getElem?_append_right (by rw [wire_field_length]; omega), wire_field_length]
        simp
end

/-- Decoding the bytes that a successful encode wrote gives the fields back. -/
theorem deserialize_serialize (host : Endian) (mem : Mem) (buffer buffer_len o : Nat)
    (fs ts : List Field) (hshape : shapes ts = shapes fs) (hvalid : valid_list fs)
    (hsolid : solid_list fs = true)
    (hfit : o + widths fs ≤ buffer_len) (hrep : o + widths fs < SIZE_MOD) (n : Nat)
    (hn : o + widths fs ≤ n) :
    deserialize_fold host
        (serialize_fold host buffer buffer_len
          { mem := mem, offset := o, global_success := true } fs).mem
        buffer n { offset := o, global_success := true } ts
      = (fs, { offset := o + widths fs, global_success := true }) := by
  rw [serialize_fold_fits host buffer buffer_len _ fs rfl hsolid hfit hrep]
  have hw := widths_congr ts fs hshape
  have hs := solid_list_congr ts fs hshape
  apply Prod.ext
  · apply deserialize_fold_value host _ buffer n o fs ts hshape hvalid hsolid hn hrep
    intro i hi
    exact store_apply_inside _ _ _ _ (by rw [wire_length host]; exact hi)
  · rw [deserialize_fold_fits_state host _ buffer n o ts (by rw [hs]; exact hsolid)
      (by omega) (by omega), hw]

/-! ## Lists of primitive fields -/

theorem prim_fields_solid (l : List (CType × Int)) : solid_list (prim_fields l) = true := by
  induction l with
  | nil => rfl
  | cons p l ih =>
    simp only [prim_fields, List.map_cons, solid_list, Field.solid, Bool.true_and]
    exact ih

theorem prim_fields_widths (l : List (CType × Int)) :
    widths (prim_fields l) = (l.map (fun p => p.1.sizeof)).sum := by
  induction l with
  | nil => rfl
  | cons p l ih =>
    simp only [prim_fields, List.map_cons, widths, Field.width, List.sum_cons]
    rw [← ih]
    rfl

theorem prim_fields_append (l1 l2 : List (CType × Int)) :
    prim_fields (l1 ++ l2) = prim_fields l1 ++ prim_fields l2 := by
  simp [prim_fields]

theorem wire_fields_append (host : Endian) (fs gs : List Field) :
    wire_fields host (fs ++ gs) = wire_fields host fs ++ wire_fields host gs := by
  induction fs with
  | nil => simp [wire_fields]
  | cons f fs ih => simp [wire_fields, ih]

theorem widths_append (fs gs : List Field) : widths (fs ++ gs) = widths fs + widths gs := by
  induction fs with
  | nil => simp [widths]
  | cons f fs ih =>
    rw [List.cons_append]
    simp only [widths]
    rw [ih]
    omega

theorem wire_prim_fields_little (l : List (CType × Int)) :
    wire_fields .Little (prim_fields l) = l.flatMap (fun p => big_endian_bytes p.1 p.2) := by
  induction l with
  | nil => rfl
  | cons p l ih =>
    simp only [prim_fields, List.map_cons, wire_fields, wire_field, List.flatMap_cons,
      object_bytes_safe_hton_little]
    rw [← ih]
    rfl

theorem big_endian_bytes_length (t : CType) (v : Int) :
    (big_endian_bytes t v).length = t.sizeof := by
  simp [big_endian_bytes]

theorem load_congr (mem mem2 : Mem) (base n : Nat)
    (h : ∀ i, i < n → mem (base + i) = mem2 (base + i)) : load mem base n = load mem2 base n := by
  unfold load
  apply List.map_congr_left
  intro i hi
  exact h i (List.mem_range.mp hi)

/-! ## The two schema structs -/

theorem Member.eq_of_decl_sub_system (m : Member) (h : m.decl = .sub_system) :
    m = .sub_system_data := by
  cases m <;> first | rfl | simp [Member.decl] at h

theorem deserialize_args_eq :
    DO178C_FlightData_t.deserialize_args = DO178C_FlightData_t.serialize_args := by
  decide

theorem trueSize_args_eq :
    DO178C_FlightData_t.trueSize_args = DO178C_FlightData_t.serialize_args := by
  decide

theorem mem_serialize_args (m : Member) : m ∈ DO178C_FlightData_t.serialize_args := by
  cases m <;> decide

theorem flight_shapes (V W : DO178C_FlightData_t) :
    shapes (DO178C_FlightData_t.serialize_args.map V.field)
      = shapes (DO178C_FlightData_t.serialize_args.map W.field) := by
  rfl

theorem flight_widths_zero :
    widths (DO178C_FlightData_t.serialize_args.map DO178C_FlightData_t.zero.field) = 460 := by
  decide

theorem flight_widths (V : DO178C_FlightData_t) :
    widths (DO178C_FlightData_t.serialize_args.map V.field) = 460 := by
  rw [widths_congr _ _ (flight_shapes V DO178C_FlightData_t.zero)]
  exact flight_widths_zero

theorem flight_solid (V : DO178C_FlightData_t) :
    solid_list (DO178C_FlightData_t.serialize_args.map V.field) = true := by
  rfl

theorem flight_trueSize (V : DO178C_FlightData_t) : V.trueSize = 460 := by
  unfold DO178C_FlightData_t.trueSize
  rw [trueSize_args_eq, calculate_packed_size_eq _ (by rw [flight_widths]; decide)]
  exact flight_widths V

theorem SubSystemData.toField_valid (s : SubSystemData) (h : s.valid) : s.toField.valid := by
  simp only [SubSystemData.toField, SubSystemData.fields, Field.valid, valid_list]
  exact ⟨h.1, h.2, trivial⟩

theorem flight_field_valid (V : DO178C_FlightData_t) (hV : V.valid) (m : Member) :
    (V.field m).valid := by
  unfold DO178C_FlightData_t.field
  cases hd : m.decl with
  | scalar t => exact hV.1 m t hd
  | sub_system => exact SubSystemData.toField_valid _ hV.2

theorem flight_valid_list (V : DO178C_FlightData_t) (hV : V.valid) (ms : List Member) :
    valid_list (ms.map V.field) := by
  induction ms with
  | nil => trivial
  | cons m ms ih => exact ⟨flight_field_valid V hV m, ih⟩

theorem flight_assign_field (W V : DO178C_FlightData_t) (m m2 : Member) :
    ((W.assign m (V.field m)).field m2) = if m2 = m then V.field m2 else W.field m2 := by
  by_cases h : m2 = m
  · subst h
    rw [if_pos rfl]
    unfold DO178C_FlightData_t.assign DO178C_FlightData_t.field
    cases hd : m2.decl with
    | scalar t => simp [hd]
    | sub_system =>
      simp [hd, SubSystemData.toField, SubSystemData.fields, SubSystemData.of_fields]
  · rw [if_neg h]
    unfold DO178C_FlightData_t.assign DO178C_FlightData_t.field
    cases hd : m.decl with
    | scalar t =>
      cases hd2 : m2.decl with
      | scalar t2 => simp [hd, hd2, Function.update_noteq h]
      | sub_system => simp [hd, hd2]
    | sub_system =>
      cases hd2 : m2.decl with
      | scalar t2 => simp [hd, hd2, SubSystemData.toField]
      | sub_system =>
        exact absurd ((Member.eq_of_decl_sub_system m2 hd2).trans
          (Member.eq_of_decl_sub_system m hd).symm) h

theorem flight_assign_all_field (V : DO178C_FlightData_t) (ms : List Member) :
    ∀ (W : DO178C_FlightData_t) (m : Member),
      ((W.assign_all ms (ms.map V.field)).field m) = if m ∈ ms then V.field m else W.field m := by
  induction ms with
  | nil =>
    intro W m
    simp [DO178C_FlightData_t.assign_all]
  | cons m0 ms ih =>
    intro W m
    simp only [List.map_cons, DO178C_FlightData_t.assign_all, List.mem_cons]
    rw [ih, flight_assign_field]
    by_cases h1 : m ∈ ms
    · simp [h1]
    · by_cases h2 : m = m0
      · simp [h2]
      · simp [h1, h2]

theorem SubSystemData.widths_fields (s : SubSystemData) : widths s.fields = 6 := by
  rfl

theorem SubSystemData.solid_fields (s : SubSystemData) : solid_list s.fields = true := by
  rfl

theorem SubSystemData.trueSize_eq (s : SubSystemData) : s.trueSize = 6 := by
  unfold SubSystemData.trueSize
  rw [calculate_packed_size_eq _ (by rw [SubSystemData.widths_fields]; decide)]
  rfl

/-! ## Top-level calls from cursor 0 -/

theorem serialize_to_buffer_fits (host : Endian) (mem : Mem) (buffer buffer_len : Nat)
    (fs : List Field) (hsolid : solid_list fs = true) (hfit : widths fs ≤ buffer_len)
    (hrep : widths fs < SIZE_MOD) :
    serialize_to_buffer host mem buffer buffer_len 0 fs
      = { mem := store buffer (wire_fields host fs) mem
          offset := widths fs
          global_success := true } := by
  unfold serialize_to_buffer
  rw [serialize_fold_fits host buffer buffer_len _ fs rfl hsolid (by simp only; omega)
    (by simp only; omega)]
  simp

theorem serialize_to_buffer_success_iff (host : Endian) (mem : Mem) (buffer buffer_len : Nat)
    (fs : List Field) (hsolid : solid_list fs = true) (hrep : widths fs < SIZE_MOD) :
    (serialize_to_buffer host mem buffer buffer_len 0 fs).global_success = true
      ↔ widths fs ≤ buffer_len := by
  unfold serialize_to_buffer
  rw [serialize_fold_success_iff host buffer buffer_len _ fs rfl hsolid (Nat.zero_le _)
    (by simp only; omega)]
  simp

theorem deserialize_from_buffer_success_iff (host : Endian) (mem : Mem) (buffer buffer_len : Nat)
    (ts : List Field) (hsolid : solid_list ts = true) (hrep : widths ts < SIZE_MOD) :
    (deserialize_from_buffer host mem buffer buffer_len 0 ts).2.global_success = true
      ↔ widths ts ≤ buffer_len := by
  unfold deserialize_from_buffer
  rw [deserialize_fold_state host mem mem buffer buffer_len 0 true ts]
  exact serialize_to_buffer_success_iff host mem buffer buffer_len ts hsolid hrep

theorem deserialize_from_buffer_fits_state (host : Endian) (mem : Mem) (buffer buffer_len : Nat)
    (ts : List Field) (hsolid : solid_list ts = true) (hfit : widths ts ≤ buffer_len)
    (hrep : widths ts < SIZE_MOD) :
    (deserialize_from_buffer host mem buffer buffer_len 0 ts).2
      = { offset := widths ts, global_success := true } := by
  unfold deserialize_from_buffer
  rw [deserialize_fold_fits_state host mem buffer buffer_len 0 ts hsolid (by omega) (by omega)]
  simp

theorem inRange_zero (t : CType) : t.inRange 0 := by
  cases t <;> decide

theorem sample_valid : DO178C_FlightData_t.sample.valid := by
  constructor
  · intro m t _
    simp only [DO178C_FlightData_t.sample]
    by_cases h : m = Member.packet_sequence_id
    · subst h
      have ht : t = CType.u32 := by
        simp only [Member.decl, MemberType.scalar.injEq] at *
        simp_all
      subst ht
      decide
    · rw [if_neg h]
      exact inRange_zero t
  · constructor <;> decide

theorem flight_serialize_fits (host : Endian) (mem : Mem) (V : DO178C_FlightData_t)
    (buffer capacity : Nat) (hcap : 460 ≤ capacity) :
    serialize_to_buffer host mem buffer capacity 0 (DO178C_FlightData_t.serialize_args.map V.field)
      = { mem := store buffer
            (wire_fields host (DO178C_FlightData_t.serialize_args.map V.field)) mem
          offset := 460
          global_success := true } := by
  rw [serialize_to_buffer_fits host mem buffer capacity _ (flight_solid V)
    (by rw [flight_widths]; exact hcap) (by rw [flight_widths]; decide), flight_widths]

/-! ## The claims -/

/-- C1. Round trip of the shipped schema: for every `DO178C_FlightData_t` value `V`
(floating-point members as bit patterns), on either host, `serialize` with the count
variable initialised to 0 into a buffer of capacity at least `V.trueSize()` succeeds and
reports `n` bytes written; `deserialize` of that buffer with length `n` into any record
succeeds, reports `n` bytes consumed and yields a record equal to `V` in every member,
including `sub_system_data.subId` and `sub_system_data.temperature`. -/
theorem flight_data_round_trip (host : Endian) (mem : Mem) (V fresh : DO178C_FlightData_t)
    (hV : V.valid) (buffer capacity : Nat) (hcap : V.trueSize ≤ capacity) :
    (V.serialize host mem buffer capacity 0).result = true ∧
    (fresh.deserialize host (V.serialize host mem buffer capacity 0).mem buffer
        (V.serialize host mem buffer capacity 0).consumed 0).result = true ∧
    (fresh.deserialize host (V.serialize host mem buffer capacity 0).mem buffer
        (V.serialize host mem buffer capacity 0).consumed 0).consumed
      = (V.serialize host mem buffer capacity 0).consumed ∧
    (∀ m : Member,
      (fresh.deserialize host (V.serialize host mem buffer capacity 0).mem buffer
        (V.serialize host mem buffer capacity 0).consumed 0).value.field m = V.field m) ∧
    (fresh.deserialize host (V.serialize host mem buffer capacity 0).mem buffer
        (V.serialize host mem buffer capacity 0).consumed 0).value.sub_system_data.subId
      = V.sub_system_data.subId ∧
    (fresh.deserialize host (V.serialize host mem buffer capacity 0).mem buffer
        (V.serialize host mem buffer capacity 0).consumed 0).value.sub_system_data.temperature
      = V.sub_system_data.temperature := by
  rw [flight_trueSize] at hcap
  have hw := flight_widths V
  have hser := flight_serialize_fits host mem V buffer capacity hcap
  have hdes := deserialize_serialize host mem buffer capacity 0
    (DO178C_FlightData_t.serialize_args.map V.field)
    (DO178C_FlightData_t.serialize_args.map fresh.field) (flight_shapes fresh V)
    (flight_valid_list V hV _) (flight_solid V) (by omega) (by rw [hw]; decide) 460
    (by omega)
  have hmem : (V.serialize host mem buffer capacity 0).mem
      = (serialize_fold host buffer capacity { mem := mem, offset := 0, global_success := true }
          (DO178C_FlightData_t.serialize_args.map V.field)).mem := rfl
  have hcons : (V.serialize host mem buffer capacity 0).consumed = 460 := by
    simp only [DO178C_FlightData_t.serialize, hser]
  have hfield : ∀ m : Member,
      (fresh.deserialize host (V.serialize host mem buffer capacity 0).mem buffer
        (V.serialize host mem buffer capacity 0).consumed 0).value.field m = V.field m := by
    intro m
    simp only [DO178C_FlightData_t.deserialize, deserialize_from_buffer, hcons, hmem,
      deserialize_args_eq, hdes]
    rw [flight_assign_all_field, if_pos (mem_serialize_args m)]
  have hsub := hfield Member.sub_system_data
  simp only [DO178C_FlightData_t.field, Member.decl, SubSystemData.toField, SubSystemData.fields,
    Field.comp.injEq, List.cons.injEq, Field.prim.injEq, true_and, and_true] at hsub
  refine ⟨?_, ?_, ?_, hfield, hsub.1, hsub.2⟩
  · simp only [DO178C_FlightData_t.serialize, hser]
  · simp only [DO178C_FlightData_t.deserialize, deserialize_from_buffer, hcons, hmem,
      deserialize_args_eq, hdes]
  · simp only [DO178C_FlightData_t.deserialize, deserialize_from_buffer, hcons, hmem,
      deserialize_args_eq, hdes, hw]

/-- Witness of C1 at the sample record, a little-endian host, a zeroed buffer of 2048
bytes (as in `main`) and a zero-initialised target. -/
theorem flight_data_round_trip_witness :
    DO178C_FlightData_t.sample.valid ∧
    DO178C_FlightData_t.sample.trueSize ≤ 2048 ∧
    (DO178C_FlightData_t.sample.serialize .Little (fun _ => 0) 0 2048 0).result = true ∧
    (DO178C_FlightData_t.zero.deserialize .Little
        (DO178C_FlightData_t.sample.serialize .Little (fun _ => 0) 0 2048 0).mem 0
        (DO178C_FlightData_t.sample.serialize .Little (fun _ => 0) 0 2048 0).consumed 0).result
      = true :=
  ⟨sample_valid, by rw [flight_trueSize]; decide,
    (flight_data_round_trip .Little (fun _ => 0) DO178C_FlightData_t.sample
      DO178C_FlightData_t.zero sample_valid 0 2048 (by rw [flight_trueSize]; decide)).1,
    (flight_data_round_trip .Little (fun _ => 0) DO178C_FlightData_t.sample
      DO178C_FlightData_t.zero sample_valid 0 2048 (by rw [flight_trueSize]; decide)).2.1⟩

/-- C2 (as amended). Engine round trip: for every ordered field list built from primitives
of width 1, 2, 4 or 8 bytes and composites that run the same engine, in which every
composite has at least one byte of packed size and whose widths sum to less than `2 ^ 64`,
and every buffer of at least `calculate_packed_size(fields)` bytes, on either host,
`serialize_to_buffer` from cursor 0 returns true, and `deserialize_from_buffer` from cursor
0 with the same field types in the same order over the written bytes (read with any length
that covers them) returns true, restores every field value exactly and ends at the cursor
of the encode. -/
theorem engine_round_trip (host : Endian) (mem : Mem) (buffer buffer_len read_len : Nat)
    (fields targets : List Field) (hshape : shapes targets = shapes fields)
    (hvalid : valid_list fields) (hsolid : solid_list fields = true)
    (hrep : widths fields < SIZE_MOD)
    (hlen : calculate_packed_size fields ≤ buffer_len)
    (hread : calculate_packed_size fields ≤ read_len) :
    (serialize_to_buffer host mem buffer buffer_len 0 fields).global_success = true ∧
    (deserialize_from_buffer host (serialize_to_buffer host mem buffer buffer_len 0 fields).mem
        buffer read_len 0 targets).2.global_success = true ∧
    (deserialize_from_buffer host (serialize_to_buffer host mem buffer buffer_len 0 fields).mem
        buffer read_len 0 targets).1 = fields ∧
    (deserialize_from_buffer host (serialize_to_buffer host mem buffer buffer_len 0 fields).mem
        buffer read_len 0 targets).2.offset
      = (serialize_to_buffer host mem buffer buffer_len 0 fields).offset := by
  rw [calculate_packed_size_eq fields hrep] at hlen hread
  have hser := serialize_to_buffer_fits host mem buffer buffer_len fields hsolid hlen hrep
  have hdes := deserialize_serialize host mem buffer buffer_len 0 fields targets hshape hvalid
    hsolid (by omega) (by omega) read_len (by omega)
  simp only [Nat.zero_add] at hdes
  simp only [deserialize_from_buffer, serialize_to_buffer] at hser ⊢
  rw [hdes, hser]
  simp

/-- Witness of the amended C2 at the scenario fields and a 64-byte buffer. -/
theorem engine_round_trip_witness :
    (deserialize_from_buffer .Big
        (serialize_to_buffer .Big (fun _ => 0) 0 64 0
          (scenario_fields 0xDEADBEEF 101 0x420ECCCD)).mem
        0 64 0 (scenario_fields 0 0 0)).1 = scenario_fields 0xDEADBEEF 101 0x420ECCCD :=
  (engine_round_trip .Big (fun _ => 0) 0 64 64 (scenario_fields 0xDEADBEEF 101 0x420ECCCD)
    (scenario_fields 0 0 0) rfl
    (by simp [scenario_fields, SubSystemData.toField, SubSystemData.fields, valid_list,
      Field.valid]; decide)
    rfl (by decide) (by decide) (by decide)).2.2.1

/-- Counterexample to C2 as stated: the field list `(uint32_t, E)` where `E` is a composite
with no members has packed size 4, yet over a buffer of exactly 4 bytes the encode returns
false (the composite pre-check `offset >= buffer_len` fires at cursor 4), and so does the
decode of those bytes. -/
theorem engine_round_trip_empty_composite :
    calculate_packed_size [.prim .u32 7, .comp []] = 4 ∧
    (serialize_to_buffer .Little (fun _ => 0) 0 4 0 [.prim .u32 7, .comp []]).global_success
      = false ∧
    (deserialize_from_buffer .Little
        (serialize_to_buffer .Little (fun _ => 0) 0 4 0 [.prim .u32 7, .comp []]).mem
        0 4 0 [.prim .u32 0, .comp []]).2.global_success = false := by
  decide

theorem scenario_wire_little :
    wire_fields .Little (scenario_fields 0xDEADBEEF 101 0x420ECCCD)
      = [0xDE, 0xAD, 0xBE, 0xEF, 0x00, 0x65, 0x42, 0x0E, 0xCC, 0xCD] := by
  decide

theorem scenario_valid : valid_list (scenario_fields 0xDEADBEEF 101 0x420ECCCD) := by
  simp only [scenario_fields, SubSystemData.toField, SubSystemData.fields, valid_list,
    Field.valid]
  decide

/-- The concrete scenario on a little-endian host: `serialize_to_buffer` from
cursor 0 into a 64-byte buffer with the fields (id: `uint32_t` = 0xDEADBEEF,
sub: `SubSystemData` {subId = 101, temperature bit pattern 0x420ECCCD}) returns true with
cursor 10 and `buffer[0..10)` is `DE AD BE EF 00 65 42 0E CC CD`; `deserialize_from_buffer`
over those 10 bytes with the same field types returns true, consumes 10 bytes and yields
id = 0xDEADBEEF, subId = 101 and the temperature bit pattern 0x420ECCCD. -/
theorem concrete_scenario_little_endian (mem : Mem) (buffer : Nat) (id0 subId0 temp0 : Int) :
    (serialize_to_buffer .Little mem buffer 64 0
        (scenario_fields 0xDEADBEEF 101 0x420ECCCD)).global_success = true ∧
    (serialize_to_buffer .Little mem buffer 64 0
        (scenario_fields 0xDEADBEEF 101 0x420ECCCD)).offset = 10 ∧
    load (serialize_to_buffer .Little mem buffer 64 0
        (scenario_fields 0xDEADBEEF 101 0x420ECCCD)).mem buffer 10
      = [0xDE, 0xAD, 0xBE, 0xEF, 0x00, 0x65, 0x42, 0x0E, 0xCC, 0xCD] ∧
    deserialize_from_buffer .Little
        (serialize_to_buffer .Little mem buffer 64 0
          (scenario_fields 0xDEADBEEF 101 0x420ECCCD)).mem
        buffer 10 0 (scenario_fields id0 subId0 temp0)
      = (scenario_fields 0xDEADBEEF 101 0x420ECCCD,
          { offset := 10, global_success := true }) := by
  have hw : widths (scenario_fields 0xDEADBEEF 101 0x420ECCCD) = 10 := rfl
  have hser := serialize_to_buffer_fits .Little mem buffer 64
    (scenario_fields 0xDEADBEEF 101 0x420ECCCD) rfl (by rw [hw]; decide) (by rw [hw]; decide)
  have hdes := deserialize_serialize .Little mem buffer 64 0
    (scenario_fields 0xDEADBEEF 101 0x420ECCCD) (scenario_fields id0 subId0 temp0) rfl
    scenario_valid rfl (by rw [hw]; decide) (by rw [hw]; decide) 10 (by rw [hw])
  refine ⟨?_, ?_, ?_, ?_⟩
  · rw [hser]
  · rw [hser, hw]
  · rw [hser, scenario_wire_little]
    exact load_store buffer [0xDE, 0xAD, 0xBE, 0xEF, 0x00, 0x65, 0x42, 0x0E, 0xCC, 0xCD] mem
  · simp only [deserialize_from_buffer, serialize_to_buffer]
    rw [hdes, hw]

/-- C3 (failing input). On a big-endian host `serialize_to_buffer` from cursor 0 into a
64-byte buffer with the fields (id: `uint32_t` = 0xDEADBEEF, sub: `SubSystemData`
{subId = 101, temperature bit pattern 0x420ECCCD}) returns true with cursor 10, but
`buffer[0..10)` is `EF BE AD DE 65 00 CD CC 0E 42`, each scalar least significant byte
first, and not `DE AD BE EF 00 65 42 0E CC CD`. -/
theorem concrete_scenario_big_endian_host :
    (serialize_to_buffer .Big (fun _ => 0) 0 64 0
        (scenario_fields 0xDEADBEEF 101 0x420ECCCD)).global_success = true ∧
    (serialize_to_buffer .Big (fun _ => 0) 0 64 0
        (scenario_fields 0xDEADBEEF 101 0x420ECCCD)).offset = 10 ∧
    load (serialize_to_buffer .Big (fun _ => 0) 0 64 0
        (scenario_fields 0xDEADBEEF 101 0x420ECCCD)).mem 0 10
      = [0xEF, 0xBE, 0xAD, 0xDE, 0x65, 0x00, 0xCD, 0xCC, 0x0E, 0x42] ∧
    load (serialize_to_buffer .Big (fun _ => 0) 0 64 0
        (scenario_fields 0xDEADBEEF 101 0x420ECCCD)).mem 0 10
      ≠ [0xDE, 0xAD, 0xBE, 0xEF, 0x00, 0x65, 0x42, 0x0E, 0xCC, 0xCD] := by
  decide

theorem load_store_middle (base : Nat) (xs ys zs : List Nat) (mem : Mem) :
    load (store base (xs ++ (ys ++ zs)) mem) (base + xs.length) ys.length = ys := by
  rw [store_append, store_append]
  rw [load_congr _ (store (base + xs.length) ys (store base xs mem)) _ _
    (fun i hi => store_apply_outside _ _ _ _ (by omega))]
  exact load_store _ _ _

/-- The wire layout on a little-endian host: for every list of primitive
fields whose widths sum to `total < 2 ^ 64` and every buffer of at least `total` bytes,
`serialize_to_buffer` from cursor 0 returns true with cursor `total`; the bytes
`buffer[0..total)` are the concatenation, in argument order, of each field's value written
most significant byte first; each field occupies exactly its byte width and starts at the
sum of the widths of the fields before it; every byte outside `buffer[0..total)` is
unchanged, so there is no padding, length prefix or tag byte between or around fields. -/
theorem wire_layout_little_endian (mem : Mem) (buffer buffer_len : Nat)
    (l : List (CType × Int)) (hrep : (l.map (fun p => p.1.sizeof)).sum < SIZE_MOD)
    (hlen : (l.map (fun p => p.1.sizeof)).sum ≤ buffer_len) :
    (serialize_to_buffer .Little mem buffer buffer_len 0 (prim_fields l)).global_success = true ∧
    (serialize_to_buffer .Little mem buffer buffer_len 0 (prim_fields l)).offset
      = (l.map (fun p => p.1.sizeof)).sum ∧
    load (serialize_to_buffer .Little mem buffer buffer_len 0 (prim_fields l)).mem buffer
        (l.map (fun p => p.1.sizeof)).sum
      = l.flatMap (fun p => big_endian_bytes p.1 p.2) ∧
    (∀ (before after : List (CType × Int)) (p : CType × Int), l = before ++ p :: after →
      load (serialize_to_buffer .Little mem buffer buffer_len 0 (prim_fields l)).mem
          (buffer + (before.map (fun q => q.1.sizeof)).sum) p.1.sizeof
        = big_endian_bytes p.1 p.2) ∧
    (∀ a, a < buffer ∨ buffer + (l.map (fun p => p.1.sizeof)).sum ≤ a →
      (serialize_to_buffer .Little mem buffer buffer_len 0 (prim_fields l)).mem a = mem a) := by
  rw [← prim_fields_widths] at hrep hlen ⊢
  have hser := serialize_to_buffer_fits .Little mem buffer buffer_len (prim_fields l)
    (prim_fields_solid l) hlen hrep
  have hlenw := wire_length .Little (prim_fields l)
  refine ⟨?_, ?_, ?_, ?_, ?_⟩
  · rw [hser]
  · rw [hser]
  · rw [hser, ← wire_prim_fields_little, ← hlenw]
    exact load_store _ _ _
  · intro before after p hl
    rw [hser, wire_prim_fields_little, hl, ← prim_fields_widths]
    simp only [List.flatMap_append, List.flatMap_cons]
    have h1 : widths (prim_fields before)
        = (before.flatMap (fun p => big_endian_bytes p.1 p.2)).length := by
      rw [← wire_prim_fields_little, wire_length]
    rw [h1, ← big_endian_bytes_length p.1 p.2]
    exact load_store_middle _ _ _ _ _
  · intro a ha
    rw [hser]
    exact store_apply_outside _ _ _ _ (by rw [hlenw]; exact ha)

/-- The wire layout on a little-endian host at the two fields `(uint16_t 0x0102, int32_t -2)` and an
8-byte buffer. -/
theorem wire_layout_little_endian_witness :
    load (serialize_to_buffer .Little (fun _ => 0) 0 8 0
        (prim_fields [(.u16, 0x0102), (.i32, -2)])).mem 0
        ([((CType.u16, (0x0102 : Int))), (.i32, -2)].map (fun p => p.1.sizeof)).sum
      = [((CType.u16, (0x0102 : Int))), (.i32, -2)].flatMap
          (fun p => big_endian_bytes p.1 p.2) :=
  (wire_layout_little_endian (fun _ => 0) 0 8 [(.u16, 0x0102), (.i32, -2)] (by decide)
    (by decide)).2.2.1

/-- C4 (failing input). On a big-endian host `serialize_to_buffer` from cursor 0 over the
single primitive field `uint16_t 0x0102` and a 2-byte buffer returns true and writes
`02 01`, the value least significant byte first, not its bytes most significant first. -/
theorem wire_layout_big_endian_host :
    (serialize_to_buffer .Big (fun _ => 0) 0 2 0 (prim_fields [(.u16, 0x0102)])).global_success
      = true ∧
    load (serialize_to_buffer .Big (fun _ => 0) 0 2 0 (prim_fields [(.u16, 0x0102)])).mem 0 2
      = [0x02, 0x01] ∧
    load (serialize_to_buffer .Big (fun _ => 0) 0 2 0 (prim_fields [(.u16, 0x0102)])).mem 0 2
      ≠ big_endian_bytes .u16 0x0102 := by
  decide

theorem SubSystemData.serialize_fits (host : Endian) (mem : Mem) (s : SubSystemData)
    (buffer capacity consumed : Nat) (hcap : 6 ≤ capacity) :
    s.serialize host mem buffer capacity consumed
      = { result := true, consumed := 6, mem := store buffer (wire_fields host s.fields) mem } := by
  unfold SubSystemData.serialize
  simp only
  rw [serialize_to_buffer_fits host mem buffer capacity s.fields (SubSystemData.solid_fields s)
    (by rw [SubSystemData.widths_fields]; exact hcap)
    (by rw [SubSystemData.widths_fields]; decide), SubSystemData.widths_fields]

/-- C5. Size law: for every `SubSystemData` or `DO178C_FlightData_t` value `V` and every
buffer with capacity at least `V.trueSize()`, `serialize` called with the count variable
initialised to 0 succeeds and reports bytes written equal to `V.trueSize()`; and whenever
`serialize_to_buffer` started at cursor 0 returns true, its final cursor equals
`calculate_packed_size` of the same fields. -/
theorem size_law (host : Endian) (mem : Mem) (buffer capacity : Nat) :
    (∀ s : SubSystemData, s.trueSize ≤ capacity →
      (s.serialize host mem buffer capacity 0).result = true ∧
      (s.serialize host mem buffer capacity 0).consumed = s.trueSize) ∧
    (∀ V : DO178C_FlightData_t, V.trueSize ≤ capacity →
      (V.serialize host mem buffer capacity 0).result = true ∧
      (V.serialize host mem buffer capacity 0).consumed = V.trueSize) ∧
    (∀ fields : List Field,
      (serialize_to_buffer host mem buffer capacity 0 fields).global_success = true →
      (serialize_to_buffer host mem buffer capacity 0 fields).offset
        = calculate_packed_size fields) := by
  refine ⟨?_, ?_, ?_⟩
  · intro s hcap
    rw [SubSystemData.trueSize_eq] at hcap ⊢
    rw [SubSystemData.serialize_fits host mem s buffer capacity 0 hcap]
    exact ⟨rfl, rfl⟩
  · intro V hcap
    rw [flight_trueSize] at hcap ⊢
    have h := flight_serialize_fits host mem V buffer capacity hcap
    exact ⟨by simp only [DO178C_FlightData_t.serialize, h],
      by simp only [DO178C_FlightData_t.serialize, h]⟩
  · intro fields h
    exact serialize_fold_offset host buffer capacity _ fields rfl h

/-- Witness of C5 at the `SubSystemData` of `main` and a 64-byte buffer. -/
theorem size_law_witness :
    (SubSystemData.mk 101 0x420ECCCD).trueSize ≤ 64 ∧
    (SubSystemData.serialize .Little (fun _ => 0) (SubSystemData.mk 101 0x420ECCCD) 0 64
      0).consumed = (SubSystemData.mk 101 0x420ECCCD).trueSize :=
  ⟨by decide,
    ((size_law .Little (fun _ => 0) 0 64).1 (SubSystemData.mk 101 0x420ECCCD) (by decide)).2⟩

/-- C6 (failing input). On either host, for any memory, buffer address and field value,
`serialize_to_buffer` over one `uint32_t` field with `buffer_len = 8` and the initial cursor
`c = 2 ^ 64 - 2` returns true and leaves the cursor at 2: the check
`offset + needed > buffer_len` is computed modulo `2 ^ 64` and passes (2 > 8 is false), so
the field is copied at cursor `c` although `c + 4 <= 8` does not hold as unbounded
integers. `deserialize_from_buffer` with the same cursor returns true with cursor 2 as well.
The same cursor reaches the engine through `DO178C_FlightData_t::serialize`, which passes
the caller's `consumed` on: with an 8-byte buffer the first member is accepted and the count
reported is 2. -/
theorem cursor_overflow_escapes_bounds (host : Endian) (mem : Mem) (buffer : Nat) (v w : Int) :
    (serialize_to_buffer host mem buffer 8 (2 ^ 64 - 2) [.prim .u32 v]).global_success = true ∧
    (serialize_to_buffer host mem buffer 8 (2 ^ 64 - 2) [.prim .u32 v]).offset = 2 ∧
    ¬ (2 ^ 64 - 2 + CType.u32.sizeof ≤ 8) ∧
    (deserialize_from_buffer host mem buffer 8 (2 ^ 64 - 2) [.prim .u32 w]).2.global_success
      = true ∧
    (deserialize_from_buffer host mem buffer 8 (2 ^ 64 - 2) [.prim .u32 w]).2.offset = 2 ∧
    (DO178C_FlightData_t.sample.serialize .Little (fun _ => 0) 0 8 (2 ^ 64 - 2)).consumed
      = 2 := by
  have hc : (2 ^ 64 - 2 + CType.u32.sizeof) % SIZE_MOD ≤ 8 := by decide
  have hs := serialize_prim_fits host buffer 8
    { mem := mem, offset := 2 ^ 64 - 2, global_success := true } .u32 v rfl hc
  have hd := deserialize_prim_fits host mem buffer 8
    { offset := 2 ^ 64 - 2, global_success := true } .u32 w rfl hc
  refine ⟨?_, ?_, by decide, ?_, ?_, by decide⟩
  · simp only [serialize_to_buffer, serialize_fold, hs]
  · simp only [serialize_to_buffer, serialize_fold, hs]
    decide
  · simp only [deserialize_from_buffer, deserialize_fold, hd]
  · simp only [deserialize_from_buffer, deserialize_fold, hd]
    decide

theorem list_sum_sizeof_eq (l : List (CType × Int)) :
    (l.map (fun p => p.1.sizeof)).sum = widths (prim_fields l) :=
  (prim_fields_widths l).symm

/-- C7. Encode fails exactly on buffer overflow: for every `SubSystemData` or
`DO178C_FlightData_t` value `V` and every buffer capacity `n`, `serialize` called with the
count variable initialised to 0 returns true if and only if `n >= V.trueSize()`; likewise
`serialize_to_buffer` from cursor 0 over a list of primitive fields (whose widths sum to
less than `2 ^ 64`, the range of `size_t`) returns true if and only if `buffer_len` is at
least the sum of their widths. -/
theorem encode_succeeds_iff_fits (host : Endian) (mem : Mem) (buffer n : Nat) :
    (∀ s : SubSystemData,
      (s.serialize host mem buffer n 0).result = true ↔ s.trueSize ≤ n) ∧
    (∀ V : DO178C_FlightData_t,
      (V.serialize host mem buffer n 0).result = true ↔ V.trueSize ≤ n) ∧
    (∀ l : List (CType × Int), (l.map (fun p => p.1.sizeof)).sum < SIZE_MOD →
      ((serialize_to_buffer host mem buffer n 0 (prim_fields l)).global_success = true
        ↔ (l.map (fun p => p.1.sizeof)).sum ≤ n)) := by
  refine ⟨?_, ?_, ?_⟩
  · intro s
    rw [SubSystemData.trueSize_eq]
    have h := serialize_to_buffer_success_iff host mem buffer n s.fields
      (SubSystemData.solid_fields s) (by rw [SubSystemData.widths_fields]; decide)
    rw [SubSystemData.widths_fields] at h
    exact h
  · intro V
    rw [flight_trueSize]
    have h := serialize_to_buffer_success_iff host mem buffer n
      (DO178C_FlightData_t.serialize_args.map V.field) (flight_solid V)
      (by rw [flight_widths]; decide)
    rw [flight_widths] at h
    exact h
  · intro l hrep
    rw [list_sum_sizeof_eq] at hrep ⊢
    exact serialize_to_buffer_success_iff host mem buffer n (prim_fields l)
      (prim_fields_solid l) hrep

/-- Witness of C7 at the primitive fields `(uint32_t, uint8_t)` and a 3-byte buffer: the
widths sum to 5, and the encode fails. -/
theorem encode_succeeds_iff_fits_witness :
    ([((CType.u32, (1 : Int))), (.u8, 2)].map (fun p => p.1.sizeof)).sum < SIZE_MOD ∧
    ((serialize_to_buffer .Little (fun _ => 0) 0 3 0
        (prim_fields [(.u32, 1), (.u8, 2)])).global_success = true
      ↔ ([((CType.u32, (1 : Int))), (.u8, 2)].map (fun p => p.1.sizeof)).sum ≤ 3) :=
  ⟨by decide,
    (encode_succeeds_iff_fits .Little (fun _ => 0) 0 3).2.2 [(.u32, 1), (.u8, 2)] (by decide)⟩

/-- C8. Decode fails exactly on buffer underrun: for every memory content and every
buffer length `n`, `SubSystemData::deserialize` and `DO178C_FlightData_t::deserialize`
called with the count variable initialised to 0 return true if and only if `n` is at least
the type's `trueSize()` (6 and 460), and on success they report exactly `trueSize()` bytes
consumed, also when `n` is larger; no byte content is rejected. -/
theorem decode_succeeds_iff_fits (host : Endian) (mem : Mem) (buffer n : Nat) :
    (∀ s : SubSystemData,
      s.trueSize = 6 ∧
      ((s.deserialize host mem buffer n 0).result = true ↔ s.trueSize ≤ n) ∧
      ((s.deserialize host mem buffer n 0).result = true →
        (s.deserialize host mem buffer n 0).consumed = s.trueSize)) ∧
    (∀ V : DO178C_FlightData_t,
      V.trueSize = 460 ∧
      ((V.deserialize host mem buffer n 0).result = true ↔ V.trueSize ≤ n) ∧
      ((V.deserialize host mem buffer n 0).result = true →
        (V.deserialize host mem buffer n 0).consumed = V.trueSize)) := by
  refine ⟨?_, ?_⟩
  · intro s
    have hrep : widths s.fields < SIZE_MOD := by rw [SubSystemData.widths_fields]; decide
    have hiff := deserialize_from_buffer_success_iff host mem buffer n s.fields
      (SubSystemData.solid_fields s) hrep
    rw [SubSystemData.widths_fields] at hiff
    refine ⟨SubSystemData.trueSize_eq s, ?_, ?_⟩
    · rw [SubSystemData.trueSize_eq]
      exact hiff
    · intro h
      rw [SubSystemData.trueSize_eq]
      have hfit : 6 ≤ n := hiff.mp h
      have hst := deserialize_from_buffer_fits_state host mem buffer n s.fields
        (SubSystemData.solid_fields s) (by rw [SubSystemData.widths_fields]; exact hfit) hrep
      simp only [SubSystemData.deserialize, hst, SubSystemData.widths_fields]
  · intro V
    have hw : widths (DO178C_FlightData_t.deserialize_args.map V.field) = 460 := by
      rw [deserialize_args_eq]
      exact flight_widths V
    have hsolid : solid_list (DO178C_FlightData_t.deserialize_args.map V.field) = true := by
      rw [deserialize_args_eq]
      exact flight_solid V
    have hrep : widths (DO178C_FlightData_t.deserialize_args.map V.field) < SIZE_MOD := by
      rw [hw]; decide
    have hiff := deserialize_from_buffer_success_iff host mem buffer n _ hsolid hrep
    rw [hw] at hiff
    refine ⟨flight_trueSize V, ?_, ?_⟩
    · rw [flight_trueSize]
      exact hiff
    · intro h
      rw [flight_trueSize]
      have hfit : 460 ≤ n := hiff.mp h
      have hst := deserialize_from_buffer_fits_state host mem buffer n _ hsolid
        (by rw [hw]; exact hfit) hrep
      simp only [DO178C_FlightData_t.deserialize, hst, hw]

/-- Witness of C8 at a 2048-byte buffer filled with `0xFF`: the decode of the flight
record succeeds and reports 460 bytes. -/
theorem decode_succeeds_iff_fits_witness :
    (DO178C_FlightData_t.zero.deserialize .Little (fun _ => 0xFF) 0 2048 0).result = true ∧
    (DO178C_FlightData_t.zero.deserialize .Little (fun _ => 0xFF) 0 2048 0).consumed
      = DO178C_FlightData_t.zero.trueSize :=
  ⟨by decide,
    ((decode_succeeds_iff_fits .Little (fun _ => 0xFF) 0 2048).2 DO178C_FlightData_t.zero).2.2
      (by decide)⟩

/-- C9. Self-inverse byte order: for every value `x` of every 1-, 2-, 4- and 8-byte scalar
type (unsigned and signed integers, binary32 and binary64 bit patterns including NaNs and
negative zero, bool, byte-backed enumerations), `safe_ntoh(safe_hton(x)) == x` and
`safe_hton(safe_hton(x)) == x`. -/
theorem safe_ntoh_safe_hton_self_inverse (t : CType) (x : Int) (hx : t.inRange x) :
    safe_ntoh t (safe_hton t x) = x ∧ safe_hton t (safe_hton t x) = x := by
  unfold safe_hton
  exact ⟨safe_ntoh_safe_ntoh t x hx, safe_ntoh_safe_ntoh t x hx⟩

/-- Witness of C9 at the binary32 negative zero, bit pattern `0x80000000`. -/
theorem safe_ntoh_safe_hton_self_inverse_witness :
    CType.f32.inRange 0x80000000 ∧
    (safe_ntoh .f32 (safe_hton .f32 0x80000000) = 0x80000000 ∧
      safe_hton .f32 (safe_hton .f32 0x80000000) = 0x80000000) :=
  ⟨by decide, safe_ntoh_safe_hton_self_inverse .f32 0x80000000 (by decide)⟩

/-- C10. Byte reversal: for every scalar `x` (an unsigned integer, a signed integer through
its same-width two's-complement pattern, a float through its same-width bit pattern), on
either host, the byte sequence of `safe_hton(x)` is the byte sequence of `x` in reverse
order, byte `i` of the result being byte `width - 1 - i` of `x`; and for every 1-byte
scalar `safe_hton(x) == x`. -/
theorem safe_hton_reverses_bytes (host : Endian) (t : CType) (x : Int) :
    object_bytes host t (safe_hton t x) = (object_bytes host t x).reverse ∧
    (∀ i, i < t.sizeof →
      (object_bytes host t (safe_hton t x)).getD i 0
        = (object_bytes host t x).getD (t.sizeof - 1 - i) 0) ∧
    (t.sizeof = 1 → safe_hton t x = x) := by
  refine ⟨object_bytes_safe_hton host t x, ?_, ?_⟩
  · intro i hi
    rw [object_bytes_getD host t _ i hi, object_bytes_getD host t _ _ (by omega)]
    exact object_byte_swap host t x i hi
  · intro h
    unfold safe_hton
    rw [safe_ntoh_eq, if_pos h]

/-- Witness of C10 at the `int16_t` value -2 (pattern `0xFFFE`) on a little-endian host
and at the `uint8_t` value 200. -/
theorem safe_hton_reverses_bytes_witness :
    object_bytes .Little .i16 (safe_hton .i16 (-2)) = [0xFF, 0xFE] ∧
    object_bytes .Little .i16 (-2) = [0xFE, 0xFF] ∧
    safe_hton .u8 200 = 200 :=
  ⟨by decide, by decide, (safe_hton_reverses_bytes .Little .u8 200).2.2 (by decide)⟩

/-! ## Appending argument lists -/

theorem serialize_fold_append (host : Endian) (buffer buffer_len : Nat) (fs gs : List Field) :
    ∀ st : SerState, serialize_fold host buffer buffer_len st (fs ++ gs)
      = serialize_fold host buffer buffer_len (serialize_fold host buffer buffer_len st fs) gs := by
  induction fs with
  | nil => intro st; simp [serialize_fold]
  | cons f fs ih =>
    intro st
    rw [List.cons_append, serialize_fold_cons, serialize_fold_cons, ih]

theorem deserialize_fold_append (host : Endian) (mem : Mem) (buffer buffer_len : Nat)
    (fs gs : List Field) :
    ∀ st : DeserState, deserialize_fold host mem buffer buffer_len st (fs ++ gs)
      = ((deserialize_fold host mem buffer buffer_len st fs).1 ++
          (deserialize_fold host mem buffer buffer_len
            (deserialize_fold host mem buffer buffer_len st fs).2 gs).1,
        (deserialize_fold host mem buffer buffer_len
            (deserialize_fold host mem buffer buffer_len st fs).2 gs).2) := by
  induction fs with
  | nil => intro st; simp [deserialize_fold]
  | cons f fs ih =>
    intro st
    rw [List.cons_append, deserialize_fold_cons, deserialize_fold_cons, ih]
    simp

theorem solid_list_append (fs gs : List Field) :
    solid_list (fs ++ gs) = (solid_list fs && solid_list gs) := by
  induction fs with
  | nil => simp [solid_list]
  | cons f fs ih =>
    rw [List.cons_append]
    simp only [solid_list]
    rw [ih, Bool.and_assoc]

theorem valid_list_append (fs gs : List Field) :
    valid_list (fs ++ gs) ↔ valid_list fs ∧ valid_list gs := by
  induction fs with
  | nil => simp [valid_list]
  | cons f fs ih =>
    rw [List.cons_append]
    simp only [valid_list]
    rw [ih, and_assoc]

theorem shapes_append (fs gs : List Field) : shapes (fs ++ gs) = shapes fs ++ shapes gs := by
  induction fs with
  | nil => simp [shapes]
  | cons f fs ih =>
    rw [List.cons_append]
    simp only [shapes]
    rw [ih, List.cons_append]

theorem values_list_append (fs gs : List Field) :
    values_list (fs ++ gs) = values_list fs ++ values_list gs := by
  induction fs with
  | nil => simp [values_list]
  | cons f fs ih =>
    rw [List.cons_append]
    simp only [values_list]
    rw [ih, List.append_assoc]

/-! ## The first field that does not fit -/

/-- Encode of `pre ++ prim :: post` when `pre` fits and the primitive after it does not:
the call fails with the cursor after `pre`, and the memory holds the bytes of `pre`. -/
theorem serialize_fold_stops (host : Endian) (mem : Mem) (buffer buffer_len o : Nat)
    (pre post : List Field) (t : CType) (v : Int) (hsolid : solid_list pre = true)
    (hfit : o + widths pre ≤ buffer_len) (hover : buffer_len < o + widths pre + t.sizeof)
    (hrep : o + widths pre + t.sizeof < SIZE_MOD) :
    serialize_fold host buffer buffer_len { mem := mem, offset := o, global_success := true }
        (pre ++ Field.prim t v :: post)
      = { mem := store (buffer + o) (wire_fields host pre) mem
          offset := o + widths pre
          global_success := false } := by
  rw [serialize_fold_append,
    serialize_fold_fits host buffer buffer_len _ pre rfl hsolid hfit (by simp only; omega),
    serialize_fold_cons,
    serialize_prim_overflow host buffer buffer_len _ t v rfl
      (by simp only; rw [Nat.mod_eq_of_lt hrep]; exact hover),
    serialize_fold_failed _ _ _ _ _ rfl]

/-- Decode of `pre ++ prim :: post` when `pre` fits and the primitive after it does not:
the call fails with the cursor after `pre`; the fields of `pre` take the values a decode of
`pre` alone gives them, the primitive and `post` keep their values. -/
theorem deserialize_fold_stops (host : Endian) (mem : Mem) (buffer buffer_len o : Nat)
    (pre post : List Field) (t : CType) (v : Int) (hsolid : solid_list pre = true)
    (hfit : o + widths pre ≤ buffer_len) (hover : buffer_len < o + widths pre + t.sizeof)
    (hrep : o + widths pre + t.sizeof < SIZE_MOD) :
    deserialize_fold host mem buffer buffer_len { offset := o, global_success := true }
        (pre ++ Field.prim t v :: post)
      = ((deserialize_fold host mem buffer buffer_len
            { offset := o, global_success := true } pre).1 ++ Field.prim t v :: post,
          { offset := o + widths pre, global_success := false }) := by
  rw [deserialize_fold_append,
    deserialize_fold_fits_state host mem buffer buffer_len o pre hsolid hfit (by omega),
    deserialize_fold_cons,
    deserialize_prim_underrun host mem buffer buffer_len _ t v rfl
      (by simp only; rw [Nat.mod_eq_of_lt hrep]; exact hover),
    deserialize_fold_failed host mem buffer buffer_len post
      { offset := o + widths pre, global_success := false } rfl]

/-- A list of primitive fields that does not fit splits at the first field whose bounds
check fails. -/
theorem exists_first_overflow (l : List (CType × Int)) :
    ∀ (o buffer_len : Nat), o ≤ buffer_len →
      buffer_len < o + (l.map (fun p => p.1.sizeof)).sum →
      ∃ (before after : List (CType × Int)) (p : CType × Int),
        l = before ++ p :: after ∧
        o + (before.map (fun q => q.1.sizeof)).sum ≤ buffer_len ∧
        buffer_len < o + (before.map (fun q => q.1.sizeof)).sum + p.1.sizeof := by
  induction l with
  | nil =>
    intro o buffer_len h1 h2
    simp at h2
    omega
  | cons p l ih =>
    intro o buffer_len h1 h2
    simp only [List.map_cons, List.sum_cons] at h2
    by_cases hp : o + p.1.sizeof ≤ buffer_len
    · obtain ⟨before, after, q, hl, hb, ha⟩ := ih (o + p.1.sizeof) buffer_len hp (by omega)
      refine ⟨p :: before, after, q, ?_, ?_, ?_⟩
      · rw [hl, List.cons_append]
      · simp only [List.map_cons, List.sum_cons]
        omega
      · simp only [List.map_cons, List.sum_cons]
        omega
    · exact ⟨[], l, p, rfl, by simpa using h1, by simp; omega⟩

theorem prim_fields_cons (p : CType × Int) (l : List (CType × Int)) :
    prim_fields (p :: l) = Field.prim p.1 p.2 :: prim_fields l := rfl

/-- Decode of a list of primitive fields that fits: the state, and the decoded values. -/
theorem deserialize_fold_prims (host : Endian) (mem : Mem) (buffer buffer_len : Nat)
    (l : List (CType × Int)) :
    ∀ o : Nat, o + widths (prim_fields l) ≤ buffer_len → o + widths (prim_fields l) < SIZE_MOD →
      deserialize_fold host mem buffer buffer_len { offset := o, global_success := true }
          (prim_fields l)
        = (decode_prims host mem (buffer + o) l,
            { offset := o + widths (prim_fields l), global_success := true }) := by
  induction l with
  | nil =>
    intro o _ _
    simp [prim_fields, deserialize_fold, decode_prims, widths]
  | cons p l ih =>
    intro o hfit hrep
    rw [prim_fields_cons] at hfit hrep ⊢
    simp only [widths, Field.width] at hfit hrep ⊢
    rw [deserialize_fold_cons,
      deserialize_prim_fits host mem buffer buffer_len _ p.1 p.2 rfl
        (by simp only; rw [Nat.mod_eq_of_lt (by omega)]; omega)]
    simp only
    rw [Nat.mod_eq_of_lt (by omega), ih (o + p.1.sizeof) (by omega) (by omega)]
    simp only [decode_prims, decoded_at, Nat.add_assoc]

/-- C11 (failing input). On a big-endian host `serialize_to_buffer` over the single field
`uint32_t 0xDEADBEEF` succeeds and places `EF BE AD DE` in the buffer, the value least
significant byte first, while on a little-endian host the same call places `DE AD BE EF`,
its big-endian representation: `safe_hton` swaps unconditionally and
`safe_write_to_buffer` copies the object representation, so the wire bytes are not the same
function of the value on the two hosts. -/
theorem wire_bytes_depend_on_host :
    (serialize_to_buffer .Big (fun _ => 0) 0 4 0
        (prim_fields [(.u32, 0xDEADBEEF)])).global_success = true ∧
    load (serialize_to_buffer .Big (fun _ => 0) 0 4 0 (prim_fields [(.u32, 0xDEADBEEF)])).mem 0 4
      = [0xEF, 0xBE, 0xAD, 0xDE] ∧
    load (serialize_to_buffer .Little (fun _ => 0) 0 4 0
        (prim_fields [(.u32, 0xDEADBEEF)])).mem 0 4 = [0xDE, 0xAD, 0xBE, 0xEF] ∧
    big_endian_bytes .u32 0xDEADBEEF = [0xDE, 0xAD, 0xBE, 0xEF] ∧
    load (serialize_to_buffer .Big (fun _ => 0) 0 4 0 (prim_fields [(.u32, 0xDEADBEEF)])).mem 0 4
      ≠ big_endian_bytes .u32 0xDEADBEEF := by
  decide

theorem flight_args_split (V : DO178C_FlightData_t) :
    DO178C_FlightData_t.serialize_args.map V.field
      = (DO178C_FlightData_t.serialize_args.dropLast.map V.field)
          ++ Field.prim .u32 (V.scalar Member.bit_status_word) :: [] := by
  rfl

theorem flight_init_shapes (V W : DO178C_FlightData_t) :
    shapes (DO178C_FlightData_t.serialize_args.dropLast.map V.field)
      = shapes (DO178C_FlightData_t.serialize_args.dropLast.map W.field) := by
  rfl

theorem flight_init_widths_zero :
    widths (DO178C_FlightData_t.serialize_args.dropLast.map DO178C_FlightData_t.zero.field)
      = 456 := by
  decide

theorem flight_init_widths (V : DO178C_FlightData_t) :
    widths (DO178C_FlightData_t.serialize_args.dropLast.map V.field) = 456 := by
  rw [widths_congr _ _ (flight_init_shapes V DO178C_FlightData_t.zero)]
  exact flight_init_widths_zero

theorem flight_init_solid (V : DO178C_FlightData_t) :
    solid_list (DO178C_FlightData_t.serialize_args.dropLast.map V.field) = true := by
  rfl

/-- C12. Fail-fast boundary: for every `SubSystemData` value and every
`DO178C_FlightData_t` value `V`, `serialize` called with the count variable initialised to
0 and a buffer of exactly `V.trueSize() - 1` bytes returns false and reports a byte count
equal to the sum of the sizes of all fields before the first field that overflows, which
is the last field in both schemas (`temperature`, `bit_status_word`): the count is
`trueSize() - 4`, neither 0 nor `V.trueSize()`. -/
theorem fail_fast_boundary (host : Endian) (mem : Mem) (buffer : Nat) :
    (∀ s : SubSystemData,
      (s.serialize host mem buffer (s.trueSize - 1) 0).result = false ∧
      (s.serialize host mem buffer (s.trueSize - 1) 0).consumed
        = widths [Field.prim .u16 s.subId] ∧
      widths [Field.prim .u16 s.subId] ≤ s.trueSize - 1 ∧
      s.trueSize - 1 < widths [Field.prim .u16 s.subId] + CType.f32.sizeof ∧
      (s.serialize host mem buffer (s.trueSize - 1) 0).consumed = s.trueSize - 4 ∧
      (s.serialize host mem buffer (s.trueSize - 1) 0).consumed ≠ 0 ∧
      (s.serialize host mem buffer (s.trueSize - 1) 0).consumed ≠ s.trueSize) ∧
    (∀ V : DO178C_FlightData_t,
      (V.serialize host mem buffer (V.trueSize - 1) 0).result = false ∧
      (V.serialize host mem buffer (V.trueSize - 1) 0).consumed
        = widths (DO178C_FlightData_t.serialize_args.dropLast.map V.field) ∧
      widths (DO178C_FlightData_t.serialize_args.dropLast.map V.field) ≤ V.trueSize - 1 ∧
      V.trueSize - 1
        < widths (DO178C_FlightData_t.serialize_args.dropLast.map V.field) + CType.u32.sizeof ∧
      (V.serialize host mem buffer (V.trueSize - 1) 0).consumed = V.trueSize - 4 ∧
      (V.serialize host mem buffer (V.trueSize - 1) 0).consumed ≠ 0 ∧
      (V.serialize host mem buffer (V.trueSize - 1) 0).consumed ≠ V.trueSize) := by
  refine ⟨?_, ?_⟩
  · intro s
    have hw : widths [Field.prim .u16 s.subId] = 2 := rfl
    have hs : CType.f32.sizeof = 4 := rfl
    have hstop := serialize_fold_stops host mem buffer 5 0 [Field.prim .u16 s.subId] []
      .f32 s.temperature rfl (by rw [hw]; decide) (by rw [hw]; decide) (by rw [hw]; decide)
    have hser : s.serialize host mem buffer 5 0
        = { result := false, consumed := 0 + widths [Field.prim .u16 s.subId],
            mem := store (buffer + 0) (wire_fields host [Field.prim .u16 s.subId]) mem } := by
      simp only [SubSystemData.serialize, serialize_to_buffer, SubSystemData.fields]
      rw [show ([Field.prim .u16 s.subId, Field.prim .f32 s.temperature] : List Field)
        = [Field.prim .u16 s.subId] ++ Field.prim .f32 s.temperature :: [] from rfl, hstop]
    rw [SubSystemData.trueSize_eq, show (6 : Nat) - 1 = 5 from rfl, hser, hw, hs]
    simp
  · intro V
    have hw := flight_init_widths V
    have hs : CType.u32.sizeof = 4 := rfl
    have hstop := serialize_fold_stops host mem buffer 459 0
      (DO178C_FlightData_t.serialize_args.dropLast.map V.field) []
      .u32 (V.scalar Member.bit_status_word) (flight_init_solid V)
      (by rw [hw]; decide) (by rw [hw]; decide) (by rw [hw]; decide)
    have hser : V.serialize host mem buffer 459 0
        = { result := false,
            consumed := 0 + widths (DO178C_FlightData_t.serialize_args.dropLast.map V.field),
            mem := store (buffer + 0)
              (wire_fields host (DO178C_FlightData_t.serialize_args.dropLast.map V.field)) mem } := by
      simp only [DO178C_FlightData_t.serialize, serialize_to_buffer]
      rw [flight_args_split V, hstop]
    rw [flight_trueSize, show (460 : Nat) - 1 = 459 from rfl, hser, hw, hs]
    simp

/-- C13. Partial count on failure: for every list of primitive fields (widths summing to
less than `2 ^ 64`) and every buffer length for which `serialize_to_buffer`, respectively
`deserialize_from_buffer`, started at cursor 0 returns false, the list splits at the first
field `p` failing its bounds check, and the final cursor equals the sum of the widths of
exactly the fields before `p`, those fully written (read); the cursor is not set back to 0
(it is positive as soon as one field was processed) and it is strictly less than the full
packed size. -/
theorem partial_count_on_failure (host : Endian) (mem : Mem) (buffer buffer_len : Nat)
    (l : List (CType × Int)) (hrep : (l.map (fun p => p.1.sizeof)).sum < SIZE_MOD) :
    ((serialize_to_buffer host mem buffer buffer_len 0 (prim_fields l)).global_success = false →
      ∃ (before after : List (CType × Int)) (p : CType × Int),
        l = before ++ p :: after ∧
        (before.map (fun q => q.1.sizeof)).sum ≤ buffer_len ∧
        buffer_len < (before.map (fun q => q.1.sizeof)).sum + p.1.sizeof ∧
        (serialize_to_buffer host mem buffer buffer_len 0 (prim_fields l)).offset
          = (before.map (fun q => q.1.sizeof)).sum ∧
        (before ≠ [] →
          0 < (serialize_to_buffer host mem buffer buffer_len 0 (prim_fields l)).offset) ∧
        (serialize_to_buffer host mem buffer buffer_len 0 (prim_fields l)).offset
          < (l.map (fun q => q.1.sizeof)).sum) ∧
    ((deserialize_from_buffer host mem buffer buffer_len 0
        (prim_fields l)).2.global_success = false →
      ∃ (before after : List (CType × Int)) (p : CType × Int),
        l = before ++ p :: after ∧
        (before.map (fun q => q.1.sizeof)).sum ≤ buffer_len ∧
        buffer_len < (before.map (fun q => q.1.sizeof)).sum + p.1.sizeof ∧
        (deserialize_from_buffer host mem buffer buffer_len 0 (prim_fields l)).2.offset
          = (before.map (fun q => q.1.sizeof)).sum ∧
        (before ≠ [] →
          0 < (deserialize_from_buffer host mem buffer buffer_len 0 (prim_fields l)).2.offset) ∧
        (deserialize_from_buffer host mem buffer buffer_len 0 (prim_fields l)).2.offset
          < (l.map (fun q => q.1.sizeof)).sum) := by
  have key : (serialize_to_buffer host mem buffer buffer_len 0
        (prim_fields l)).global_success = false →
      ∃ (before after : List (CType × Int)) (p : CType × Int),
        l = before ++ p :: after ∧
        (before.map (fun q => q.1.sizeof)).sum ≤ buffer_len ∧
        buffer_len < (before.map (fun q => q.1.sizeof)).sum + p.1.sizeof ∧
        (serialize_to_buffer host mem buffer buffer_len 0 (prim_fields l)).offset
          = (before.map (fun q => q.1.sizeof)).sum ∧
        (before ≠ [] →
          0 < (serialize_to_buffer host mem buffer buffer_len 0 (prim_fields l)).offset) ∧
        (serialize_to_buffer host mem buffer buffer_len 0 (prim_fields l)).offset
          < (l.map (fun q => q.1.sizeof)).sum := by
    intro hfail
    have hshort : buffer_len < (l.map (fun p => p.1.sizeof)).sum := by
      by_contra hc
      have hok := (serialize_to_buffer_success_iff host mem buffer buffer_len (prim_fields l)
        (prim_fields_solid l) (by rw [prim_fields_widths]; exact hrep)).mpr
        (by rw [prim_fields_widths]; omega)
      rw [hok] at hfail
      simp at hfail
    obtain ⟨before, after, p, hl, hb, ha⟩ :=
      exists_first_overflow l 0 buffer_len (Nat.zero_le _) (by omega)
    simp only [Nat.zero_add] at hb ha
    have hsum : (l.map (fun q => q.1.sizeof)).sum
        = (before.map (fun q => q.1.sizeof)).sum + p.1.sizeof
          + (after.map (fun q => q.1.sizeof)).sum := by
      rw [hl]
      simp only [List.map_append, List.map_cons, List.sum_append, List.sum_cons]
      omega
    have hstop := serialize_fold_stops host mem buffer buffer_len 0 (prim_fields before)
      (prim_fields after) p.1 p.2 (prim_fields_solid before)
      (by rw [prim_fields_widths]; omega) (by rw [prim_fields_widths]; omega)
      (by rw [prim_fields_widths]; omega)
    have hoff : (serialize_to_buffer host mem buffer buffer_len 0 (prim_fields l)).offset
        = (before.map (fun q => q.1.sizeof)).sum := by
      unfold serialize_to_buffer
      rw [hl, prim_fields_append, prim_fields_cons, hstop, prim_fields_widths]
      simp
    refine ⟨before, after, p, hl, hb, ha, hoff, ?_, ?_⟩
    · intro hne
      rw [hoff]
      cases before with
      | nil => exact absurd rfl hne
      | cons q qs =>
        simp only [List.map_cons, List.sum_cons]
        have := sizeof_pos q.1
        omega
    · rw [hoff, hsum]
      have := sizeof_pos p.1
      omega
  refine ⟨key, ?_⟩
  have hst := deserialize_fold_state host mem mem buffer buffer_len 0 true (prim_fields l)
  have hflag : (deserialize_from_buffer host mem buffer buffer_len 0
        (prim_fields l)).2.global_success
      = (serialize_to_buffer host mem buffer buffer_len 0 (prim_fields l)).global_success := by
    unfold deserialize_from_buffer serialize_to_buffer
    rw [hst]
  have hoffs : (deserialize_from_buffer host mem buffer buffer_len 0 (prim_fields l)).2.offset
      = (serialize_to_buffer host mem buffer buffer_len 0 (prim_fields l)).offset := by
    unfold deserialize_from_buffer serialize_to_buffer
    rw [hst]
  rw [hflag, hoffs]
  exact key

/-- Witness of C13 at the fields `(uint16_t, uint32_t, uint8_t)` and a 5-byte buffer: the
encode fails with cursor 2, the width of the first field. -/
theorem partial_count_on_failure_witness :
    ([((CType.u16, (1 : Int))), (.u32, 2), (.u8, 3)].map (fun p => p.1.sizeof)).sum < SIZE_MOD ∧
    (serialize_to_buffer .Little (fun _ => 0) 0 5 0
      (prim_fields [(.u16, 1), (.u32, 2), (.u8, 3)])).global_success = false ∧
    (serialize_to_buffer .Little (fun _ => 0) 0 5 0
      (prim_fields [(.u16, 1), (.u32, 2), (.u8, 3)])).offset = 2 ∧
    (∃ (before after : List (CType × Int)) (p : CType × Int),
      [((CType.u16, (1 : Int))), (.u32, 2), (.u8, 3)] = before ++ p :: after ∧
      (before.map (fun q => q.1.sizeof)).sum ≤ 5 ∧
      5 < (before.map (fun q => q.1.sizeof)).sum + p.1.sizeof ∧
      (serialize_to_buffer .Little (fun _ => 0) 0 5 0
        (prim_fields [(.u16, 1), (.u32, 2), (.u8, 3)])).offset
        = (before.map (fun q => q.1.sizeof)).sum ∧
      (before ≠ [] →
        0 < (serialize_to_buffer .Little (fun _ => 0) 0 5 0
          (prim_fields [(.u16, 1), (.u32, 2), (.u8, 3)])).offset) ∧
      (serialize_to_buffer .Little (fun _ => 0) 0 5 0
        (prim_fields [(.u16, 1), (.u32, 2), (.u8, 3)])).offset
        < ([((CType.u16, (1 : Int))), (.u32, 2), (.u8, 3)].map (fun q => q.1.sizeof)).sum) :=
  ⟨by decide, by decide, by decide,
    (partial_count_on_failure .Little (fun _ => 0) 0 5 [(.u16, 1), (.u32, 2), (.u8, 3)]
      (by decide)).1 (by decide)⟩

/-- C14. No rollback: when `serialize_to_buffer` over primitive fields fails at the field
`p` (the fields `before` fit, `p` does not), `buffer[0..cursor)` holds the wire bytes of
the fields before `p`; when `deserialize_from_buffer` over primitive fields fails at `p`,
the fields before `p` hold their decoded values while `p` and every later field keep the
values they had before the call. -/
theorem no_rollback (host : Endian) (mem : Mem) (buffer buffer_len : Nat)
    (before after : List (CType × Int)) (p : CType × Int)
    (hfit : (before.map (fun q => q.1.sizeof)).sum ≤ buffer_len)
    (hover : buffer_len < (before.map (fun q => q.1.sizeof)).sum + p.1.sizeof)
    (hrep : (before.map (fun q => q.1.sizeof)).sum + p.1.sizeof < SIZE_MOD) :
    (serialize_to_buffer host mem buffer buffer_len 0
        (prim_fields (before ++ p :: after))).global_success = false ∧
    (serialize_to_buffer host mem buffer buffer_len 0
        (prim_fields (before ++ p :: after))).offset = (before.map (fun q => q.1.sizeof)).sum ∧
    load (serialize_to_buffer host mem buffer buffer_len 0
        (prim_fields (before ++ p :: after))).mem buffer
        (serialize_to_buffer host mem buffer buffer_len 0
          (prim_fields (before ++ p :: after))).offset
      = wire_fields host (prim_fields before) ∧
    (deserialize_from_buffer host mem buffer buffer_len 0
        (prim_fields (before ++ p :: after))).2.global_success = false ∧
    (deserialize_from_buffer host mem buffer buffer_len 0
        (prim_fields (before ++ p :: after))).1
      = decode_prims host mem buffer before ++ prim_fields (p :: after) := by
  rw [← prim_fields_widths] at hfit hover hrep
  have hser := serialize_fold_stops host mem buffer buffer_len 0 (prim_fields before)
    (prim_fields after) p.1 p.2 (prim_fields_solid before) (by omega) (by omega) (by omega)
  have hdes := deserialize_fold_stops host mem buffer buffer_len 0 (prim_fields before)
    (prim_fields after) p.1 p.2 (prim_fields_solid before) (by omega) (by omega) (by omega)
  have hpre := deserialize_fold_prims host mem buffer buffer_len before 0 (by omega) (by omega)
  simp only [Nat.zero_add, Nat.add_zero] at hser hdes hpre
  have hlen := wire_length host (prim_fields before)
  simp only [serialize_to_buffer, deserialize_from_buffer, prim_fields_append, prim_fields_cons,
    hser, hdes, hpre]
  refine ⟨trivial, prim_fields_widths before, ?_, trivial, trivial⟩
  rw [← hlen]
  exact load_store _ _ _

/-- Witness of C14 at the fields `(uint16_t 0x0102, uint32_t 7, uint8_t 3)` and a 5-byte
buffer on a little-endian host: the encode fails at the second field and `buffer[0..2)`
holds `01 02`. -/
theorem no_rollback_witness :
    load (serialize_to_buffer .Little (fun _ => 0) 0 5 0
        (prim_fields ([(.u16, 0x0102)] ++ (.u32, 7) :: [(.u8, 3)]))).mem 0
        (serialize_to_buffer .Little (fun _ => 0) 0 5 0
          (prim_fields ([(.u16, 0x0102)] ++ (.u32, 7) :: [(.u8, 3)]))).offset
      = wire_fields .Little (prim_fields [(.u16, 0x0102)]) ∧
    wire_fields .Little (prim_fields [(.u16, 0x0102)]) = [0x01, 0x02] :=
  ⟨(no_rollback .Little (fun _ => 0) 0 5 [(.u16, 0x0102)] [(.u8, 3)] (.u32, 7) (by decide)
      (by decide) (by decide)).2.2.1, by decide⟩

/-! ## The packed size as a sum -/

theorem packed_size_fold_mod (fs : List Field) :
    ∀ total : Nat, total < SIZE_MOD →
      packed_size_fold total fs = (total + (fs.map field_size).sum) % SIZE_MOD := by
  induction fs with
  | nil =>
    intro total h
    simp [packed_size_fold, Nat.mod_eq_of_lt h]
  | cons f fs ih =>
    intro total _
    have hpos : 0 < SIZE_MOD := by decide
    simp only [packed_size_fold, List.map_cons, List.sum_cons]
    rw [ih _ (Nat.mod_lt _ hpos), Nat.mod_add_mod, Nat.add_assoc]

mutual
theorem field_size_congr (f g : Field) (h : f.shape = g.shape) : field_size f = field_size g := by
  cases f with
  | prim t v =>
    cases g with
    | prim t2 v2 =>
      simp only [Field.shape, Shape.prim.injEq] at h
      simp [field_size, h]
    | comp gs => simp [Field.shape] at h
  | comp fs =>
    cases g with
    | prim t2 v2 => simp [Field.shape] at h
    | comp gs =>
      simp only [Field.shape, Shape.comp.injEq] at h
      simp only [field_size]
      exact packed_size_fold_congr fs gs 0 h
theorem packed_size_fold_congr (fs gs : List Field) (total : Nat) (h : shapes fs = shapes gs) :
    packed_size_fold total fs = packed_size_fold total gs := by
  cases fs with
  | nil =>
    cases gs with
    | nil => rfl
    | cons g gs => simp [shapes] at h
  | cons f fs =>
    cases gs with
    | nil => simp [shapes] at h
    | cons g gs =>
      simp only [shapes, List.cons.injEq] at h
      simp only [packed_size_fold]
      rw [field_size_congr f g h.1]
      exact packed_size_fold_congr fs gs _ h.2
end

/-- C15. Packed-size reference: for every field list, `calculate_packed_size` returns the
sum (in `size_t`) over the fields of the byte width for a primitive and of `trueSize()`
for a composite, which is the plain sum of the scalar widths whenever that is below
`2 ^ 64`; nothing is added for alignment, and the result does not depend on the field
values; in particular `SubSystemData::trueSize()` is 2 + 4 = 6 for every value. -/
theorem packed_size_reference :
    (∀ fields : List Field,
      calculate_packed_size fields = (fields.map field_size).sum % SIZE_MOD) ∧
    (∀ (t : CType) (v : Int), field_size (.prim t v) = t.sizeof) ∧
    (∀ members : List Field, field_size (.comp members) = calculate_packed_size members) ∧
    (∀ fields : List Field, widths fields < SIZE_MOD →
      calculate_packed_size fields = widths fields) ∧
    (∀ fields others : List Field, shapes fields = shapes others →
      calculate_packed_size fields = calculate_packed_size others) ∧
    (∀ s : SubSystemData,
      s.trueSize = CType.u16.sizeof + CType.f32.sizeof ∧ s.trueSize = 2 + 4 ∧ s.trueSize = 6) := by
  refine ⟨?_, ?_, ?_, ?_, ?_, ?_⟩
  · intro fields
    unfold calculate_packed_size
    rw [packed_size_fold_mod fields 0 (by decide), Nat.zero_add]
  · intro t v
    rfl
  · intro members
    rfl
  · intro fields h
    exact calculate_packed_size_eq fields h
  · intro fields others h
    exact packed_size_fold_congr fields others 0 h
  · intro s
    rw [SubSystemData.trueSize_eq]
    exact ⟨rfl, rfl, rfl⟩

/-- Witness of C15: two `SubSystemData` values with different members have the same packed
size 6, which is also the sum of the widths of the two member fields. -/
theorem packed_size_reference_witness :
    calculate_packed_size (SubSystemData.mk 101 0x420ECCCD).fields
      = calculate_packed_size (SubSystemData.mk 0 0).fields ∧
    calculate_packed_size (SubSystemData.mk 101 0x420ECCCD).fields
      = widths (SubSystemData.mk 101 0x420ECCCD).fields :=
  ⟨packed_size_reference.2.2.2.2.1 _ _ rfl, packed_size_reference.2.2.2.1 _ (by decide)⟩

/-- The size of a `SubSystemData`: `SubSystemData::trueSize()` ignores padding and returns
`sizeof(uint16_t) + sizeof(float)` = 2 + 4 = 6 for every `SubSystemData` value: the sizes of
its two members `subId` and `temperature`. -/
theorem sub_system_trueSize_is_six (s : SubSystemData) :
    s.trueSize = CType.u16.sizeof + CType.f32.sizeof ∧ s.trueSize = 6 := by
  rw [SubSystemData.trueSize_eq]
  exact ⟨rfl, rfl⟩

/-- C16 (failing input). For the `SubSystemData` of `main` (`subId = 101`,
`temperature = 35.7f`) `trueSize()` returns 6, not the 3 = `sizeof(uint16_t) +
sizeof(uint8_t)` that the comment on the operation states, and `serialize` writes 6 bytes. -/
theorem sub_system_trueSize_is_not_three :
    (SubSystemData.mk 101 0x420ECCCD).trueSize = 6 ∧
    (SubSystemData.mk 101 0x420ECCCD).trueSize ≠ CType.u16.sizeof + CType.u8.sizeof ∧
    (SubSystemData.mk 101 0x420ECCCD).trueSize ≠ 3 ∧
    (SubSystemData.serialize .Little (fun _ => 0) (SubSystemData.mk 101 0x420ECCCD) 0 64
      0).consumed = 6 := by
  decide

/-! ## A nested composite and its members passed inline -/

theorem nested_inline_wire (host : Endian) (before after : List (CType × Int)) (a b : Int) :
    wire_fields host (nested_fields before after a b)
      = wire_fields host (inline_fields before after a b) := by
  simp [nested_fields, inline_fields, wire_fields_append, wire_fields, wire_field,
    SubSystemData.toField, SubSystemData.fields]

theorem nested_inline_widths (before after : List (CType × Int)) (a b : Int) :
    widths (nested_fields before after a b) = widths (inline_fields before after a b) := by
  simp only [nested_fields, inline_fields, widths_append, widths, Field.width,
    SubSystemData.toField, SubSystemData.fields]
  omega

theorem nested_inline_values (before after : List (CType × Int)) (a b : Int) :
    values_list (nested_fields before after a b)
      = values_list (inline_fields before after a b) := by
  simp [nested_fields, inline_fields, values_list_append, values_list, Field.values,
    SubSystemData.toField, SubSystemData.fields]

theorem nested_solid (before after : List (CType × Int)) (a b : Int) :
    solid_list (nested_fields before after a b) = true := by
  simp only [nested_fields, solid_list_append, solid_list, prim_fields_solid, Bool.true_and,
    Bool.and_true]
  rfl

theorem inline_solid (before after : List (CType × Int)) (a b : Int) :
    solid_list (inline_fields before after a b) = true := by
  simp only [inline_fields, solid_list_append, solid_list, prim_fields_solid, Bool.true_and,
    Bool.and_true]
  rfl

theorem nested_valid (before after : List (CType × Int)) (a b : Int)
    (hb : valid_list (prim_fields before)) (ha : valid_list (prim_fields after))
    (h1 : CType.u16.inRange a) (h2 : CType.f32.inRange b) :
    valid_list (nested_fields before after a b) := by
  rw [nested_fields, valid_list_append]
  exact ⟨hb, ⟨h1, h2, trivial⟩, ha⟩

theorem inline_valid (before after : List (CType × Int)) (a b : Int)
    (hb : valid_list (prim_fields before)) (ha : valid_list (prim_fields after))
    (h1 : CType.u16.inRange a) (h2 : CType.f32.inRange b) :
    valid_list (inline_fields before after a b) := by
  rw [inline_fields, valid_list_append]
  exact ⟨hb, h1, h2, ha⟩

/-- C17. Nested transparency: for every `uint16_t a` and float bit pattern `b`, every list
of primitive fields placed before and after (packed size below `2 ^ 64`), and every buffer
of at least the packed size, on either host, `serialize_to_buffer` with the composite
`SubSystemData{a, b}` at that position yields the same success flag, the same final cursor
and the same memory as `serialize_to_buffer` with `a` and `b` passed inline as two
primitive fields; `calculate_packed_size` agrees on the two lists; and decoding the bytes
through either list succeeds and restores the same values. -/
theorem nested_transparency (host : Endian) (mem : Mem) (buffer buffer_len : Nat)
    (before after : List (CType × Int)) (a b : Int)
    (ha : CType.u16.inRange a) (hb : CType.f32.inRange b)
    (hbefore : valid_list (prim_fields before)) (hafter : valid_list (prim_fields after))
    (hrep : widths (nested_fields before after a b) < SIZE_MOD)
    (hlen : calculate_packed_size (nested_fields before after a b) ≤ buffer_len)
    (nested_targets inline_targets : List Field)
    (hnt : shapes nested_targets = shapes (nested_fields before after a b))
    (hit : shapes inline_targets = shapes (inline_fields before after a b)) :
    serialize_to_buffer host mem buffer buffer_len 0 (nested_fields before after a b)
      = serialize_to_buffer host mem buffer buffer_len 0 (inline_fields before after a b) ∧
    (serialize_to_buffer host mem buffer buffer_len 0
      (nested_fields before after a b)).global_success = true ∧
    calculate_packed_size (nested_fields before after a b)
      = calculate_packed_size (inline_fields before after a b) ∧
    (deserialize_from_buffer host
        (serialize_to_buffer host mem buffer buffer_len 0 (nested_fields before after a b)).mem
        buffer buffer_len 0 nested_targets).2.global_success = true ∧
    (deserialize_from_buffer host
        (serialize_to_buffer host mem buffer buffer_len 0 (nested_fields before after a b)).mem
        buffer buffer_len 0 inline_targets).2.global_success = true ∧
    (deserialize_from_buffer host
        (serialize_to_buffer host mem buffer buffer_len 0 (nested_fields before after a b)).mem
        buffer buffer_len 0 nested_targets).2.offset
      = (deserialize_from_buffer host
        (serialize_to_buffer host mem buffer buffer_len 0 (nested_fields before after a b)).mem
        buffer buffer_len 0 inline_targets).2.offset ∧
    values_list (deserialize_from_buffer host
        (serialize_to_buffer host mem buffer buffer_len 0 (nested_fields before after a b)).mem
        buffer buffer_len 0 nested_targets).1
      = values_list (nested_fields before after a b) ∧
    values_list (deserialize_from_buffer host
        (serialize_to_buffer host mem buffer buffer_len 0 (nested_fields before after a b)).mem
        buffer buffer_len 0 inline_targets).1
      = values_list (nested_fields before after a b) := by
  have hw := nested_inline_widths before after a b
  have hrep2 : widths (inline_fields before after a b) < SIZE_MOD := by rw [← hw]; exact hrep
  rw [calculate_packed_size_eq _ hrep] at hlen
  have hsn := serialize_to_buffer_fits host mem buffer buffer_len _
    (nested_solid before after a b) hlen hrep
  have hsi := serialize_to_buffer_fits host mem buffer buffer_len _
    (inline_solid before after a b) (by rw [← hw]; exact hlen) hrep2
  have heq : serialize_to_buffer host mem buffer buffer_len 0 (nested_fields before after a b)
      = serialize_to_buffer host mem buffer buffer_len 0 (inline_fields before after a b) := by
    rw [hsn, hsi, nested_inline_wire, hw]
  have hdn := deserialize_serialize host mem buffer buffer_len 0 _ nested_targets hnt
    (nested_valid before after a b hbefore hafter ha hb) (nested_solid before after a b)
    (by omega) (by omega) buffer_len (by omega)
  have hdi := deserialize_serialize host mem buffer buffer_len 0 _ inline_targets hit
    (inline_valid before after a b hbefore hafter ha hb) (inline_solid before after a b)
    (by omega) (by omega) buffer_len (by omega)
  have hdn2 : deserialize_from_buffer host
      (serialize_to_buffer host mem buffer buffer_len 0 (nested_fields before after a b)).mem
      buffer buffer_len 0 nested_targets
      = (nested_fields before after a b,
          { offset := 0 + widths (nested_fields before after a b), global_success := true }) :=
    hdn
  have hdi2 : deserialize_from_buffer host
      (serialize_to_buffer host mem buffer buffer_len 0 (nested_fields before after a b)).mem
      buffer buffer_len 0 inline_targets
      = (inline_fields before after a b,
          { offset := 0 + widths (inline_fields before after a b), global_success := true }) := by
    rw [heq]
    exact hdi
  refine ⟨heq, ?_, ?_, ?_, ?_, ?_, ?_, ?_⟩
  · rw [hsn]
  · rw [calculate_packed_size_eq _ hrep, calculate_packed_size_eq _ hrep2, hw]
  · rw [hdn2]
  · rw [hdi2]
  · rw [hdn2, hdi2, hw]
  · rw [hdn2]
  · rw [hdi2, nested_inline_values]

/-- Witness of C17 at `before = [uint32_t 0xDEADBEEF]`, `after = [uint8_t 7]`, the
`SubSystemData` of `main` and a 64-byte buffer. -/
theorem nested_transparency_witness :
    serialize_to_buffer .Little (fun _ => 0) 0 64 0
        (nested_fields [(.u32, 0xDEADBEEF)] [(.u8, 7)] 101 0x420ECCCD)
      = serialize_to_buffer .Little (fun _ => 0) 0 64 0
        (inline_fields [(.u32, 0xDEADBEEF)] [(.u8, 7)] 101 0x420ECCCD) :=
  (nested_transparency .Little (fun _ => 0) 0 64 [(.u32, 0xDEADBEEF)] [(.u8, 7)] 101 0x420ECCCD
    (by decide) (by decide)
    ⟨(by decide : CType.u32.inRange 0xDEADBEEF), trivial⟩
    ⟨(by decide : CType.u8.inRange 7), trivial⟩ (by decide) (by decide)
    (nested_fields [(.u32, 0)] [(.u8, 0)] 0 0) (inline_fields [(.u32, 0)] [(.u8, 0)] 0 0)
    rfl rfl).1

/-- C18 (failing input). `serialize_to_buffer` and `deserialize_from_buffer` over the
single field `uint32_t` with an 8-byte buffer and the initial cursor `2 ^ 64 - 2` return
true, and processing the field moves the cursor from `2 ^ 64 - 2` to 2: the cursor does not
become the initial cursor plus the size 4 of the field, it decreases, and the advance is
not `calculate_packed_size` of the list. -/
theorem cursor_wraps_in_successful_call :
    (serialize_to_buffer .Little (fun _ => 0) 0 8 (2 ^ 64 - 2)
      [.prim .u32 0xDEADBEEF]).global_success = true ∧
    (serialize_to_buffer .Little (fun _ => 0) 0 8 (2 ^ 64 - 2) [.prim .u32 0xDEADBEEF]).offset
      = 2 ∧
    (serialize_to_buffer .Little (fun _ => 0) 0 8 (2 ^ 64 - 2) [.prim .u32 0xDEADBEEF]).offset
      ≠ 2 ^ 64 - 2 + calculate_packed_size [.prim .u32 0xDEADBEEF] ∧
    (serialize_to_buffer .Little (fun _ => 0) 0 8 (2 ^ 64 - 2) [.prim .u32 0xDEADBEEF]).offset
      < 2 ^ 64 - 2 ∧
    (deserialize_from_buffer .Little (fun _ => 0) 0 8 (2 ^ 64 - 2)
      [.prim .u32 0]).2.global_success = true ∧
    (deserialize_from_buffer .Little (fun _ => 0) 0 8 (2 ^ 64 - 2) [.prim .u32 0]).2.offset
      = 2 ∧
    (deserialize_from_buffer .Little (fun _ => 0) 0 8 (2 ^ 64 - 2) [.prim .u32 0]).2.offset
      ≠ 2 ^ 64 - 2 + calculate_packed_size [.prim .u32 0] := by
  decide

/-- The cursor of a successful encode or decode whose initial cursor plus packed size stays
below `2 ^ 64`: after the fields `pre` it is the initial cursor plus their widths, after
the next field `f` it is that plus the width of `f`, and at the end it is the initial
cursor plus `calculate_packed_size` of the list. -/
theorem cursor_advances_by_field_sizes (host : Endian) (mem : Mem) (buffer buffer_len o : Nat)
    (pre post : List Field) (f : Field)
    (hrep : o + widths (pre ++ f :: post) < SIZE_MOD)
    (hok : (serialize_to_buffer host mem buffer buffer_len o
      (pre ++ f :: post)).global_success = true) :
    (serialize_to_buffer host mem buffer buffer_len o pre).offset = o + widths pre ∧
    (serialize_to_buffer host mem buffer buffer_len o (pre ++ [f])).offset
      = o + widths pre + f.width ∧
    (serialize_to_buffer host mem buffer buffer_len o (pre ++ f :: post)).offset
      = o + calculate_packed_size (pre ++ f :: post) ∧
    (deserialize_from_buffer host mem buffer buffer_len o pre).2.offset = o + widths pre ∧
    (deserialize_from_buffer host mem buffer buffer_len o (pre ++ [f])).2.offset
      = o + widths pre + f.width ∧
    (deserialize_from_buffer host mem buffer buffer_len o (pre ++ f :: post)).2.offset
      = o + calculate_packed_size (pre ++ f :: post) := by
  have hwid : widths (pre ++ f :: post) = widths pre + f.width + widths post := by
    rw [widths_append]
    simp only [widths]
    omega
  have hwid2 : widths (pre ++ [f]) = widths pre + f.width := by
    rw [widths_append]
    simp only [widths]
    omega
  have hsplit : pre ++ f :: post = (pre ++ [f]) ++ post := by simp
  have hok1 : (serialize_to_buffer host mem buffer buffer_len o
      (pre ++ [f])).global_success = true := by
    by_contra hc
    unfold serialize_to_buffer at hok hc
    rw [hsplit, serialize_fold_append, serialize_fold_failed _ _ _ _ _ (by simpa using hc)] at hok
    exact hc hok
  have hok0 : (serialize_to_buffer host mem buffer buffer_len o pre).global_success = true := by
    by_contra hc
    unfold serialize_to_buffer at hok1 hc
    rw [serialize_fold_append, serialize_fold_failed _ _ _ _ _ (by simpa using hc)] at hok1
    exact hc hok1
  have off : ∀ fs : List Field, o + widths fs < SIZE_MOD →
      (serialize_to_buffer host mem buffer buffer_len o fs).global_success = true →
      (serialize_to_buffer host mem buffer buffer_len o fs).offset = o + widths fs := by
    intro fs h1 h2
    unfold serialize_to_buffer at h2 ⊢
    rw [serialize_fold_offset host buffer buffer_len _ fs rfl h2]
    exact packed_size_fold_eq fs o h1
  have doff : ∀ fs : List Field,
      (deserialize_from_buffer host mem buffer buffer_len o fs).2.offset
        = (serialize_to_buffer host mem buffer buffer_len o fs).offset := by
    intro fs
    unfold deserialize_from_buffer serialize_to_buffer
    rw [deserialize_fold_state host mem mem buffer buffer_len o true fs]
  have h0 := off pre (by omega) hok0
  have h1 := off (pre ++ [f]) (by omega) hok1
  have h2 := off (pre ++ f :: post) hrep hok
  rw [hwid2, ← Nat.add_assoc] at h1
  rw [calculate_packed_size_eq _ (by omega)]
  exact ⟨h0, h1, h2, by rw [doff, h0], by rw [doff, h1], by rw [doff, h2]⟩

/-! ## The encode as a function of its arguments -/

theorem overlay_none (buffer : Nat) (bytes : Nat → Nat) (mem : Mem) :
    overlay buffer (fun _ => false) bytes mem = mem := by
  funext a
  simp [overlay]

theorem store_eq_overlay (buffer o : Nat) (bs : List Nat) (mem : Mem) :
    store (buffer + o) bs mem
      = overlay buffer (fun i => decide (o ≤ i ∧ i < o + bs.length))
          (fun i => bs.getD (i - o) 0) mem := by
  funext a
  simp only [store, overlay, decide_eq_true_eq]
  by_cases h : buffer + o ≤ a ∧ a < buffer + o + bs.length
  · rw [if_pos h, if_pos (by omega)]
    congr 1
    omega
  · rw [if_neg h, if_neg (by omega)]

theorem overlay_shift (buffer o : Nat) (written : Nat → Bool) (bytes : Nat → Nat) (mem : Mem) :
    overlay (buffer + o) written bytes mem
      = overlay buffer (fun i => decide (o ≤ i) && written (i - o)) (fun i => bytes (i - o))
          mem := by
  funext a
  simp only [overlay, Bool.and_eq_true, decide_eq_true_eq]
  have e : a - (buffer + o) = a - buffer - o := by omega
  by_cases h : buffer + o ≤ a
  · rw [e]
    by_cases hw : written (a - buffer - o) = true
    · rw [if_pos ⟨h, hw⟩, if_pos ⟨by omega, by omega, hw⟩]
    · rw [if_neg (fun hc => hw hc.2), if_neg (fun hc => hw hc.2.2)]
  · rw [if_neg (fun hc => h hc.1), if_neg (fun hc => h (by omega))]

theorem overlay_overlay (buffer : Nat) (w1 w2 : Nat → Bool) (v1 v2 : Nat → Nat) (mem : Mem) :
    overlay buffer w2 v2 (overlay buffer w1 v1 mem)
      = overlay buffer (fun i => w2 i || w1 i) (fun i => if w2 i = true then v2 i else v1 i)
          mem := by
  funext a
  simp only [overlay, Bool.or_eq_true]
  by_cases hb : buffer ≤ a
  · by_cases h2 : w2 (a - buffer) = true
    · simp [hb, h2]
    · by_cases h1 : w1 (a - buffer) = true
      · simp [hb, h2, h1]
      · simp [hb, h2, h1]
  · simp [hb]

mutual
theorem serialize_process_field_writes (host : Endian) (buffer_len o : Nat) (ok : Bool)
    (f : Field) :
    ∃ (ok2 : Bool) (o2 : Nat) (written : Nat → Bool) (bytes : Nat → Nat),
      (∀ i, o ≤ i → i < o2 → written i = true) ∧
      ∀ (mem : Mem) (buffer : Nat),
        serialize_process_field host buffer buffer_len
            { mem := mem, offset := o, global_success := ok } f
          = { mem := overlay buffer written bytes mem, offset := o2, global_success := ok2 } := by
  cases ok with
  | false =>
    refine ⟨false, o, fun _ => false, fun _ => 0, fun i h1 h2 => by omega, ?_⟩
    intro mem buffer
    rw [serialize_process_field_failed _ _ _ _ _ rfl, overlay_none]
  | true =>
    cases f with
    | prim t v =>
      by_cases hc : (o + t.sizeof) % SIZE_MOD ≤ buffer_len
      · refine ⟨true, (o + t.sizeof) % SIZE_MOD,
          fun i => decide (o ≤ i ∧ i < o + (object_bytes host t (safe_hton t v)).length),
          fun i => (object_bytes host t (safe_hton t v)).getD (i - o) 0, ?_, ?_⟩
        · intro i h1 h2
          have hm := Nat.mod_le (o + t.sizeof) SIZE_MOD
          rw [object_bytes_length]
          simp only [decide_eq_true_eq]
          omega
        · intro mem buffer
          rw [serialize_prim_fits host buffer buffer_len _ t v rfl hc, store_eq_overlay]
      · refine ⟨false, o, fun _ => false, fun _ => 0, fun i h1 h2 => by omega, ?_⟩
        intro mem buffer
        rw [serialize_prim_overflow host buffer buffer_len _ t v rfl (by simp only; omega),
          overlay_none]
    | comp fs =>
      by_cases hc : o < buffer_len
      · obtain ⟨ok1, o1, w1, v1, hw1, h1⟩ :=
          serialize_fold_writes host (buffer_len - o) 0 true fs
        cases ok1 with
        | false =>
          refine ⟨false, o, fun i => decide (o ≤ i) && w1 (i - o), fun i => v1 (i - o),
            fun i h1 h2 => by omega, ?_⟩
          intro mem buffer
          rw [serialize_comp_run host buffer buffer_len _ fs rfl hc]
          simp only [serialize_to_buffer, h1 mem (buffer + o), overlay_shift, if_true]
        | true =>
          refine ⟨true, (o + o1) % SIZE_MOD, fun i => decide (o ≤ i) && w1 (i - o),
            fun i => v1 (i - o), ?_, ?_⟩
          · intro i h1 h2
            have hm := Nat.mod_le (o + o1) SIZE_MOD
            simp only [Bool.and_eq_true, decide_eq_true_eq]
            exact ⟨h1, hw1 (i - o) (Nat.zero_le _) (by omega)⟩
          · intro mem buffer
            rw [serialize_comp_run host buffer buffer_len _ fs rfl hc]
            simp only [serialize_to_buffer, h1 mem (buffer + o), overlay_shift,
              Bool.true_eq_false, if_false]
      · refine ⟨false, o, fun _ => false, fun _ => 0, fun i h1 h2 => by omega, ?_⟩
        intro mem buffer
        rw [serialize_comp_precheck host buffer buffer_len _ fs rfl (by simp only; omega),
          overlay_none]
theorem serialize_fold_writes (host : Endian) (buffer_len o : Nat) (ok : Bool)
    (fs : List Field) :
    ∃ (ok2 : Bool) (o2 : Nat) (written : Nat → Bool) (bytes : Nat → Nat),
      (∀ i, o ≤ i → i < o2 → written i = true) ∧
      ∀ (mem : Mem) (buffer : Nat),
        serialize_fold host buffer buffer_len
            { mem := mem, offset := o, global_success := ok } fs
          = { mem := overlay buffer written bytes mem, offset := o2, global_success := ok2 } := by
  cases fs with
  | nil =>
    refine ⟨ok, o, fun _ => false, fun _ => 0, fun i h1 h2 => by omega, ?_⟩
    intro mem buffer
    simp [serialize_fold, overlay_none]
  | cons f fs =>
    obtain ⟨ok1, o1, w1, v1, hw1, h1⟩ := serialize_process_field_writes host buffer_len o ok f
    obtain ⟨ok2, o2, w2, v2, hw2, h2⟩ := serialize_fold_writes host buffer_len o1 ok1 fs
    refine ⟨ok2, o2, fun i => w2 i || w1 i, fun i => if w2 i = true then v2 i else v1 i, ?_, ?_⟩
    · intro i hi1 hi2
      simp only [Bool.or_eq_true]
      by_cases hlt : i < o1
      · exact Or.inr (hw1 i hi1 hlt)
      · exact Or.inl (hw2 i (by omega) hi2)
    · intro mem buffer
      rw [serialize_fold_cons, h1 mem buffer, h2 (overlay buffer w1 v1 mem) buffer,
        overlay_overlay]
end

/-- C19. Determinism: any two `serialize_to_buffer` runs on a given host with equal field
values in the same order, the same buffer length and the same initial cursor return equal
success flags and equal final cursors, and the two buffers hold equal bytes at every index
of the written range, from the initial cursor up to the final cursor, whatever the two
buffers (at whatever addresses) contained before the calls. Moreover one set of written
indices, which contains that range, serves all runs: they agree on every written index (also
on what a failing composite wrote beyond the final cursor) and each keeps its prior byte at
every other index. -/
theorem serialize_deterministic (host : Endian) (fields : List Field)
    (buffer_len cursor : Nat) :
    ∃ written : Nat → Bool, ∀ (mem1 mem2 : Mem) (buffer1 buffer2 : Nat),
      (serialize_to_buffer host mem1 buffer1 buffer_len cursor fields).global_success
        = (serialize_to_buffer host mem2 buffer2 buffer_len cursor fields).global_success ∧
      (serialize_to_buffer host mem1 buffer1 buffer_len cursor fields).offset
        = (serialize_to_buffer host mem2 buffer2 buffer_len cursor fields).offset ∧
      (∀ i, cursor ≤ i →
        i < (serialize_to_buffer host mem1 buffer1 buffer_len cursor fields).offset →
        (serialize_to_buffer host mem1 buffer1 buffer_len cursor fields).mem (buffer1 + i)
          = (serialize_to_buffer host mem2 buffer2 buffer_len cursor fields).mem (buffer2 + i)) ∧
      (∀ i, cursor ≤ i →
        i < (serialize_to_buffer host mem1 buffer1 buffer_len cursor fields).offset →
        written i = true) ∧
      (∀ i, written i = true →
        (serialize_to_buffer host mem1 buffer1 buffer_len cursor fields).mem (buffer1 + i)
          = (serialize_to_buffer host mem2 buffer2 buffer_len cursor fields).mem (buffer2 + i)) ∧
      (∀ i, written i = false →
        (serialize_to_buffer host mem1 buffer1 buffer_len cursor fields).mem (buffer1 + i)
            = mem1 (buffer1 + i) ∧
        (serialize_to_buffer host mem2 buffer2 buffer_len cursor fields).mem (buffer2 + i)
            = mem2 (buffer2 + i)) := by
  obtain ⟨ok, final, written, bytes, hw, h⟩ :=
    serialize_fold_writes host buffer_len cursor true fields
  refine ⟨written, ?_⟩
  intro mem1 mem2 buffer1 buffer2
  simp only [serialize_to_buffer, h mem1 buffer1, h mem2 buffer2]
  refine ⟨trivial, trivial, ?_, hw, ?_, ?_⟩
  · intro i h1 h2
    simp [overlay, hw i h1 h2]
  · intro i hi
    simp [overlay, hi]
  · intro i hi
    simp [overlay, hi]

/-- C20 (failing input). `SubSystemData::serialize` ignores the value its `consumed`
parameter holds before the call, but `DO178C_FlightData_t::serialize` and `deserialize`
use it as the initial cursor: called on the sample record with a zeroed buffer and
`consumed = 5` instead of 0, `serialize` over 2048 bytes reports 465 instead of 460 and
leaves `buffer[0]` untouched instead of writing `DE`, over 460 bytes it returns false
instead of true, and `deserialize` over 2048 bytes reports 465 instead of 460. -/
theorem flight_count_depends_on_consumed :
    (∀ (host : Endian) (mem : Mem) (s : SubSystemData) (buffer n c : Nat),
      s.serialize host mem buffer n c = s.serialize host mem buffer n 0) ∧
    (DO178C_FlightData_t.sample.serialize .Little (fun _ => 0) 0 2048 0).consumed = 460 ∧
    (DO178C_FlightData_t.sample.serialize .Little (fun _ => 0) 0 2048 5).consumed = 465 ∧
    (DO178C_FlightData_t.sample.serialize .Little (fun _ => 0) 0 2048 0).mem 0 = 0xDE ∧
    (DO178C_FlightData_t.sample.serialize .Little (fun _ => 0) 0 2048 5).mem 0 = 0 ∧
    (DO178C_FlightData_t.sample.serialize .Little (fun _ => 0) 0 460 0).result = true ∧
    (DO178C_FlightData_t.sample.serialize .Little (fun _ => 0) 0 460 5).result = false ∧
    (DO178C_FlightData_t.zero.deserialize .Little (fun _ => 0) 0 2048 0).consumed = 460 ∧
    (DO178C_FlightData_t.zero.deserialize .Little (fun _ => 0) 0 2048 5).consumed = 465 := by
  refine ⟨fun _ _ _ _ _ _ => rfl, ?_⟩
  decide

/-! ## The byte-order helpers of `EndianUtils.h` -/

theorem byteswap_pattern (host : Endian) (t : CType) (v : Int) :
    of_object_bytes host t.sizeof (fun i => (object_bytes host t v).reverse.getD i 0)
      = swap_bytes_int t.sizeof (to_unsigned t.sizeof v) := by
  have hlt := to_unsigned_lt t.sizeof v
  rw [swap_bytes_int_eq_pack _ _ (sizeof_cases t) hlt]
  have hrev : ∀ i, i < t.sizeof → (object_bytes host t v).reverse.getD i 0
      = object_byte host t.sizeof (to_unsigned t.sizeof v) (t.sizeof - 1 - i) := by
    intro i hi
    rw [← object_bytes_safe_hton, object_bytes_getD _ _ _ _ hi, object_byte_swap _ _ _ _ hi]
  have hb : ∀ j, byte_of (to_unsigned t.sizeof v) j % 256 = byte_of (to_unsigned t.sizeof v) j := by
    intro j
    exact Nat.mod_eq_of_lt (byte_of_lt _ _)
  cases host with
  | Little =>
    simp only [of_object_bytes]
    apply pack_congr
    intro i hi
    rw [hrev i hi]
    simp only [object_byte]
    exact hb _
  | Big =>
    simp only [of_object_bytes]
    apply pack_congr
    intro i hi
    rw [hrev (t.sizeof - 1 - i) (by omega)]
    simp only [object_byte]
    rw [hb]
    congr 1
    omega

theorem byteswap_eq_safe_ntoh (host : Endian) (t : CType) (v : Int) :
    EndianUtils.byteswap host t v = safe_ntoh t v := by
  rw [safe_ntoh_eq]
  simp only [EndianUtils.byteswap, byteswap_pattern]

theorem byteswap_byteswap (host : Endian) (t : CType) (v : Int) (hv : t.inRange v) :
    EndianUtils.byteswap host t (EndianUtils.byteswap host t v) = v := by
  rw [byteswap_eq_safe_ntoh, byteswap_eq_safe_ntoh, safe_ntoh_safe_ntoh t v hv]

/-- C21: on either host, for every value `v` of a scalar type, `from_big_endian` is the
same transformation as `to_big_endian` and `from_little_endian` the same as
`to_little_endian`, `byteswap` is its own inverse, and so
`from_big_endian(to_big_endian(v)) == v` and `from_little_endian(to_little_endian(v)) == v`. -/
theorem endian_utils_round_trip (host : Endian) (t : CType) (v : Int) (hv : t.inRange v) :
    EndianUtils.from_big_endian host t (EndianUtils.to_big_endian host t v) = v ∧
    EndianUtils.from_little_endian host t (EndianUtils.to_little_endian host t v) = v ∧
    (∀ w, EndianUtils.from_big_endian host t w = EndianUtils.to_big_endian host t w) ∧
    (∀ w, EndianUtils.from_little_endian host t w = EndianUtils.to_little_endian host t w) ∧
    EndianUtils.byteswap host t (EndianUtils.byteswap host t v) = v := by
  have hbb := byteswap_byteswap host t v hv
  refine ⟨?_, ?_, fun _ => rfl, fun _ => rfl, hbb⟩
  · cases host with
    | Little =>
      simpa [EndianUtils.from_big_endian, EndianUtils.to_big_endian] using hbb
    | Big => simp [EndianUtils.from_big_endian, EndianUtils.to_big_endian]
  · cases host with
    | Little => simp [EndianUtils.from_little_endian, EndianUtils.to_little_endian]
    | Big =>
      simpa [EndianUtils.from_little_endian, EndianUtils.to_little_endian] using hbb

/-- C21 at the `int16_t` value -2 on a big-endian host. -/
theorem endian_utils_round_trip_witness :
    EndianUtils.from_big_endian .Big .i16 (EndianUtils.to_big_endian .Big .i16 (-2)) = -2 ∧
    EndianUtils.from_little_endian .Big .i16 (EndianUtils.to_little_endian .Big .i16 (-2)) = -2 ∧
    (∀ w, EndianUtils.from_big_endian .Big .i16 w = EndianUtils.to_big_endian .Big .i16 w) ∧
    (∀ w, EndianUtils.from_little_endian .Big .i16 w
      = EndianUtils.to_little_endian .Big .i16 w) ∧
    EndianUtils.byteswap .Big .i16 (EndianUtils.byteswap .Big .i16 (-2)) = -2 :=
  endian_utils_round_trip .Big .i16 (-2) (by decide)

theorem from_unsigned_unsigned (t : CType) (hs : t.is_signed = false) (p : Nat) :
    from_unsigned t p = (p : Int) := by
  simp [from_unsigned, hs]

theorem to_unsigned_natCast (size n : Nat) (hn : n < 256 ^ size) :
    to_unsigned size (n : Int) = n := by
  unfold to_unsigned
  have h2 : (2 : Int) ^ (8 * size) = ((256 ^ size : Nat) : Int) := by
    rw [pow_mul]; norm_num
  rw [h2, ← Int.natCast_mod, Int.toNat_natCast, Nat.mod_eq_of_lt hn]

/-- C28: for every unsigned 1-, 2-, 4- or 8-byte integer `v`, on either host, the
shift-and-mask `swap_bytes_int(v)` equals the `std::reverse` based
`EndianUtils::byteswap(v)`; and on a little-endian host `safe_hton(v)` equals
`EndianUtils::to_big_endian(v)`. -/
theorem byte_swaps_agree (host : Endian) (t : CType) (v : Nat)
    (ht : t = .u8 ∨ t = .u16 ∨ t = .u32 ∨ t = .u64) (hv : v < 256 ^ t.sizeof) :
    EndianUtils.byteswap host t (v : Int) = (swap_bytes_int t.sizeof v : Int) ∧
    safe_hton t (v : Int) = EndianUtils.to_big_endian .Little t (v : Int) := by
  have hs : t.is_signed = false := by
    rcases ht with h | h | h | h <;> subst h <;> rfl
  constructor
  · rw [byteswap_eq_safe_ntoh, safe_ntoh_eq, to_unsigned_natCast _ _ hv, from_unsigned_unsigned t hs]
    by_cases h1 : t.sizeof = 1
    · rw [if_pos h1, h1]; simp [swap_bytes_int]
    · rw [if_neg h1]
  · simp only [EndianUtils.to_big_endian, safe_hton]
    rw [if_neg (by decide), byteswap_eq_safe_ntoh]

/-- C28 at the `uint32_t` value 0xDEADBEEF on a little-endian host. -/
theorem byte_swaps_agree_witness :
    EndianUtils.byteswap .Little .u32 ((0xDEADBEEF : Nat) : Int)
      = (swap_bytes_int CType.u32.sizeof 0xDEADBEEF : Int) ∧
    safe_hton .u32 ((0xDEADBEEF : Nat) : Int)
      = EndianUtils.to_big_endian .Little .u32 ((0xDEADBEEF : Nat) : Int) :=
  byte_swaps_agree .Little .u32 0xDEADBEEF (Or.inr (Or.inr (Or.inl rfl))) (by decide)

/-! ## `swap_bytes_int` at signed and unsigned types -/

theorem swap_bytes_int_at_two (t : CType) (hs : t.sizeof = 2) (n : Nat) (hn : n < 2 ^ 16) :
    swap_bytes_int_at t (n : Int) = from_unsigned t (swap_bytes_int 2 n) := by
  have h1 : to_unsigned 4 ((n : Int) * 2 ^ 8) = n <<< 8 := by
    have e : (n : Int) * 2 ^ 8 = ((n * 2 ^ 8 : Nat) : Int) := by push_cast; ring
    rw [e, to_unsigned_natCast 4 _ (by omega), Nat.shiftLeft_eq]
  have h2 : to_unsigned 4 ((n : Int) >>> (8 : Nat)) = n >>> 8 := by
    have e : (n : Int) >>> (8 : Nat) = ((n >>> 8 : Nat) : Int) := rfl
    rw [e, to_unsigned_natCast 4 _ (by rw [Nat.shiftRight_eq_div_pow]; omega)]
  simp only [swap_bytes_int_at, hs, h1, h2]
  simp [swap_bytes_int]

theorem swap_bytes_int_at_eq_safe_ntoh (t : CType) (v : Int)
    (hint : t.is_floating_point = false) (hv : t.inRange v) (hneg : t = .i16 → 0 ≤ v) :
    swap_bytes_int_at t v = safe_ntoh t v := by
  rw [safe_ntoh_eq]
  rcases sizeof_cases t with h | h | h | h
  · simp [swap_bytes_int_at, h]
  · have h0 : 0 ≤ v := by
      cases t <;> simp [CType.sizeof] at h
      · exact hv.1
      · exact hneg rfl
    have hlt : v < 2 ^ 16 := by
      have := hv.2
      cases t <;> simp [CType.sizeof] at h <;> simp [CType.maxVal] at this <;> omega
    obtain ⟨n, rfl⟩ := Int.eq_ofNat_of_zero_le h0
    have hn : n < 2 ^ 16 := by exact_mod_cast hlt
    rw [swap_bytes_int_at_two t h n hn, if_neg (by omega), h,
      to_unsigned_natCast 2 n (by omega)]
  · simp [swap_bytes_int_at, h]
  · simp [swap_bytes_int_at, h]

theorem safe_ntoh_inRange (t : CType) (v : Int) (hb : t ≠ .bool) (hv : t.inRange v) :
    t.inRange (safe_ntoh t v) := by
  rw [safe_ntoh_eq]
  by_cases h1 : t.sizeof = 1
  · rw [if_pos h1]; exact hv
  · rw [if_neg h1]
    have hlt := swap_bytes_int_lt t.sizeof (to_unsigned t.sizeof v) (sizeof_cases t)
      (to_unsigned_lt _ _)
    generalize swap_bytes_int t.sizeof (to_unsigned t.sizeof v) = p at hlt
    cases t <;> simp [CType.sizeof] at h1 hlt <;>
      simp only [from_unsigned, CType.inRange, CType.minVal, CType.maxVal, CType.is_signed,
        CType.sizeof] <;> split <;> simp_all <;> omega

theorem or_mod_two_pow (a b k : Nat) : (a ||| b) % 2 ^ k = a % 2 ^ k ||| b % 2 ^ k := by
  apply Nat.eq_of_testBit_eq
  intro j
  simp only [Nat.testBit_mod_two_pow, Nat.testBit_or]
  by_cases h : j < k <;> simp [h]

theorem or_high_byte (l h : Nat) (hl : l < 256) (hh : h < 256) :
    l * 256 ||| (0xFF00 + h) = 0xFF00 + h := by
  have e1 : (0xFF00 : Nat) + h = 255 <<< 8 ||| h := by
    rw [Nat.shiftLeft_eq, or_eq_add 255 h 8 (by omega)]
    norm_num
  have e2 : l * 256 = l <<< 8 := by rw [Nat.shiftLeft_eq]
  rw [e1, e2]
  apply Nat.eq_of_testBit_eq
  intro j
  simp only [Nat.testBit_or, Nat.testBit_shiftLeft]
  by_cases h8 : 8 ≤ j
  · by_cases h16 : j - 8 < 8
    · have : Nat.testBit 255 (j - 8) = true := by
        have e : (255 : Nat) = 2 ^ 8 - 1 := by norm_num
        rw [e, Nat.testBit_two_pow_sub_one]
        simpa using h16
      simp [h8, this]
    · have : Nat.testBit l (j - 8) = false := by
        apply Nat.testBit_lt_two_pow
        calc l < 2 ^ 8 := by omega
          _ ≤ 2 ^ (j - 8) := Nat.pow_le_pow_right (by decide) (by omega)
      simp [this]
  · simp [h8]

theorem swap_bytes_int_at_negative_int16 (v : Int) (h1 : -32768 ≤ v) (h2 : v < 0) :
    swap_bytes_int_at .i16 v = v / 256 := by
  obtain ⟨p, hp⟩ := Int.eq_ofNat_of_zero_le (show 0 ≤ v + 65536 by omega)
  have hp1 : 32768 ≤ p := by omega
  have hp2 : p < 65536 := by omega
  have hA : to_unsigned 4 (v * 2 ^ 8) = 0xFF000000 + p * 256 := by
    unfold to_unsigned
    have e : v * 2 ^ 8 % (2 : Int) ^ (8 * 4) = ((0xFF000000 + p * 256 : Nat) : Int) := by
      push_cast
      omega
    rw [e, Int.toNat_natCast]
  have hB : to_unsigned 4 (v >>> (8 : Nat)) = 0xFFFFFF00 + p / 256 := by
    unfold to_unsigned
    rw [Int.shiftRight_eq_div_pow]
    have e : v / ((2 ^ 8 : Nat) : Int) % (2 : Int) ^ (8 * 4)
        = ((0xFFFFFF00 + p / 256 : Nat) : Int) := by
      push_cast
      omega
    rw [e, Int.toNat_natCast]
  have hor : (0xFF000000 + p * 256 ||| 0xFFFFFF00 + p / 256) % 2 ^ 16 = 0xFF00 + p / 256 := by
    rw [or_mod_two_pow]
    have ea : (0xFF000000 + p * 256) % 2 ^ 16 = p % 256 * 256 := by omega
    have eb : (0xFFFFFF00 + p / 256) % 2 ^ 16 = 0xFF00 + p / 256 := by omega
    rw [ea, eb]
    exact or_high_byte _ _ (Nat.mod_lt _ (by decide)) (by omega)
  simp only [swap_bytes_int_at, CType.sizeof, hA, hB, hor]
  simp only [from_unsigned, CType.is_signed, CType.sizeof]
  have hge : (2 : Nat) ^ (8 * 2 - 1) ≤ 0xFF00 + p / 256 := by
    norm_num
    omega
  simp only [hge, decide_True, Bool.and_self, if_true]
  push_cast
  omega

theorem object_bytes_injective (host : Endian) (t : CType) (a b : Int)
    (h : object_bytes host t a = object_bytes host t b) :
    to_unsigned t.sizeof a = to_unsigned t.sizeof b := by
  have ha := of_object_bytes_eq host t.sizeof (to_unsigned t.sizeof a)
    (fun i => (object_bytes host t a).getD i 0) (to_unsigned_lt _ _)
    (fun i hi => object_bytes_getD host t a i hi)
  have hb := of_object_bytes_eq host t.sizeof (to_unsigned t.sizeof b)
    (fun i => (object_bytes host t b).getD i 0) (to_unsigned_lt _ _)
    (fun i hi => object_bytes_getD host t b i hi)
  rw [← ha, ← hb, h]

theorem object_bytes_eq_iff (host : Endian) (t : CType) (a b : Int) (ha : t.inRange a)
    (hb : t.inRange b) : object_bytes host t a = object_bytes host t b ↔ a = b := by
  constructor
  · intro h
    rw [← from_unsigned_to_unsigned t a ha, ← from_unsigned_to_unsigned t b hb,
      object_bytes_injective host t a b h]
  · intro h
    rw [h]

theorem safe_ntoh_int16 (v : Int) :
    safe_ntoh .i16 v
      = if 128 ≤ v % 256 then v % 256 * 256 + v % 65536 / 256 - 65536
        else v % 256 * 256 + v % 65536 / 256 := by
  obtain ⟨p, hp⟩ := Int.eq_ofNat_of_zero_le (show 0 ≤ v % 65536 by omega)
  have hp2 : p < 2 ^ 16 := by omega
  have hu : to_unsigned 2 v = p := by
    unfold to_unsigned
    have e : v % (2 : Int) ^ (8 * 2) = (p : Int) := by
      rw [← hp]
      norm_num
    rw [e, Int.toNat_natCast]
  rw [safe_ntoh_eq]
  simp only [CType.sizeof, OfNat.ofNat_ne_one, if_false, hu, swap_bytes_int_two p hp2]
  simp only [from_unsigned, CType.is_signed, CType.sizeof, Bool.true_and, decide_eq_true_eq]
  have hmod : v % 256 = ((p % 256 : Nat) : Int) := by
    push_cast
    omega
  by_cases hc : 128 ≤ p % 256
  · rw [if_pos (by norm_num; omega), if_pos (by omega)]
    push_cast
    omega
  · rw [if_neg (by norm_num; omega), if_neg (by omega)]
    push_cast
    omega

/-- C30 (counterexample): instantiated at `int16_t` and applied to -2 (bytes `FF FE`)
without the cast to `uint16_t`, `swap_bytes_int` returns -1 (bytes `FF FF`), which is not
the reversed byte sequence, and applying it twice does not give -2 back. -/
theorem swap_bytes_int_negative_int16 :
    swap_bytes_int_at .i16 (-2) = -1 ∧
    object_bytes .Little .i16 (swap_bytes_int_at .i16 (-2))
      ≠ (object_bytes .Little .i16 (-2)).reverse ∧
    swap_bytes_int_at .i16 (swap_bytes_int_at .i16 (-2)) ≠ -2 := by
  decide

/-- C30 (amended): for every value `v` of an unsigned 2-, 4- or 8-byte integer type, of
`int32_t` or of `int64_t`, `swap_bytes_int<T>(v)` has the object bytes of `v` in reverse
order and `swap_bytes_int<T>(swap_bytes_int<T>(v)) == v`. For a value `v` of `int16_t` passed
directly, the bytes are reversed exactly when `v` is non-negative or its low byte is `FF`,
and `swap_bytes_int<T>(swap_bytes_int<T>(v)) == v` exactly when `v` is non-negative with a
low byte below `80`, or `v` is -1. -/
theorem swap_bytes_int_reverses_bytes (host : Endian) (t : CType) (v : Int)
    (hint : t.is_floating_point = false) (hsize : t.sizeof ≠ 1) (hv : t.inRange v) :
    (t ≠ .i16 →
      object_bytes host t (swap_bytes_int_at t v) = (object_bytes host t v).reverse ∧
      swap_bytes_int_at t (swap_bytes_int_at t v) = v) ∧
    (t = .i16 →
      (object_bytes host t (swap_bytes_int_at t v) = (object_bytes host t v).reverse
        ↔ (0 ≤ v ∨ v % 256 = 255)) ∧
      (swap_bytes_int_at t (swap_bytes_int_at t v) = v
        ↔ ((0 ≤ v ∧ v % 256 < 128) ∨ v = -1))) := by
  constructor
  · intro h16
    have e := swap_bytes_int_at_eq_safe_ntoh t v hint hv (fun h => absurd h h16)
    have hb : t ≠ .bool := by
      intro hb; subst hb; exact hsize rfl
    constructor
    · rw [e, ← object_bytes_safe_hton, safe_hton]
    · rw [e, swap_bytes_int_at_eq_safe_ntoh t _ hint (safe_ntoh_inRange t v hb hv)
        (fun h => absurd h h16), safe_ntoh_safe_ntoh t v hv]
  · intro h16
    subst h16
    have hr : CType.i16.inRange (safe_ntoh .i16 v) := safe_ntoh_inRange _ v (by decide) hv
    have hn := safe_ntoh_int16 v
    have hv1 : -32768 ≤ v := hv.1
    have hv2 : v ≤ 32767 := hv.2
    rw [← object_bytes_safe_hton, safe_hton]
    by_cases h0 : 0 ≤ v
    · have e := swap_bytes_int_at_eq_safe_ntoh .i16 v rfl hv (fun _ => h0)
      rw [e]
      refine ⟨⟨fun _ => Or.inl h0, fun _ => rfl⟩, ?_⟩
      by_cases hl : v % 256 < 128
      · have hw0 : 0 ≤ safe_ntoh .i16 v := by
          rw [hn, if_neg (by omega)]
          omega
        rw [swap_bytes_int_at_eq_safe_ntoh .i16 _ rfl hr (fun _ => hw0),
          safe_ntoh_safe_ntoh .i16 v hv]
        exact ⟨fun _ => Or.inl ⟨h0, hl⟩, fun _ => rfl⟩
      · have hw : safe_ntoh .i16 v = v % 256 * 256 + v % 65536 / 256 - 65536 := by
          rw [hn, if_pos (by omega)]
        rw [swap_bytes_int_at_negative_int16 _ hr.1 (by rw [hw]; omega), hw]
        constructor
        · intro h
          omega
        · intro h
          omega
    · have hneg : v < 0 := by omega
      have e := swap_bytes_int_at_negative_int16 v hv1 hneg
      rw [e]
      have hwr : CType.i16.inRange (v / 256) := by
        constructor
        · show (-32768 : Int) ≤ v / 256
          omega
        · show v / 256 ≤ (32767 : Int)
          omega
      rw [object_bytes_eq_iff host .i16 _ _ hwr hr, hn,
        swap_bytes_int_at_negative_int16 (v / 256) (by omega) (by omega)]
      constructor
      · split <;> constructor <;> intro h <;> omega
      · constructor <;> intro h <;> omega

/-- C30 (amended) at the `int16_t` value -32513 (bytes `80 FF`, low byte `FF`) on a
little-endian host: the direct call reverses the bytes, and applying it twice does not give
the value back. -/
theorem swap_bytes_int_reverses_bytes_witness :
    (object_bytes .Little .i16 (swap_bytes_int_at .i16 (-32513))
        = (object_bytes .Little .i16 (-32513)).reverse
      ↔ (0 ≤ (-32513 : Int) ∨ (-32513 : Int) % 256 = 255)) ∧
    (swap_bytes_int_at .i16 (swap_bytes_int_at .i16 (-32513)) = -32513
      ↔ ((0 ≤ (-32513 : Int) ∧ (-32513 : Int) % 256 < 128) ∨ (-32513 : Int) = -1)) :=
  (swap_bytes_int_reverses_bytes .Little .i16 (-32513) rfl (by decide) (by decide)).2 rfl

/-! ## The wire size of the flight record -/

/-- C29: for every flight record `V`, `V.trueSize() == 460`, whatever the field values
(any two records have the same size), and the members passed to `serialize_to_buffer`, to
`deserialize_from_buffer` and to `calculate_packed_size` are the same members in the same
order. -/
theorem flight_record_fixed_wire_size (V W : DO178C_FlightData_t) :
    V.trueSize = 460 ∧ V.trueSize = W.trueSize ∧
    DO178C_FlightData_t.serialize_args = DO178C_FlightData_t.deserialize_args ∧
    DO178C_FlightData_t.serialize_args = DO178C_FlightData_t.trueSize_args ∧
    DO178C_FlightData_t.serialize_args.map V.field
      = DO178C_FlightData_t.deserialize_args.map V.field ∧
    DO178C_FlightData_t.serialize_args.map V.field
      = DO178C_FlightData_t.trueSize_args.map V.field := by
  have hd : DO178C_FlightData_t.serialize_args = DO178C_FlightData_t.deserialize_args := by
    rw [deserialize_args_eq]
  have ht : DO178C_FlightData_t.serialize_args = DO178C_FlightData_t.trueSize_args := by
    rw [trueSize_args_eq]
  refine ⟨flight_trueSize V, ?_, hd, ht, ?_, ?_⟩
  · rw [flight_trueSize V, flight_trueSize W]
  · rw [hd]
  · rw [ht]

/-! ## The cursor of a successful call stays inside the buffer -/

mutual
theorem serialize_process_field_offset_le (host : Endian) (buffer buffer_len : Nat)
    (st : SerState) (f : Field) (hst : st.global_success = true)
    (h : (serialize_process_field host buffer buffer_len st f).global_success = true) :
    (serialize_process_field host buffer buffer_len st f).offset ≤ buffer_len := by
  cases f with
  | prim t v =>
    by_cases hc : (st.offset + t.sizeof) % SIZE_MOD ≤ buffer_len
    · rw [serialize_prim_fits host buffer buffer_len st t v hst hc]
      exact hc
    · rw [serialize_prim_overflow host buffer buffer_len st t v hst (by omega)] at h
      simp at h
  | comp fs =>
    by_cases hc : st.offset < buffer_len
    · rw [serialize_comp_run host buffer buffer_len st fs hst hc] at h ⊢
      by_cases hs : (serialize_to_buffer host st.mem (buffer + st.offset)
          (buffer_len - st.offset) 0 fs).global_success = false
      · rw [if_pos hs] at h
        simp at h
      · rw [if_neg hs]
        have hs2 : (serialize_fold host (buffer + st.offset) (buffer_len - st.offset)
            { mem := st.mem, offset := 0, global_success := true } fs).global_success = true := by
          simpa [serialize_to_buffer] using hs
        have ih := serialize_fold_offset_le host (buffer + st.offset) (buffer_len - st.offset)
          { mem := st.mem, offset := 0, global_success := true } fs rfl (Nat.zero_le _) hs2
        simp only [serialize_to_buffer]
        have hm := Nat.mod_le (st.offset + (serialize_fold host (buffer + st.offset)
          (buffer_len - st.offset) { mem := st.mem, offset := 0, global_success := true }
          fs).offset) SIZE_MOD
        omega
    · rw [serialize_comp_precheck host buffer buffer_len st fs hst (by omega)] at h
      simp at h
theorem serialize_fold_offset_le (host : Endian) (buffer buffer_len : Nat) (st : SerState)
    (fs : List Field) (hst : st.global_success = true) (hle : st.offset ≤ buffer_len)
    (h : (serialize_fold host buffer buffer_len st fs).global_success = true) :
    (serialize_fold host buffer buffer_len st fs).offset ≤ buffer_len := by
  cases fs with
  | nil => simpa [serialize_fold] using hle
  | cons f fs =>
    have hf := serialize_fold_success_head host buffer buffer_len st f fs h
    rw [serialize_fold_cons] at h ⊢
    exact serialize_fold_offset_le host buffer buffer_len _ fs hf
      (serialize_process_field_offset_le host buffer buffer_len st f hst hf) h
end

/-! ## Short-circuit, composite pre-check and failure inside a composite -/

/-- C23: once a field has failed (the call over the fields `pre`, up to and including the
failing one, returns false), the fields `post` that follow change nothing: on encode the
memory, the cursor and the flag are those after `pre`; on decode the later fields keep
their values and the cursor stays. For example `(uint32_t, uint8_t)` into a 3-byte buffer
from cursor 0 returns false with cursor 0 and leaves the memory as it was, although the
`uint8_t` alone would fit. -/
theorem short_circuit_after_failure (host : Endian) (mem : Mem) (buffer buffer_len o : Nat)
    (pre post : List Field) (a b : Int)
    (hfail : (serialize_to_buffer host mem buffer buffer_len o pre).global_success = false) :
    serialize_to_buffer host mem buffer buffer_len o (pre ++ post)
      = serialize_to_buffer host mem buffer buffer_len o pre ∧
    deserialize_from_buffer host mem buffer buffer_len o (pre ++ post)
      = ((deserialize_from_buffer host mem buffer buffer_len o pre).1 ++ post,
          (deserialize_from_buffer host mem buffer buffer_len o pre).2) ∧
    (deserialize_from_buffer host mem buffer buffer_len o pre).2.global_success = false ∧
    serialize_to_buffer host mem buffer 3 0 [.prim .u32 a, .prim .u8 b]
      = { mem := mem, offset := 0, global_success := false } ∧
    deserialize_from_buffer host mem buffer 3 0 [.prim .u32 a, .prim .u8 b]
      = ([.prim .u32 a, .prim .u8 b], { offset := 0, global_success := false }) := by
  have hd : (deserialize_from_buffer host mem buffer buffer_len o pre).2.global_success
      = false := by
    simp only [deserialize_from_buffer]
    rw [deserialize_fold_state host mem mem buffer buffer_len o true pre]
    exact hfail
  refine ⟨?_, ?_, hd, ?_, ?_⟩
  · simp only [serialize_to_buffer] at hfail ⊢
    rw [serialize_fold_append, serialize_fold_failed _ _ _ _ _ hfail]
  · simp only [deserialize_from_buffer] at hd ⊢
    rw [deserialize_fold_append, deserialize_fold_failed _ _ _ _ _ _ hd]
  · simp [serialize_to_buffer, serialize_fold, serialize_process_field, SIZE_MOD, CType.sizeof]
  · simp [deserialize_from_buffer, deserialize_fold, deserialize_process_field, SIZE_MOD,
      CType.sizeof]

/-- C23 at `(uint32_t 1, uint8_t 2)` and a 3-byte buffer at address 0 of a zeroed memory. -/
theorem short_circuit_after_failure_witness :
    (serialize_to_buffer .Little (fun _ => 0) 0 3 0 [.prim .u32 1]).global_success = false ∧
    (serialize_to_buffer .Little (fun _ => 0) 0 3 0 ([.prim .u32 1] ++ [.prim .u8 2])
      = serialize_to_buffer .Little (fun _ => 0) 0 3 0 [.prim .u32 1] ∧
    deserialize_from_buffer .Little (fun _ => 0) 0 3 0 ([.prim .u32 1] ++ [.prim .u8 2])
      = ((deserialize_from_buffer .Little (fun _ => 0) 0 3 0 [.prim .u32 1]).1 ++ [.prim .u8 2],
          (deserialize_from_buffer .Little (fun _ => 0) 0 3 0 [.prim .u32 1]).2) ∧
    (deserialize_from_buffer .Little (fun _ => 0) 0 3 0 [.prim .u32 1]).2.global_success
      = false ∧
    serialize_to_buffer .Little (fun _ => 0) 0 3 0 [.prim .u32 1, .prim .u8 2]
      = { mem := fun _ => 0, offset := 0, global_success := false } ∧
    deserialize_from_buffer .Little (fun _ => 0) 0 3 0 [.prim .u32 1, .prim .u8 2]
      = ([.prim .u32 1, .prim .u8 2], { offset := 0, global_success := false })) :=
  ⟨by decide, short_circuit_after_failure .Little (fun _ => 0) 0 3 0 [.prim .u32 1]
    [.prim .u8 2] 1 2 (by decide)⟩

/-- C24: when the engine reaches a composite field with `cursor >= buffer_len`, encode and
decode record failure and leave the memory, the field and the cursor as they are (the
composite is not called); when `cursor < buffer_len` the composite runs on the sub-buffer
at `buffer + cursor` of length `buffer_len - cursor` from count 0, and if it succeeds the
cursor advances by exactly the count it reports. -/
theorem composite_pre_check (host : Endian) (mem : Mem) (buffer buffer_len cursor : Nat)
    (members : List Field) (hlen : buffer_len < SIZE_MOD) :
    (buffer_len ≤ cursor →
      serialize_to_buffer host mem buffer buffer_len cursor [.comp members]
        = { mem := mem, offset := cursor, global_success := false } ∧
      deserialize_from_buffer host mem buffer buffer_len cursor [.comp members]
        = ([.comp members], { offset := cursor, global_success := false })) ∧
    (cursor < buffer_len →
      ((serialize_to_buffer host mem (buffer + cursor) (buffer_len - cursor) 0
          members).global_success = true →
        serialize_to_buffer host mem buffer buffer_len cursor [.comp members]
          = { mem := (serialize_to_buffer host mem (buffer + cursor) (buffer_len - cursor) 0
                members).mem
              offset := cursor + (serialize_to_buffer host mem (buffer + cursor)
                (buffer_len - cursor) 0 members).offset
              global_success := true }) ∧
      ((deserialize_from_buffer host mem (buffer + cursor) (buffer_len - cursor) 0
          members).2.global_success = true →
        deserialize_from_buffer host mem buffer buffer_len cursor [.comp members]
          = ([.comp (deserialize_from_buffer host mem (buffer + cursor) (buffer_len - cursor) 0
                members).1],
              { offset := cursor + (deserialize_from_buffer host mem (buffer + cursor)
                  (buffer_len - cursor) 0 members).2.offset
                global_success := true }))) := by
  constructor
  · intro hc
    constructor
    · simp only [serialize_to_buffer, serialize_fold]
      rw [serialize_comp_precheck host buffer buffer_len _ members rfl hc]
    · simp only [deserialize_from_buffer, deserialize_fold]
      rw [deserialize_comp_precheck host mem buffer buffer_len _ members rfl hc]
  · intro hc
    have hst := deserialize_fold_state host mem mem (buffer + cursor) (buffer_len - cursor) 0
      true members
    constructor
    · intro hs
      have hle := serialize_fold_offset_le host (buffer + cursor) (buffer_len - cursor)
        { mem := mem, offset := 0, global_success := true } members rfl (Nat.zero_le _) hs
      have hmod : (cursor + (serialize_to_buffer host mem (buffer + cursor)
          (buffer_len - cursor) 0 members).offset) % SIZE_MOD
          = cursor + (serialize_to_buffer host mem (buffer + cursor)
            (buffer_len - cursor) 0 members).offset := by
        apply Nat.mod_eq_of_lt
        simp only [serialize_to_buffer]
        omega
      conv_lhs => simp only [serialize_to_buffer, serialize_fold]
      rw [serialize_comp_run host buffer buffer_len _ members rfl hc, if_neg (by simp [hs]),
        hmod]
    · intro hs
      have hs2 : (serialize_fold host (buffer + cursor) (buffer_len - cursor)
          { mem := mem, offset := 0, global_success := true } members).global_success
          = true := by
        simp only [deserialize_from_buffer, hst] at hs
        exact hs
      have hle := serialize_fold_offset_le host (buffer + cursor) (buffer_len - cursor)
        { mem := mem, offset := 0, global_success := true } members rfl (Nat.zero_le _) hs2
      have hoff : (deserialize_from_buffer host mem (buffer + cursor) (buffer_len - cursor) 0
          members).2.offset = (serialize_fold host (buffer + cursor) (buffer_len - cursor)
          { mem := mem, offset := 0, global_success := true } members).offset := by
        simp only [deserialize_from_buffer, hst]
      have hmod : (cursor + (deserialize_from_buffer host mem (buffer + cursor)
          (buffer_len - cursor) 0 members).2.offset) % SIZE_MOD
          = cursor + (deserialize_from_buffer host mem (buffer + cursor)
            (buffer_len - cursor) 0 members).2.offset := by
        apply Nat.mod_eq_of_lt
        rw [hoff]
        omega
      conv_lhs => simp only [deserialize_from_buffer, deserialize_fold]
      rw [deserialize_comp_run host mem buffer buffer_len _ members rfl hc,
        if_neg (by simp [hs]), hmod]

/-- C24 at a `SubSystemData` in a 10-byte buffer of a zeroed memory: reached with cursor 10
it is refused, reached with cursor 4 it succeeds and the cursor becomes 4 plus the count. -/
theorem composite_pre_check_witness :
    (serialize_to_buffer .Little (fun _ => 0) 0 10 10 [(SubSystemData.mk 101 7).toField]
        = { mem := fun _ => 0, offset := 10, global_success := false } ∧
      deserialize_from_buffer .Little (fun _ => 0) 0 10 10 [(SubSystemData.mk 101 7).toField]
        = ([(SubSystemData.mk 101 7).toField], { offset := 10, global_success := false })) ∧
    ((serialize_to_buffer .Little (fun _ => 0) (0 + 4) (10 - 4) 0
          (SubSystemData.mk 101 7).fields).global_success = true ∧
      serialize_to_buffer .Little (fun _ => 0) 0 10 4 [.comp (SubSystemData.mk 101 7).fields]
          = { mem := (serialize_to_buffer .Little (fun _ => 0) (0 + 4) (10 - 4) 0
                (SubSystemData.mk 101 7).fields).mem
              offset := 4 + (serialize_to_buffer .Little (fun _ => 0) (0 + 4) (10 - 4) 0
                (SubSystemData.mk 101 7).fields).offset
              global_success := true }) ∧
    ((deserialize_from_buffer .Little (fun _ => 0) (0 + 4) (10 - 4) 0
          (SubSystemData.mk 101 7).fields).2.global_success = true ∧
      deserialize_from_buffer .Little (fun _ => 0) 0 10 4 [.comp (SubSystemData.mk 101 7).fields]
          = ([.comp (deserialize_from_buffer .Little (fun _ => 0) (0 + 4) (10 - 4) 0
                (SubSystemData.mk 101 7).fields).1],
              { offset := 4 + (deserialize_from_buffer .Little (fun _ => 0) (0 + 4) (10 - 4) 0
                  (SubSystemData.mk 101 7).fields).2.offset
                global_success := true })) :=
  ⟨(composite_pre_check .Little (fun _ => 0) 0 10 10 (SubSystemData.mk 101 7).fields
      (by decide)).1 (by decide),
    ⟨by decide, ((composite_pre_check .Little (fun _ => 0) 0 10 4 (SubSystemData.mk 101 7).fields
      (by decide)).2 (by decide)).1 (by decide)⟩,
    ⟨by decide, ((composite_pre_check .Little (fun _ => 0) 0 10 4 (SubSystemData.mk 101 7).fields
      (by decide)).2 (by decide)).2 (by decide)⟩⟩

/-- C25: when the fields `pre` succeed and the composite after them is reached inside the
buffer but its own `serialize` returns false, the enclosing encode returns false with the
cursor at the offset where the composite began and with the memory as the composite left
it; the enclosing decode returns false with the same cursor, the composite holding the
sub-fields its own `deserialize` populated, and later fields untouched. For example
`(uint32_t id, SubSystemData sub)` into a 9-byte buffer from cursor 0 returns false with
cursor 4 while bytes 4 and 5 hold the encoded `subId`. -/
theorem failure_inside_composite (host : Endian) (mem : Mem) (buffer buffer_len o : Nat)
    (pre members post : List Field) (id subId temperature : Int)
    (hpre : (serialize_to_buffer host mem buffer buffer_len o pre).global_success = true)
    (hc : (serialize_to_buffer host mem buffer buffer_len o pre).offset < buffer_len)
    (hsub : (serialize_to_buffer host (serialize_to_buffer host mem buffer buffer_len o pre).mem
      (buffer + (serialize_to_buffer host mem buffer buffer_len o pre).offset)
      (buffer_len - (serialize_to_buffer host mem buffer buffer_len o pre).offset) 0
      members).global_success = false) :
    serialize_to_buffer host mem buffer buffer_len o (pre ++ Field.comp members :: post)
      = { mem := (serialize_to_buffer host
              (serialize_to_buffer host mem buffer buffer_len o pre).mem
              (buffer + (serialize_to_buffer host mem buffer buffer_len o pre).offset)
              (buffer_len - (serialize_to_buffer host mem buffer buffer_len o pre).offset) 0
              members).mem
          offset := (serialize_to_buffer host mem buffer buffer_len o pre).offset
          global_success := false } ∧
    deserialize_from_buffer host mem buffer buffer_len o (pre ++ Field.comp members :: post)
      = ((deserialize_from_buffer host mem buffer buffer_len o pre).1 ++
            Field.comp (deserialize_from_buffer host mem
              (buffer + (serialize_to_buffer host mem buffer buffer_len o pre).offset)
              (buffer_len - (serialize_to_buffer host mem buffer buffer_len o pre).offset) 0
              members).1 :: post,
          { offset := (serialize_to_buffer host mem buffer buffer_len o pre).offset
            global_success := false }) ∧
    (serialize_to_buffer host mem buffer 9 0 (scenario_fields id subId temperature)).global_success
      = false ∧
    (serialize_to_buffer host mem buffer 9 0 (scenario_fields id subId temperature)).offset
      = 4 ∧
    load (serialize_to_buffer host mem buffer 9 0 (scenario_fields id subId temperature)).mem
      (buffer + 4) 2 = wire_field host (.prim .u16 subId) := by
  refine ⟨?_, ?_, ?_, ?_, ?_⟩
  · simp only [serialize_to_buffer] at hpre hc hsub ⊢
    rw [serialize_fold_append, serialize_fold_cons,
      serialize_comp_run host buffer buffer_len _ members hpre hc]
    simp only [serialize_to_buffer]
    rw [if_pos hsub, serialize_fold_failed _ _ _ _ _ rfl]
  · have hst := deserialize_fold_state host mem mem buffer buffer_len o true pre
    simp only [serialize_to_buffer] at hpre hc hsub
    simp only [serialize_to_buffer, deserialize_from_buffer]
    have hd : (deserialize_fold host mem buffer buffer_len
        { offset := o, global_success := true } pre).2
        = { offset := (serialize_fold host buffer buffer_len
              { mem := mem, offset := o, global_success := true } pre).offset
            global_success := true } := by
      rw [hst, hpre]
    have hsubd : (deserialize_fold host mem (buffer + (serialize_fold host buffer buffer_len
          { mem := mem, offset := o, global_success := true } pre).offset)
        (buffer_len - (serialize_fold host buffer buffer_len
          { mem := mem, offset := o, global_success := true } pre).offset)
        { offset := 0, global_success := true } members).2.global_success = false := by
      rw [deserialize_fold_state host mem (serialize_fold host buffer buffer_len
          { mem := mem, offset := o, global_success := true } pre).mem]
      exact hsub
    rw [deserialize_fold_append, hd, deserialize_fold_cons,
      deserialize_comp_run host mem buffer buffer_len _ members rfl hc]
    simp only [deserialize_from_buffer]
    rw [if_pos hsubd, deserialize_fold_failed host mem buffer buffer_len post _ rfl]
  · simp [scenario_fields, SubSystemData.toField, SubSystemData.fields, serialize_to_buffer,
      serialize_fold, serialize_process_field, SIZE_MOD, CType.sizeof]
  · simp [scenario_fields, SubSystemData.toField, SubSystemData.fields, serialize_to_buffer,
      serialize_fold, serialize_process_field, SIZE_MOD, CType.sizeof]
  · have hm : (serialize_to_buffer host mem buffer 9 0
        (scenario_fields id subId temperature)).mem
        = store (buffer + 4) (object_bytes host .u16 (safe_hton .u16 subId))
            (store buffer (object_bytes host .u32 (safe_hton .u32 id)) mem) := by
      simp [scenario_fields, SubSystemData.toField, SubSystemData.fields, serialize_to_buffer,
        serialize_fold, serialize_process_field, SIZE_MOD, CType.sizeof,
        safe_write_to_buffer_eq_store]
    have hl := load_store (buffer + 4) (object_bytes host .u16 (safe_hton .u16 subId))
      (store buffer (object_bytes host .u32 (safe_hton .u32 id)) mem)
    rw [object_bytes_length] at hl
    rw [hm]
    exact hl

/-- C25 at `(uint32_t 1, SubSystemData{101, 7})`, a 9-byte buffer at address 0 of a zeroed
memory and cursor 0. -/
theorem failure_inside_composite_witness :
    (serialize_to_buffer .Little (fun _ => 0) 0 9 0 [.prim .u32 1]).global_success = true ∧
    (serialize_to_buffer .Little (fun _ => 0) 0 9 0 [.prim .u32 1]).offset = 4 ∧
    (serialize_to_buffer .Little (fun _ => 0) 0 9 0
      ([.prim .u32 1] ++ Field.comp (SubSystemData.mk 101 7).fields :: [])).global_success
      = false ∧
    (serialize_to_buffer .Little (fun _ => 0) 0 9 0
      ([.prim .u32 1] ++ Field.comp (SubSystemData.mk 101 7).fields :: [])).offset = 4 ∧
    load (serialize_to_buffer .Little (fun _ => 0) 0 9 0 (scenario_fields 1 101 7)).mem
      (0 + 4) 2 = [0, 101] :=
  ⟨by decide, by decide,
    by
      rw [(failure_inside_composite .Little (fun _ => 0) 0 9 0 [.prim .u32 1]
        (SubSystemData.mk 101 7).fields [] 1 101 7 (by decide) (by decide) (by decide)).1],
    by
      rw [(failure_inside_composite .Little (fun _ => 0) 0 9 0 [.prim .u32 1]
        (SubSystemData.mk 101 7).fields [] 1 101 7 (by decide) (by decide) (by decide)).1]
      decide,
    by
      rw [(failure_inside_composite .Little (fun _ => 0) 0 9 0 [.prim .u32 1]
        (SubSystemData.mk 101 7).fields [] 1 101 7 (by decide) (by decide)
        (by decide)).2.2.2.2]
      decide⟩

/-! ## The frame of an encode -/

mutual
theorem serialize_process_field_frame (host : Endian) (buffer buffer_len : Nat) (st : SerState)
    (f : Field) (hst : st.global_success = true) (hrep : st.offset + f.width < SIZE_MOD)
    (h : (serialize_process_field host buffer buffer_len st f).global_success = true) :
    (serialize_process_field host buffer buffer_len st f).offset = st.offset + f.width ∧
    ∀ a, a < buffer + st.offset ∨ buffer + st.offset + f.width ≤ a →
      (serialize_process_field host buffer buffer_len st f).mem a = st.mem a := by
  cases f with
  | prim t v =>
    simp only [Field.width] at hrep ⊢
    by_cases hc : (st.offset + t.sizeof) % SIZE_MOD ≤ buffer_len
    · rw [serialize_prim_fits host buffer buffer_len st t v hst hc]
      refine ⟨Nat.mod_eq_of_lt hrep, ?_⟩
      intro a ha
      simp only
      apply store_apply_outside
      rw [object_bytes_length]
      omega
    · rw [serialize_prim_overflow host buffer buffer_len st t v hst (by omega)] at h
      simp at h
  | comp fs =>
    simp only [Field.width] at hrep ⊢
    by_cases hc : st.offset < buffer_len
    · rw [serialize_comp_run host buffer buffer_len st fs hst hc] at h ⊢
      by_cases hs : (serialize_to_buffer host st.mem (buffer + st.offset)
          (buffer_len - st.offset) 0 fs).global_success = false
      · rw [if_pos hs] at h
        simp at h
      · rw [if_neg hs]
        have hs2 : (serialize_fold host (buffer + st.offset) (buffer_len - st.offset)
            { mem := st.mem, offset := 0, global_success := true } fs).global_success = true := by
          simpa [serialize_to_buffer] using hs
        have ih := serialize_fold_frame host (buffer + st.offset) (buffer_len - st.offset)
          { mem := st.mem, offset := 0, global_success := true } fs rfl
          (by simp only; omega) hs2
        simp only [serialize_to_buffer, Nat.zero_add, Nat.add_zero] at ih ⊢
        refine ⟨by rw [ih.1]; exact Nat.mod_eq_of_lt hrep, ?_⟩
        intro a ha
        exact ih.2 a ha
    · rw [serialize_comp_precheck host buffer buffer_len st fs hst (by omega)] at h
      simp at h
theorem serialize_fold_frame (host : Endian) (buffer buffer_len : Nat) (st : SerState)
    (fs : List Field) (hst : st.global_success = true) (hrep : st.offset + widths fs < SIZE_MOD)
    (h : (serialize_fold host buffer buffer_len st fs).global_success = true) :
    (serialize_fold host buffer buffer_len st fs).offset = st.offset + widths fs ∧
    ∀ a, a < buffer + st.offset ∨ buffer + st.offset + widths fs ≤ a →
      (serialize_fold host buffer buffer_len st fs).mem a = st.mem a := by
  cases fs with
  | nil => simp [serialize_fold, widths]
  | cons f fs =>
    simp only [widths] at hrep ⊢
    have hf := serialize_fold_success_head host buffer buffer_len st f fs h
    have h1 := serialize_process_field_frame host buffer buffer_len st f hst (by omega) hf
    rw [serialize_fold_cons] at h ⊢
    have h2 := serialize_fold_frame host buffer buffer_len _ fs hf (by rw [h1.1]; omega) h
    rw [h1.1] at h2
    refine ⟨by rw [h2.1]; omega, ?_⟩
    intro a ha
    rw [h2.2 a (by omega), h1.2 a (by omega)]
end

theorem serialize_fold_prims_frame (host : Endian) (buffer buffer_len : Nat)
    (l : List (CType × Int)) :
    ∀ st : SerState, st.offset + widths (prim_fields l) < SIZE_MOD →
      st.offset ≤ (serialize_fold host buffer buffer_len st (prim_fields l)).offset ∧
      ∀ a, buffer + (serialize_fold host buffer buffer_len st (prim_fields l)).offset ≤ a →
        (serialize_fold host buffer buffer_len st (prim_fields l)).mem a = st.mem a := by
  induction l with
  | nil =>
    intro st _
    simp [prim_fields, serialize_fold]
  | cons p l ih =>
    intro st hrep
    rw [prim_fields_cons] at hrep ⊢
    simp only [widths, Field.width] at hrep
    rw [serialize_fold_cons]
    by_cases hst : st.global_success = true
    · by_cases hc : (st.offset + p.1.sizeof) % SIZE_MOD ≤ buffer_len
      · rw [serialize_prim_fits host buffer buffer_len st p.1 p.2 hst hc,
          Nat.mod_eq_of_lt (by omega)]
        have h2 := ih ⟨store (buffer + st.offset) (object_bytes host p.1 (safe_hton p.1 p.2))
          st.mem, st.offset + p.1.sizeof, true⟩ (by simp only; omega)
        simp only at h2
        refine ⟨by omega, ?_⟩
        intro a ha
        rw [h2.2 a ha]
        apply store_apply_outside
        rw [object_bytes_length]
        omega
      · rw [serialize_prim_overflow host buffer buffer_len st p.1 p.2 hst (by omega),
          serialize_fold_failed _ _ _ _ _ rfl]
        simp
    · have hf : st.global_success = false := by simpa using hst
      rw [serialize_process_field_failed _ _ _ _ _ hf, serialize_fold_failed _ _ _ _ _ hf]
      simp

/-- The frame of an encode whose initial cursor plus the widths of its fields stays
below `2 ^ 64`: a call that returns true leaves every byte below `buffer + c0` and every
byte at or above `buffer + c1` as it was, and a call over primitive fields, whether it
returns true or false, leaves every byte at or above `buffer + c1` as it was. -/
theorem encode_frame_without_wrap (host : Endian) (mem : Mem) (buffer buffer_len c0 : Nat)
    (args : List Field) (l : List (CType × Int)) :
    (c0 + widths args < SIZE_MOD →
      (serialize_to_buffer host mem buffer buffer_len c0 args).global_success = true →
      ∀ a, a < buffer + c0 ∨
          buffer + (serialize_to_buffer host mem buffer buffer_len c0 args).offset ≤ a →
        (serialize_to_buffer host mem buffer buffer_len c0 args).mem a = mem a) ∧
    (c0 + widths (prim_fields l) < SIZE_MOD →
      ∀ a, buffer + (serialize_to_buffer host mem buffer buffer_len c0 (prim_fields l)).offset
          ≤ a →
        (serialize_to_buffer host mem buffer buffer_len c0 (prim_fields l)).mem a = mem a) := by
  constructor
  · intro hrep hok a ha
    have h := serialize_fold_frame host buffer buffer_len
      { mem := mem, offset := c0, global_success := true } args rfl hrep hok
    simp only [serialize_to_buffer] at ha ⊢
    rw [h.1] at ha
    simp only at ha
    exact h.2 a (by simp only; omega)
  · intro hrep a ha
    exact (serialize_fold_prims_frame host buffer buffer_len l
      { mem := mem, offset := c0, global_success := true } hrep).2 a ha

/-- C26 (failing input): `serialize_to_buffer` over `(uint32_t, uint8_t)` with an 8-byte
buffer at address 0 of a zeroed memory and the initial cursor `c0 = 2 ^ 64 - 2` returns
true with the final cursor `c1 = 3`, and the byte at index 2, which is below `c0`, has
changed from 0 to 0xAA. -/
theorem encode_frame_broken_by_cursor_wrap :
    (serialize_to_buffer .Little (fun _ => 0) 0 8 (2 ^ 64 - 2)
      [.prim .u32 0x01020304, .prim .u8 0xAA]).global_success = true ∧
    (serialize_to_buffer .Little (fun _ => 0) 0 8 (2 ^ 64 - 2)
      [.prim .u32 0x01020304, .prim .u8 0xAA]).offset = 3 ∧
    2 < 2 ^ 64 - 2 ∧
    (serialize_to_buffer .Little (fun _ => 0) 0 8 (2 ^ 64 - 2)
      [.prim .u32 0x01020304, .prim .u8 0xAA]).mem 2 = 0xAA ∧
    (fun _ => 0 : Mem) 2 = 0 := by
  decide

/-! ## Encoding what was decoded -/

theorem of_object_bytes_lt (host : Endian) (size : Nat) (b : Nat → Nat) :
    of_object_bytes host size b < 256 ^ size := by
  cases host <;> simp only [of_object_bytes] <;> apply pack_lt <;> intro i _ <;>
    exact Nat.mod_lt _ (by decide)

theorem object_byte_of_object_bytes (host : Endian) (size : Nat) (b : Nat → Nat) (i : Nat)
    (hi : i < size) :
    object_byte host size (of_object_bytes host size b) i = b i % 256 := by
  cases host with
  | Little =>
    simp only [object_byte, of_object_bytes]
    rw [byte_of_pack size _ (fun j _ => Nat.mod_lt _ (by decide)) i hi]
  | Big =>
    simp only [object_byte, of_object_bytes]
    rw [byte_of_pack size _ (fun j _ => Nat.mod_lt _ (by decide)) (size - 1 - i) (by omega)]
    congr 2
    omega

theorem from_unsigned_inRange (t : CType) (p : Nat) (hb : t ≠ .bool) (hp : p < 256 ^ t.sizeof) :
    t.inRange (from_unsigned t p) := by
  cases t <;> simp [CType.sizeof] at hp <;>
    simp only [from_unsigned, CType.inRange, CType.minVal, CType.maxVal, CType.is_signed,
      CType.sizeof] <;> first | exact absurd rfl hb | (split <;> simp_all <;> omega)

theorem decoded_at_inRange (host : Endian) (mem : Mem) (a : Nat) (t : CType) (hb : t ≠ .bool) :
    t.inRange (decoded_at host mem a t) := by
  unfold decoded_at safe_read_from_buffer
  exact safe_ntoh_inRange t _ hb (from_unsigned_inRange t _ hb (of_object_bytes_lt _ _ _))

theorem to_unsigned_hton_decoded_at (host : Endian) (mem : Mem) (a : Nat) (t : CType) :
    to_unsigned t.sizeof (safe_hton t (decoded_at host mem a t))
      = of_object_bytes host t.sizeof (fun i => mem (a + i)) := by
  unfold decoded_at safe_read_from_buffer safe_hton
  have hp := of_object_bytes_lt host t.sizeof (fun i => mem (a + i))
  rw [to_unsigned_safe_ntoh, to_unsigned_safe_ntoh, to_unsigned_from_unsigned t _ hp,
    swap_bytes_int_involutive _ _ (sizeof_cases t) hp]

theorem reencode_prim (host : Endian) (mem : Mem) (a : Nat) (t : CType) :
    object_bytes host t (safe_hton t (decoded_at host mem a t))
      = (load mem a t.sizeof).map (fun x => x % 256) := by
  unfold object_bytes load
  rw [to_unsigned_hton_decoded_at, List.map_map]
  apply List.map_congr_left
  intro i hi
  rw [List.mem_range] at hi
  simp only [Function.comp]
  rw [object_byte_of_object_bytes host t.sizeof _ i hi]

theorem load_add (mem : Mem) (base n k : Nat) :
    load mem base (n + k) = load mem base n ++ load mem (base + n) k := by
  unfold load
  rw [List.range_add, List.map_append, List.map_map]
  congr 1
  apply List.map_congr_left
  intro i _
  simp only [Function.comp]
  rw [Nat.add_assoc]

mutual
theorem deserialize_process_field_shape (host : Endian) (mem : Mem) (buffer buffer_len : Nat)
    (st : DeserState) (t : Field) :
    (deserialize_process_field host mem buffer buffer_len st t).1.shape = t.shape := by
  cases t with
  | prim ty v =>
    simp only [deserialize_process_field]
    split
    · rfl
    · split <;> rfl
  | comp ts =>
    simp only [deserialize_process_field]
    split
    · rfl
    · split
      · rfl
      · have ih := deserialize_fold_shapes host mem (buffer + st.offset) (buffer_len - st.offset)
          { offset := 0, global_success := true } ts
        split <;> simp only [Field.shape, ih]
theorem deserialize_fold_shapes (host : Endian) (mem : Mem) (buffer buffer_len : Nat)
    (st : DeserState) (ts : List Field) :
    shapes (deserialize_fold host mem buffer buffer_len st ts).1 = shapes ts := by
  cases ts with
  | nil => simp [deserialize_fold]
  | cons t ts =>
    rw [deserialize_fold_cons]
    simp only [shapes]
    rw [deserialize_process_field_shape host mem buffer buffer_len st t,
      deserialize_fold_shapes host mem buffer buffer_len _ ts]
end

mutual
theorem reencode_field (host : Endian) (mem : Mem) (buffer buffer_len o : Nat) (t : Field)
    (hsolid : t.solid = true) (hfit : o + t.width ≤ buffer_len) (hrep : o + t.width < SIZE_MOD) :
    wire_field host (deserialize_process_field host mem buffer buffer_len
        { offset := o, global_success := true } t).1
      = (load mem (buffer + o) t.width).map (fun x => x % 256) := by
  cases t with
  | prim ty v =>
    simp only [Field.width] at hfit hrep ⊢
    rw [deserialize_prim_fits host mem buffer buffer_len _ ty v rfl
      (by simp only; rw [Nat.mod_eq_of_lt hrep]; exact hfit)]
    simp only [wire_field]
    exact reencode_prim host mem (buffer + o) ty
  | comp ts =>
    simp only [Field.width] at hfit hrep ⊢
    simp only [Field.solid, Bool.and_eq_true, decide_eq_true_eq] at hsolid
    rw [deserialize_comp_run host mem buffer buffer_len _ ts rfl (by simp only; omega)]
    simp only [wire_field, deserialize_from_buffer]
    have ih := reencode_fold host mem (buffer + o) (buffer_len - o) 0 ts hsolid.2 (by omega)
      (by omega)
    rw [ih, Nat.add_zero]
theorem reencode_fold (host : Endian) (mem : Mem) (buffer buffer_len o : Nat) (ts : List Field)
    (hsolid : solid_list ts = true) (hfit : o + widths ts ≤ buffer_len)
    (hrep : o + widths ts < SIZE_MOD) :
    wire_fields host (deserialize_fold host mem buffer buffer_len
        { offset := o, global_success := true } ts).1
      = (load mem (buffer + o) (widths ts)).map (fun x => x % 256) := by
  cases ts with
  | nil => simp [deserialize_fold, wire_fields, widths, load]
  | cons t ts =>
    simp only [widths] at hfit hrep ⊢
    simp only [solid_list, Bool.and_eq_true] at hsolid
    rw [deserialize_fold_cons]
    simp only [wire_fields]
    rw [reencode_field host mem buffer buffer_len o t hsolid.1 (by omega) (by omega),
      deserialize_process_field_fits_state host mem buffer buffer_len o t hsolid.1 (by omega)
        (by omega),
      reencode_fold host mem buffer buffer_len (o + t.width) ts hsolid.2 (by omega) (by omega),
      load_add, List.map_append, Nat.add_assoc]
end

mutual
theorem deserialize_process_field_valid (host : Endian) (mem : Mem) (buffer buffer_len o : Nat)
    (t : Field) (hb : t.bool_free = true) (hsolid : t.solid = true)
    (hfit : o + t.width ≤ buffer_len) (hrep : o + t.width < SIZE_MOD) :
    (deserialize_process_field host mem buffer buffer_len
        { offset := o, global_success := true } t).1.valid := by
  cases t with
  | prim ty v =>
    simp only [Field.width] at hfit hrep
    simp only [Field.bool_free, decide_eq_true_eq] at hb
    rw [deserialize_prim_fits host mem buffer buffer_len _ ty v rfl
      (by simp only; rw [Nat.mod_eq_of_lt hrep]; exact hfit)]
    simp only [Field.valid]
    exact decoded_at_inRange host mem (buffer + o) ty hb
  | comp ts =>
    simp only [Field.width] at hfit hrep
    simp only [Field.bool_free] at hb
    simp only [Field.solid, Bool.and_eq_true, decide_eq_true_eq] at hsolid
    rw [deserialize_comp_run host mem buffer buffer_len _ ts rfl (by simp only; omega)]
    simp only [Field.valid, deserialize_from_buffer]
    exact deserialize_fold_valid host mem (buffer + o) (buffer_len - o) 0 ts hb hsolid.2
      (by omega) (by omega)
theorem deserialize_fold_valid (host : Endian) (mem : Mem) (buffer buffer_len o : Nat)
    (ts : List Field) (hb : bool_free_list ts = true) (hsolid : solid_list ts = true)
    (hfit : o + widths ts ≤ buffer_len) (hrep : o + widths ts < SIZE_MOD) :
    valid_list (deserialize_fold host mem buffer buffer_len
        { offset := o, global_success := true } ts).1 := by
  cases ts with
  | nil => simp [deserialize_fold, valid_list]
  | cons t ts =>
    simp only [widths] at hfit hrep
    simp only [solid_list, Bool.and_eq_true] at hsolid
    simp only [bool_free_list, Bool.and_eq_true] at hb
    rw [deserialize_fold_cons]
    simp only [valid_list]
    refine ⟨deserialize_process_field_valid host mem buffer buffer_len o t hb.1 hsolid.1
      (by omega) (by omega), ?_⟩
    rw [deserialize_process_field_fits_state host mem buffer buffer_len o t hsolid.1 (by omega)
      (by omega)]
    exact deserialize_fold_valid host mem buffer buffer_len (o + t.width) ts hb.2 hsolid.2
      (by omega) (by omega)
end

theorem map_mod_of_lt (l : List Nat) (h : ∀ x, x ∈ l → x < 256) :
    l.map (fun x => x % 256) = l := by
  induction l with
  | nil => rfl
  | cons a l ih =>
    simp only [List.map_cons]
    rw [Nat.mod_eq_of_lt (h a (List.mem_cons_self a l)),
      ih (fun x hx => h x (List.mem_cons_of_mem a hx))]

theorem load_map_mod (mem : Mem) (base n : Nat) (h : ∀ i, i < n → mem (base + i) < 256) :
    (load mem base n).map (fun x => x % 256) = load mem base n := by
  apply map_mod_of_lt
  intro x hx
  unfold load at hx
  rw [List.mem_map] at hx
  obtain ⟨i, hi, rfl⟩ := hx
  exact h i (List.mem_range.mp hi)

theorem load_length (mem : Mem) (base n : Nat) : (load mem base n).length = n := by
  simp [load]

theorem load_getD (mem : Mem) (base n i : Nat) (hi : i < n) :
    (load mem base n).getD i 0 = mem (base + i) := by
  simp [load, List.getD_eq_getElem?_getD, hi]

/-- Decoding `ts` from a byte-valued buffer that is long enough and encoding the result
reproduces the bytes: the wire bytes of the decoded fields are the first `widths ts` bytes
of the buffer. -/
theorem wire_of_decoded (host : Endian) (mem : Mem) (buffer n : Nat) (ts : List Field)
    (hsolid : solid_list ts = true) (hfit : widths ts ≤ n) (hrep : widths ts < SIZE_MOD)
    (hbytes : ∀ i, i < widths ts → mem (buffer + i) < 256) :
    wire_fields host (deserialize_from_buffer host mem buffer n 0 ts).1
      = load mem buffer (widths ts) := by
  unfold deserialize_from_buffer
  rw [reencode_fold host mem buffer n 0 ts hsolid (by omega) (by omega), Nat.add_zero,
    load_map_mod mem buffer _ hbytes]

/-! ## The records built from decoded fields -/

theorem SubSystemData.of_fields_conform (s : SubSystemData) (fs : List Field)
    (h : shapes fs = shapes s.fields) : (s.of_fields fs).fields = fs := by
  rcases fs with _ | ⟨f1, _ | ⟨f2, _ | ⟨f3, r⟩⟩⟩
  · simp [shapes, SubSystemData.fields] at h
  · simp [shapes, SubSystemData.fields] at h
  · cases f1 with
    | comp l => simp [shapes, Field.shape, SubSystemData.fields] at h
    | prim t1 v1 =>
      cases f2 with
      | comp l => simp [shapes, Field.shape, SubSystemData.fields] at h
      | prim t2 v2 =>
        simp only [shapes, Field.shape, SubSystemData.fields, List.cons.injEq, Shape.prim.injEq,
          and_true] at h
        obtain ⟨h1, h2⟩ := h
        subst h1; subst h2
        rfl
  · simp [shapes, SubSystemData.fields] at h

theorem SubSystemData.fields_shapes (s r : SubSystemData) : shapes s.fields = shapes r.fields :=
  rfl

theorem SubSystemData.valid_of_fields (s : SubSystemData) (h : valid_list s.fields) :
    s.valid := by
  simp only [SubSystemData.fields, valid_list, Field.valid] at h
  exact ⟨h.1, h.2.1⟩

theorem SubSystemData.fields_valid (s : SubSystemData) (h : s.valid) : valid_list s.fields := by
  simp only [SubSystemData.fields, valid_list, Field.valid]
  exact ⟨h.1, h.2, trivial⟩

theorem SubSystemData.eq_of_fields (s r : SubSystemData) (h : s.fields = r.fields) : s = r := by
  cases s; cases r
  simp only [SubSystemData.fields, List.cons.injEq, Field.prim.injEq, true_and, and_true] at h
  simp [h.1, h.2]

theorem SubSystemData.decoded_fields (host : Endian) (mem : Mem) (buffer n c : Nat)
    (s0 : SubSystemData) :
    (s0.deserialize host mem buffer n c).value.fields
      = (deserialize_from_buffer host mem buffer n 0 s0.fields).1 := by
  simp only [SubSystemData.deserialize]
  exact SubSystemData.of_fields_conform s0 _ (deserialize_fold_shapes _ _ _ _ _ _)

theorem SubSystemData.decoded_wire (host : Endian) (mem : Mem) (buffer n c : Nat)
    (s0 : SubSystemData) (hn : 6 ≤ n) (hbytes : ∀ i, i < 6 → mem (buffer + i) < 256) :
    wire_fields host (s0.deserialize host mem buffer n c).value.fields = load mem buffer 6 := by
  rw [SubSystemData.decoded_fields]
  exact wire_of_decoded host mem buffer n s0.fields rfl hn
    (by rw [SubSystemData.widths_fields]; decide) hbytes

theorem SubSystemData.serialize_mem (host : Endian) (mem : Mem) (s : SubSystemData)
    (buffer capacity c : Nat) (hcap : 6 ≤ capacity) :
    (s.serialize host mem buffer capacity c).result = true ∧
    load (s.serialize host mem buffer capacity c).mem buffer 6 = wire_fields host s.fields := by
  simp only [SubSystemData.serialize]
  rw [serialize_to_buffer_fits host mem buffer capacity s.fields rfl hcap
    (by rw [SubSystemData.widths_fields]; decide)]
  refine ⟨rfl, ?_⟩
  have h := load_store buffer (wire_fields host s.fields) mem
  rw [wire_length host, SubSystemData.widths_fields] at h
  exact h

theorem fields_of_wire (host : Endian) (mem : Mem) (buffer n : Nat) (fs ts : List Field)
    (hshape : shapes ts = shapes fs) (hvalid : valid_list fs) (hsolid : solid_list fs = true)
    (hfit : widths fs ≤ n) (hrep : widths fs < SIZE_MOD)
    (hw : wire_fields host fs = load mem buffer (widths fs)) :
    (deserialize_from_buffer host mem buffer n 0 ts).1 = fs := by
  unfold deserialize_from_buffer
  apply deserialize_fold_value host mem buffer n 0 fs ts hshape hvalid hsolid (by omega)
    (by omega)
  intro i hi
  rw [hw, load_getD _ _ _ _ hi, Nat.add_zero]

/-! ### The flight record -/

theorem flight_field_shape (V W : DO178C_FlightData_t) (m : Member) :
    (V.field m).shape = (W.field m).shape := by
  unfold DO178C_FlightData_t.field
  cases m.decl <;> rfl

theorem flight_map_shapes (V W : DO178C_FlightData_t) (ms : List Member) :
    shapes (ms.map V.field) = shapes (ms.map W.field) := by
  induction ms with
  | nil => rfl
  | cons m ms ih =>
    simp only [List.map_cons, shapes]
    rw [ih, flight_field_shape V W m]

theorem flight_assign_conform (W : DO178C_FlightData_t) (m : Member) (f : Field)
    (h : f.shape = (W.field m).shape) : (W.assign m f).field m = f := by
  unfold DO178C_FlightData_t.assign DO178C_FlightData_t.field at *
  cases hd : m.decl with
  | scalar t =>
    rw [hd] at h
    cases f with
    | comp l => simp [Field.shape] at h
    | prim t2 v =>
      simp only [Field.shape, Shape.prim.injEq] at h
      subst h
      simp [hd]
  | sub_system =>
    rw [hd] at h
    cases f with
    | prim t2 v => simp [Field.shape, SubSystemData.toField] at h
    | comp l =>
      simp only [Field.shape, SubSystemData.toField, Shape.comp.injEq] at h
      simp only [hd, SubSystemData.toField, Field.comp.injEq]
      exact SubSystemData.of_fields_conform _ l h

theorem flight_assign_other (W : DO178C_FlightData_t) (m m2 : Member) (f : Field)
    (h : m2 ≠ m) : (W.assign m f).field m2 = W.field m2 := by
  unfold DO178C_FlightData_t.assign DO178C_FlightData_t.field
  cases hd : m.decl with
  | scalar t =>
    cases f with
    | comp l => rfl
    | prim t2 v =>
      cases hd2 : m2.decl with
      | scalar t3 => simp [hd2, Function.update_noteq h]
      | sub_system => simp [hd2]
  | sub_system =>
    cases f with
    | prim t2 v => rfl
    | comp l =>
      cases hd2 : m2.decl with
      | scalar t3 => simp [hd2]
      | sub_system =>
        exact absurd ((Member.eq_of_decl_sub_system m2 hd2).trans
          (Member.eq_of_decl_sub_system m hd).symm) h

theorem flight_assign_all_other (ms : List Member) :
    ∀ (W : DO178C_FlightData_t) (fs : List Field) (m : Member), m ∉ ms →
      (W.assign_all ms fs).field m = W.field m := by
  induction ms with
  | nil =>
    intro W fs m _
    cases fs <;> rfl
  | cons m0 ms ih =>
    intro W fs m hm
    cases fs with
    | nil => rfl
    | cons f fs =>
      simp only [DO178C_FlightData_t.assign_all]
      rw [ih _ _ m (fun h => hm (List.mem_cons_of_mem _ h)),
        flight_assign_other W m0 m f (fun h => hm (by rw [h]; exact List.mem_cons_self _ _))]

theorem flight_assign_all_conform (ms : List Member) :
    ∀ (W : DO178C_FlightData_t) (fs : List Field), ms.Nodup →
      shapes fs = shapes (ms.map W.field) →
      ms.map (W.assign_all ms fs).field = fs := by
  induction ms with
  | nil =>
    intro W fs _ h
    cases fs with
    | nil => rfl
    | cons f fs => simp [shapes] at h
  | cons m0 ms ih =>
    intro W fs hnd h
    cases fs with
    | nil => simp [shapes] at h
    | cons f fs =>
      simp only [List.map_cons, shapes, List.cons.injEq] at h
      rw [List.nodup_cons] at hnd
      simp only [DO178C_FlightData_t.assign_all, List.map_cons, List.cons.injEq]
      constructor
      · rw [flight_assign_all_other ms _ fs m0 hnd.1]
        exact flight_assign_conform W m0 f h.1
      · apply ih _ fs hnd.2
        rw [h.2]
        exact flight_map_shapes _ _ ms

theorem serialize_args_nodup : DO178C_FlightData_t.serialize_args.Nodup := by
  decide

theorem flight_decoded_fields (host : Endian) (mem : Mem) (buffer n : Nat)
    (V0 : DO178C_FlightData_t) :
    DO178C_FlightData_t.serialize_args.map (V0.deserialize host mem buffer n 0).value.field
      = (deserialize_from_buffer host mem buffer n 0
          (DO178C_FlightData_t.serialize_args.map V0.field)).1 := by
  simp only [DO178C_FlightData_t.deserialize, deserialize_args_eq]
  exact flight_assign_all_conform _ V0 _ serialize_args_nodup
    (deserialize_fold_shapes _ _ _ _ _ _)

theorem flight_wire_of_decoded (host : Endian) (mem : Mem) (buffer n : Nat)
    (V0 : DO178C_FlightData_t) (hn : 460 ≤ n) (hbytes : ∀ i, i < 460 → mem (buffer + i) < 256) :
    wire_fields host
        (DO178C_FlightData_t.serialize_args.map (V0.deserialize host mem buffer n 0).value.field)
      = load mem buffer 460 := by
  rw [flight_decoded_fields]
  have h := wire_of_decoded host mem buffer n (DO178C_FlightData_t.serialize_args.map V0.field)
    (flight_solid V0) (by rw [flight_widths]; exact hn) (by rw [flight_widths]; decide)
    (by rw [flight_widths]; exact hbytes)
  rw [flight_widths] at h
  exact h

theorem flight_serialize_mem (host : Endian) (mem : Mem) (V : DO178C_FlightData_t)
    (buffer capacity : Nat) (hcap : 460 ≤ capacity) :
    (V.serialize host mem buffer capacity 0).result = true ∧
    load (V.serialize host mem buffer capacity 0).mem buffer 460
      = wire_fields host (DO178C_FlightData_t.serialize_args.map V.field) := by
  simp only [DO178C_FlightData_t.serialize]
  rw [flight_serialize_fits host mem V buffer capacity hcap]
  refine ⟨rfl, ?_⟩
  have h := load_store buffer
    (wire_fields host (DO178C_FlightData_t.serialize_args.map V.field)) mem
  rw [wire_length host, flight_widths] at h
  exact h

theorem flight_bool_free (V : DO178C_FlightData_t) :
    bool_free_list (DO178C_FlightData_t.serialize_args.map V.field) = true := by
  rfl

theorem flight_valid_of_fields (V : DO178C_FlightData_t)
    (h : valid_list (DO178C_FlightData_t.serialize_args.map V.field)) : V.valid := by
  have hall : ∀ ms : List Member, valid_list (ms.map V.field) → ∀ m, m ∈ ms →
      (V.field m).valid := by
    intro ms
    induction ms with
    | nil => intro _ m hm; simp at hm
    | cons m0 ms ih =>
      intro hv m hm
      simp only [List.map_cons, valid_list] at hv
      rcases List.mem_cons.mp hm with e | e
      · rw [e]; exact hv.1
      · exact ih hv.2 m e
  have hm := fun m => hall _ h m (mem_serialize_args m)
  constructor
  · intro m t hd
    have := hm m
    simp only [DO178C_FlightData_t.field, hd, Field.valid] at this
    exact this
  · have := hm Member.sub_system_data
    simp only [DO178C_FlightData_t.field, Member.decl, SubSystemData.toField, Field.valid] at this
    exact SubSystemData.valid_of_fields _ this

theorem SubSystemData.decoded_valid (host : Endian) (mem : Mem) (buffer n c : Nat)
    (s0 : SubSystemData) (hn : 6 ≤ n) : (s0.deserialize host mem buffer n c).value.valid := by
  apply SubSystemData.valid_of_fields
  rw [SubSystemData.decoded_fields]
  exact deserialize_fold_valid host mem buffer n 0 s0.fields rfl rfl
    (by rw [SubSystemData.widths_fields]; omega) (by rw [SubSystemData.widths_fields]; decide)

theorem SubSystemData.deserialize_result (host : Endian) (mem : Mem) (buffer n c : Nat)
    (s0 : SubSystemData) (hn : 6 ≤ n) : (s0.deserialize host mem buffer n c).result = true := by
  simp only [SubSystemData.deserialize]
  rw [deserialize_from_buffer_fits_state host mem buffer n s0.fields rfl hn
    (by rw [SubSystemData.widths_fields]; decide)]

theorem flight_decoded_valid (host : Endian) (mem : Mem) (buffer n : Nat)
    (V0 : DO178C_FlightData_t) (hn : 460 ≤ n) :
    (V0.deserialize host mem buffer n 0).value.valid := by
  apply flight_valid_of_fields
  rw [flight_decoded_fields]
  exact deserialize_fold_valid host mem buffer n 0 _ (flight_bool_free V0) (flight_solid V0)
    (by rw [flight_widths]; omega) (by rw [flight_widths]; decide)

theorem flight_deserialize_result (host : Endian) (mem : Mem) (buffer n : Nat)
    (V0 : DO178C_FlightData_t) (hn : 460 ≤ n) :
    (V0.deserialize host mem buffer n 0).result = true := by
  simp only [DO178C_FlightData_t.deserialize, deserialize_args_eq]
  rw [deserialize_from_buffer_fits_state host mem buffer n _ (flight_solid V0)
    (by rw [flight_widths]; exact hn) (by rw [flight_widths]; decide)]

/-- C27: for a byte sequence of at least the packed size (6 for `SubSystemData`,
`trueSize()` for the flight record) at `buffer`, `deserialize` succeeds and gives a record
whose scalars are values of their types; `serialize` of that record into any other buffer of
sufficient capacity succeeds and writes bytes equal to the first packed-size bytes of the
source; a record whose encoding is these bytes is the decoded record; and two byte
sequences that decode to the same record agree on their first packed-size bytes. -/
theorem reverse_round_trip (host : Endian) (mem mem2 : Mem) (buffer n buffer2 capacity : Nat)
    (s0 : SubSystemData) (V0 : DO178C_FlightData_t) :
    (6 ≤ n → 6 ≤ capacity → (∀ i, i < 6 → mem (buffer + i) < 256) →
      (s0.deserialize host mem buffer n 0).result = true ∧
      (s0.deserialize host mem buffer n 0).value.valid ∧
      ((s0.deserialize host mem buffer n 0).value.serialize host mem2 buffer2 capacity 0).result
        = true ∧
      load ((s0.deserialize host mem buffer n 0).value.serialize host mem2 buffer2 capacity 0).mem
        buffer2 6 = load mem buffer 6 ∧
      (∀ s : SubSystemData, s.valid →
        load (s.serialize host mem2 buffer2 capacity 0).mem buffer2 6 = load mem buffer 6 →
        s = (s0.deserialize host mem buffer n 0).value) ∧
      (∀ (mem3 : Mem) (buffer3 n3 : Nat) (s3 : SubSystemData), 6 ≤ n3 →
        (∀ i, i < 6 → mem3 (buffer3 + i) < 256) →
        (s3.deserialize host mem3 buffer3 n3 0).value = (s0.deserialize host mem buffer n 0).value →
        load mem3 buffer3 6 = load mem buffer 6)) ∧
    (V0.trueSize ≤ n → V0.trueSize ≤ capacity →
      (∀ i, i < V0.trueSize → mem (buffer + i) < 256) →
      (V0.deserialize host mem buffer n 0).result = true ∧
      (V0.deserialize host mem buffer n 0).value.valid ∧
      ((V0.deserialize host mem buffer n 0).value.serialize host mem2 buffer2 capacity 0).result
        = true ∧
      load ((V0.deserialize host mem buffer n 0).value.serialize host mem2 buffer2 capacity 0).mem
        buffer2 V0.trueSize = load mem buffer V0.trueSize ∧
      (∀ V : DO178C_FlightData_t, V.valid →
        load (V.serialize host mem2 buffer2 capacity 0).mem buffer2 V0.trueSize
          = load mem buffer V0.trueSize →
        ∀ m, V.field m = (V0.deserialize host mem buffer n 0).value.field m) ∧
      (∀ (mem3 : Mem) (buffer3 n3 : Nat) (V3 : DO178C_FlightData_t), V0.trueSize ≤ n3 →
        (∀ i, i < V0.trueSize → mem3 (buffer3 + i) < 256) →
        (∀ m, (V3.deserialize host mem3 buffer3 n3 0).value.field m
          = (V0.deserialize host mem buffer n 0).value.field m) →
        load mem3 buffer3 V0.trueSize = load mem buffer V0.trueSize)) := by
  constructor
  · intro hn hcap hbytes
    have hk := SubSystemData.decoded_wire host mem buffer n 0 s0 hn hbytes
    have hs := SubSystemData.serialize_mem host mem2
      (s0.deserialize host mem buffer n 0).value buffer2 capacity 0 hcap
    refine ⟨SubSystemData.deserialize_result host mem buffer n 0 s0 hn,
      SubSystemData.decoded_valid host mem buffer n 0 s0 hn, hs.1, by rw [hs.2, hk], ?_, ?_⟩
    · intro s hv hl
      have hw := (SubSystemData.serialize_mem host mem2 s buffer2 capacity 0 hcap).2
      rw [hl] at hw
      have hd := fields_of_wire host mem buffer n s.fields s0.fields rfl
        (SubSystemData.fields_valid s hv) rfl
        (by rw [SubSystemData.widths_fields]; exact hn)
        (by rw [SubSystemData.widths_fields]; decide)
        (by rw [SubSystemData.widths_fields]; exact hw.symm)
      apply SubSystemData.eq_of_fields
      rw [SubSystemData.decoded_fields, hd]
    · intro mem3 buffer3 n3 s3 hn3 hbytes3 he
      rw [← SubSystemData.decoded_wire host mem3 buffer3 n3 0 s3 hn3 hbytes3, he, hk]
  · simp only [flight_trueSize]
    intro hn hcap hbytes
    have hk := flight_wire_of_decoded host mem buffer n V0 hn hbytes
    have hs := flight_serialize_mem host mem2
      (V0.deserialize host mem buffer n 0).value buffer2 capacity hcap
    refine ⟨flight_deserialize_result host mem buffer n V0 hn,
      flight_decoded_valid host mem buffer n V0 hn, hs.1, by rw [hs.2, hk], ?_, ?_⟩
    · intro V hv hl
      have hw := (flight_serialize_mem host mem2 V buffer2 capacity hcap).2
      rw [hl] at hw
      have hd := fields_of_wire host mem buffer n
        (DO178C_FlightData_t.serialize_args.map V.field)
        (DO178C_FlightData_t.serialize_args.map V0.field) (flight_shapes V0 V)
        (flight_valid_list V hv _) (flight_solid V)
        (by rw [flight_widths]; exact hn) (by rw [flight_widths]; decide)
        (by rw [flight_widths]; exact hw.symm)
      rw [← flight_decoded_fields] at hd
      intro m
      exact ((List.map_inj_left.mp hd) m (mem_serialize_args m)).symm
    · intro mem3 buffer3 n3 V3 hn3 hbytes3 he
      have e : DO178C_FlightData_t.serialize_args.map
            (V3.deserialize host mem3 buffer3 n3 0).value.field
          = DO178C_FlightData_t.serialize_args.map
            (V0.deserialize host mem buffer n 0).value.field :=
        List.map_congr_left (fun m _ => he m)
      rw [← flight_wire_of_decoded host mem3 buffer3 n3 V3 hn3 hbytes3, ← hk, e]

/-- C27 at the all-zero byte sequence: 6 bytes for `SubSystemData`, 460 for the flight
record; the re-encoded bytes are again all zero. -/
theorem reverse_round_trip_witness :
    ((SubSystemData.mk 1 2).deserialize .Little (fun _ => 0) 0 6 0).result = true ∧
    load (((SubSystemData.mk 1 2).deserialize .Little (fun _ => 0) 0 6 0).value.serialize
      .Little (fun _ => 7) 100 6 0).mem 100 6 = load (fun _ => 0) 0 6 ∧
    (DO178C_FlightData_t.sample.deserialize .Little (fun _ => 0) 0 460 0).result = true ∧
    load ((DO178C_FlightData_t.sample.deserialize .Little (fun _ => 0) 0 460 0).value.serialize
      .Little (fun _ => 7) 1000 460 0).mem 1000 DO178C_FlightData_t.sample.trueSize
      = load (fun _ => 0) 0 DO178C_FlightData_t.sample.trueSize :=
  ⟨((reverse_round_trip .Little (fun _ => 0) (fun _ => 7) 0 6 100 6 (SubSystemData.mk 1 2)
      DO178C_FlightData_t.sample).1 (by decide) (by decide) (fun _ _ => by decide)).1,
    ((reverse_round_trip .Little (fun _ => 0) (fun _ => 7) 0 6 100 6 (SubSystemData.mk 1 2)
      DO178C_FlightData_t.sample).1 (by decide) (by decide) (fun _ _ => by decide)).2.2.2.1,
    ((reverse_round_trip .Little (fun _ => 0) (fun _ => 7) 0 460 1000 460 (SubSystemData.mk 1 2)
      DO178C_FlightData_t.sample).2 (by rw [flight_trueSize]) (by rw [flight_trueSize])
      (fun _ _ => by decide)).1,
    ((reverse_round_trip .Little (fun _ => 0) (fun _ => 7) 0 460 1000 460 (SubSystemData.mk 1 2)
      DO178C_FlightData_t.sample).2 (by rw [flight_trueSize]) (by rw [flight_trueSize])
      (fun _ _ => by decide)).2.2.2.1⟩

/-! ## Capability detection -/

theorem treatments_composite_iff (T : Capabilities) :
    (serialize_treatment T = .composite ∧ deserialize_treatment T = .composite ∧
        size_treatment T = .composite) ↔ is_composite_spec T = true := by
  rcases T with ⟨a, b, c⟩
  cases a <;> cases b <;> cases c <;> decide

theorem serialize_process_object_composite (host : Endian) (buffer buffer_len : Nat)
    (st : SerState) (x : ClassObject) (h : x.caps.serialize = true) :
    serialize_process_object host buffer buffer_len st x
      = serialize_process_field host buffer buffer_len st (.comp x.members) := by
  unfold serialize_process_object
  by_cases hst : st.global_success = false
  · rw [if_pos hst, serialize_process_field_failed _ _ _ _ _ hst]
  · rw [if_neg hst]
    simp [serialize_treatment, has_serialize, h]

theorem serialize_process_object_primitive (host : Endian) (buffer buffer_len : Nat)
    (mem : Mem) (o : Nat) (x : ClassObject) (h : x.caps.serialize = false) :
    serialize_process_object host buffer buffer_len
        { mem := mem, offset := o, global_success := true } x
      = if (o + x.size) % SIZE_MOD > buffer_len then
          { mem := mem, offset := o, global_success := false }
        else
          { mem := fun a => if buffer + o ≤ a ∧ a < buffer + o + x.size
              then x.bytes.getD (a - (buffer + o)) 0 % 256 else mem a
            offset := (o + x.size) % SIZE_MOD
            global_success := true } := by
  unfold serialize_process_object
  simp only [serialize_treatment, has_serialize, h, Bool.true_eq_false, if_false,
    Bool.false_eq_true, foldl_update_range]

theorem deserialize_process_object_composite (host : Endian) (mem : Mem)
    (buffer buffer_len : Nat) (st : DeserState) (x : ClassObject)
    (h : x.caps.deserialize = true) :
    (deserialize_process_object host mem buffer buffer_len st x).2
      = (deserialize_process_field host mem buffer buffer_len st (.comp x.members)).2 ∧
    Field.comp (deserialize_process_object host mem buffer buffer_len st x).1.members
      = (deserialize_process_field host mem buffer buffer_len st (.comp x.members)).1 ∧
    (deserialize_process_object host mem buffer buffer_len st x).1.bytes = x.bytes := by
  unfold deserialize_process_object
  by_cases hst : st.global_success = false
  · rw [if_pos hst, deserialize_process_field_failed _ _ _ _ _ _ hst]
    exact ⟨rfl, rfl, rfl⟩
  · rw [if_neg hst]
    simp only [deserialize_treatment, has_deserialize, h, if_true]
    have hs := deserialize_process_field_shape host mem buffer buffer_len st (.comp x.members)
    generalize deserialize_process_field host mem buffer buffer_len st (.comp x.members) = r
      at hs ⊢
    rcases r with ⟨f, st2⟩
    cases f with
    | prim t v => simp [Field.shape] at hs
    | comp fs => exact ⟨rfl, rfl, rfl⟩

theorem deserialize_process_object_primitive (host : Endian) (mem : Mem)
    (buffer buffer_len o : Nat) (x : ClassObject) (h : x.caps.deserialize = false) :
    deserialize_process_object host mem buffer buffer_len
        { offset := o, global_success := true } x
      = if (o + x.size) % SIZE_MOD > buffer_len then
          (x, { offset := o, global_success := false })
        else
          ({ x with bytes := (load mem (buffer + o) x.size).map (fun b => b % 256) },
            { offset := (o + x.size) % SIZE_MOD, global_success := true }) := by
  unfold deserialize_process_object
  simp only [deserialize_treatment, has_deserialize, h, Bool.true_eq_false, if_false,
    Bool.false_eq_true, load, List.map_map]
  rfl

/-- C22 (counterexample): a class of size 3 that exposes `serialize` only (its `serialize`
passes one `uint8_t` member to the engine) is delegated to by the encode engine, which
writes that one byte and advances the cursor by the reported count 1, not by `sizeof` 3,
although the class does not expose all three operations; the decode engine reads 3 raw
bytes into it and the size calculator counts `sizeof` 3. -/
theorem serialize_only_type_is_composite_for_encode :
    is_composite_spec serialize_only_object.caps = false ∧
    (serialize_process_object .Little 0 8 { mem := fun _ => 0, offset := 0, global_success := true }
      serialize_only_object).global_success = true ∧
    (serialize_process_object .Little 0 8 { mem := fun _ => 0, offset := 0, global_success := true }
      serialize_only_object).offset = 1 ∧
    load (serialize_process_object .Little 0 8
      { mem := fun _ => 0, offset := 0, global_success := true } serialize_only_object).mem 0 3
      = [1, 0, 0] ∧
    (deserialize_process_object .Little (fun a => a + 7) 0 8
      { offset := 0, global_success := true } serialize_only_object).2.offset = 3 ∧
    (deserialize_process_object .Little (fun a => a + 7) 0 8
      { offset := 0, global_success := true } serialize_only_object).1.bytes = [7, 8, 9] ∧
    values_list (deserialize_process_object .Little (fun a => a + 7) 0 8
      { offset := 0, global_success := true } serialize_only_object).1.members = [1] ∧
    object_size serialize_only_object = 3 := by
  decide

/-- C22 (amended): each engine probes only its own operation. An object whose class exposes
`serialize` is delegated to by the encode engine, which processes it as the composite of its
members; one whose class does not is copied: when `sizeof` bytes fit at the cursor they are
written there unchanged and the cursor advances by `sizeof`. In the same way the decode
engine delegates exactly when the class exposes `deserialize`, and the size calculator adds
`trueSize()` exactly when the class exposes `trueSize`, `sizeof` otherwise. So an object is
treated as composite by all three exactly when its class exposes all three operations. -/
theorem capability_detection_per_engine (host : Endian) (mem : Mem)
    (buffer buffer_len o : Nat) (x : ClassObject) :
    (x.caps.serialize = true →
      serialize_process_object host buffer buffer_len
          { mem := mem, offset := o, global_success := true } x
        = serialize_process_field host buffer buffer_len
            { mem := mem, offset := o, global_success := true } (.comp x.members)) ∧
    (x.caps.serialize = false →
      serialize_process_object host buffer buffer_len
          { mem := mem, offset := o, global_success := true } x
        = if (o + x.size) % SIZE_MOD > buffer_len then
            { mem := mem, offset := o, global_success := false }
          else
            { mem := fun a => if buffer + o ≤ a ∧ a < buffer + o + x.size
                then x.bytes.getD (a - (buffer + o)) 0 % 256 else mem a
              offset := (o + x.size) % SIZE_MOD
              global_success := true }) ∧
    (x.caps.deserialize = true →
      (deserialize_process_object host mem buffer buffer_len
          { offset := o, global_success := true } x).2
        = (deserialize_process_field host mem buffer buffer_len
            { offset := o, global_success := true } (.comp x.members)).2 ∧
      Field.comp (deserialize_process_object host mem buffer buffer_len
          { offset := o, global_success := true } x).1.members
        = (deserialize_process_field host mem buffer buffer_len
            { offset := o, global_success := true } (.comp x.members)).1 ∧
      (deserialize_process_object host mem buffer buffer_len
          { offset := o, global_success := true } x).1.bytes = x.bytes) ∧
    (x.caps.deserialize = false →
      deserialize_process_object host mem buffer buffer_len
          { offset := o, global_success := true } x
        = if (o + x.size) % SIZE_MOD > buffer_len then
            (x, { offset := o, global_success := false })
          else
            ({ x with bytes := (load mem (buffer + o) x.size).map (fun b => b % 256) },
              { offset := (o + x.size) % SIZE_MOD, global_success := true })) ∧
    (x.caps.trueSize = true → object_size x = calculate_packed_size x.members) ∧
    (x.caps.trueSize = false → object_size x = x.size) ∧
    ((serialize_treatment x.caps = .composite ∧ deserialize_treatment x.caps = .composite ∧
        size_treatment x.caps = .composite) ↔ is_composite_spec x.caps = true) := by
  refine ⟨serialize_process_object_composite host buffer buffer_len _ x,
    serialize_process_object_primitive host buffer buffer_len mem o x,
    deserialize_process_object_composite host mem buffer buffer_len _ x,
    deserialize_process_object_primitive host mem buffer buffer_len o x, ?_, ?_, ?_⟩
  · intro h
    simp [object_size, size_treatment, has_trueSize, h, calculate_packed_size]
  · intro h
    simp [object_size, size_treatment, has_trueSize, h]
  · exact treatments_composite_iff x.caps

/-- C22 (amended) at a `SubSystemData` object (all three operations, `sizeof` 8) and at the
class that exposes `serialize` only, with an 8-byte buffer at address 0 of a zeroed
memory: the first is processed by every engine as the composite of its members, the second
by the encode engine only. -/
theorem capability_detection_per_engine_witness :
    serialize_process_object .Little 0 8
        { mem := fun _ => 0, offset := 0, global_success := true }
        { caps := { serialize := true, deserialize := true, trueSize := true }
          size := 8
          bytes := [101, 0, 0, 0, 0xCD, 0xCC, 0x0E, 0x42]
          members := (SubSystemData.mk 101 0x420ECCCD).fields }
      = serialize_process_field .Little 0 8
          { mem := fun _ => 0, offset := 0, global_success := true }
          (SubSystemData.mk 101 0x420ECCCD).toField ∧
    object_size
        { caps := { serialize := true, deserialize := true, trueSize := true }
          size := 8
          bytes := [101, 0, 0, 0, 0xCD, 0xCC, 0x0E, 0x42]
          members := (SubSystemData.mk 101 0x420ECCCD).fields }
      = calculate_packed_size (SubSystemData.mk 101 0x420ECCCD).fields ∧
    serialize_process_object .Little 0 8
        { mem := fun _ => 0, offset := 0, global_success := true } serialize_only_object
      = serialize_process_field .Little 0 8
          { mem := fun _ => 0, offset := 0, global_success := true }
          (.comp serialize_only_object.members) ∧
    object_size serialize_only_object = serialize_only_object.size :=
  ⟨(capability_detection_per_engine .Little (fun _ => 0) 0 8 0
      { caps := { serialize := true, deserialize := true, trueSize := true }
        size := 8
        bytes := [101, 0, 0, 0, 0xCD, 0xCC, 0x0E, 0x42]
        members := (SubSystemData.mk 101 0x420ECCCD).fields }).1 rfl,
    (capability_detection_per_engine .Little (fun _ => 0) 0 8 0
      { caps := { serialize := true, deserialize := true, trueSize := true }
        size := 8
        bytes := [101, 0, 0, 0, 0xCD, 0xCC, 0x0E, 0x42]
        members := (SubSystemData.mk 101 0x420ECCCD).fields }).2.2.2.2.1 rfl,
    (capability_detection_per_engine .Little (fun _ => 0) 0 8 0 serialize_only_object).1 rfl,
    (capability_detection_per_engine .Little (fun _ => 0) 0 8 0
      serialize_only_object).2.2.2.2.2.1 rfl⟩

end SafeSerializer
